import Mathlib

/-!
# The demuxer packet pipeline of mpv: packet queue, demuxer core and wrapper

A shallow embedding of `demux/packet.c`, of `demux/demux.c`, of the threaded
wrapper `demux/thread_wrapper.c` and of the path helpers `mp_splitext` and
`mp_path_join` of `mpvcore/path.c`, with the properties of the queue, of
packet injection, of the back-pressure test, of the read path, of track
selection, seeking, chapters, tags, format probing, the wrapper and the path
helpers proved about it.

Conventions of the embedding

* A `double` is the rational number it stands for; `MP_NOPTS_VALUE` is the
  value `-2^63`. The timestamps (`pts`, `duration`, `stream_pts`) are only
  stored, copied, compared and handed to the plugin and the stream layer. In
  the chapter code, where the result of `double` arithmetic is the result of
  the function or decides it, every operation is the exact operation followed
  by `round_double`, the rounding of IEEE 754 binary64 to nearest, ties to
  even, one rounding for each operation. The conversion of a `double` outside
  the range of `uint64_t`, which C leaves undefined, gives the number of the
  parameter `c_compiler`.
* `size_t` is 64 bits wide: every `size_t` addition and subtraction is taken
  modulo `2^64`. An `int` counter (`packs`, `count`) is a mathematical
  integer: signed overflow is undefined in C and is not reached by any queue
  that fits in memory.
* The singly linked chain that starts at `pq->head` is the list of the linked
  packets in chain order (`[]` is `NULL`); `pq->tail` is the packet it points
  to (`none` is `NULL`). A packet's `next` field is this list structure.
* A `struct sh_stream *` is `none` (`NULL`) or the position of the track in
  `demuxer->streams`.
* The pthread mutex of a queue only serialises the operations; each operation
  is one atomic state transition.
* A function of the wrapper is a function of the wrapper state; the two
  threads of the wrapper together are a transition system over the positions
  of the threads in the source, with the steps in any order.
-/

namespace Demux

/-! ## Packets (`struct demux_packet`) -/

/-- The `MP_NOPTS_VALUE` constant: the "no value" timestamp. -/
def MP_NOPTS_VALUE : Rat := -9223372036854775808

/-- One more than `SIZE_MAX`: `size_t` arithmetic is modulo this number. -/
def SIZE_MODULUS : Nat := 18446744073709551616

/-- The `AVPacket` of libavcodec, as far as the packet code looks at it. -/
structure AVPacket where
  data : Option Nat
  size : Nat
deriving DecidableEq, Repr

/-- The `struct demux_packet`. `buffer` and `allocation` are addresses of
byte buffers (`none` is `NULL`); `next` is represented by the position of the
packet in the list of its queue. -/
structure demux_packet where
  len : Nat
  pts : Rat
  duration : Rat
  stream_pts : Rat
  pos : Int
  buffer : Option Nat
  stream : Int
  allocation : Option Nat
  avpacket : Option AVPacket
deriving DecidableEq, Repr

/-! ## The packet queue (`demux/packet.c`) -/

/-- The `struct packet_queue` (without its mutex). -/
structure packet_queue where
  eof : Bool
  packs : Int
  bytes : Nat
  head : List demux_packet
  tail : Option demux_packet
deriving DecidableEq, Repr

/-- `packet_queue_create`: `talloc_zero` gives an all-zero queue. -/
def packet_queue_create : packet_queue :=
  { eof := false, packs := 0, bytes := 0, head := [], tail := none }

/-- `packet_queue_add`: append `dp` to the queue. -/
def packet_queue_add (pq : packet_queue) (dp : demux_packet) : packet_queue :=
  { eof := false
    packs := pq.packs + 1
    bytes := (pq.bytes + dp.len) % SIZE_MODULUS
    head := match pq.tail with
      | some _ => pq.head ++ [dp]
      | none => [dp]
    tail := some dp }

/-- `packet_queue_get`: unqueue and return the oldest packet. -/
def packet_queue_get (pq : packet_queue) : Option demux_packet × packet_queue :=
  match pq.head with
  | dp :: rest =>
    (some dp,
     { pq with
       head := rest
       tail := if rest.isEmpty then none else pq.tail
       bytes := (pq.bytes + (SIZE_MODULUS - dp.len % SIZE_MODULUS)) % SIZE_MODULUS
       packs := pq.packs - 1 })
  | [] => (none, pq)

/-- `packet_queue_is_empty`: `!pq->head`. -/
def packet_queue_is_empty (pq : packet_queue) : Bool := pq.head.isEmpty

/-- `packet_queue_is_eof`: the EOF flag. -/
def packet_queue_is_eof (pq : packet_queue) : Bool := pq.eof

/-- `packet_queue_set_eof`: `pq->eof = state && !pq->head`. -/
def packet_queue_set_eof (pq : packet_queue) (state : Bool) : packet_queue :=
  { pq with eof := state && pq.head.isEmpty }

/-- `packet_queue_get_pts`: pts of the packet `packet_queue_get` would return. -/
def packet_queue_get_pts (pq : packet_queue) : Rat :=
  match pq.head with
  | dp :: _ => dp.pts
  | [] => MP_NOPTS_VALUE

/-- `packet_queue_flush`: drop every packet and reset the bookkeeping. -/
def packet_queue_flush (_pq : packet_queue) : packet_queue :=
  { eof := false, packs := 0, bytes := 0, head := [], tail := none }

/-- `packet_queue_add_size`: add the queue size to `*size` and `*count`. -/
def packet_queue_add_size (pq : packet_queue) (size : Nat) (count : Int) : Nat × Int :=
  ((size + pq.bytes) % SIZE_MODULUS, count + pq.packs)

/-! ### Sequences of queue operations -/

/-- Append the packets of a list, first to last, with `packet_queue_add`. -/
def packet_queue_add_all (pq : packet_queue) : List demux_packet → packet_queue
  | [] => pq
  | dp :: rest => packet_queue_add_all (packet_queue_add pq dp) rest

/-- The results of `n` successive calls of `packet_queue_get`, with the queue
left by the last call. -/
def packet_queue_get_n : Nat → packet_queue → List (Option demux_packet) × packet_queue
  | 0, pq => ([], pq)
  | n + 1, pq =>
    let r := packet_queue_get pq
    let rs := packet_queue_get_n n r.2
    (r.1 :: rs.1, rs.2)

/-- One call of the queue API that changes the queue. -/
inductive pq_op where
  | add (dp : demux_packet)
  | get
  | set_eof (state : Bool)
  | flush
deriving DecidableEq, Repr

/-- The queue after one API call. -/
def pq_step (pq : packet_queue) : pq_op → packet_queue
  | .add dp => packet_queue_add pq dp
  | .get => (packet_queue_get pq).2
  | .set_eof state => packet_queue_set_eof pq state
  | .flush => packet_queue_flush pq

/-- The queue after a sequence of API calls, first to last. -/
def pq_run (pq : packet_queue) (ops : List pq_op) : packet_queue :=
  ops.foldl pq_step pq

/-- The chain invariant of the queue: `tail` is the last packet linked from
`head` (and `NULL` exactly when `head` is). -/
def pq_linked (pq : packet_queue) : Prop := pq.tail = pq.head.getLast?

instance (pq : packet_queue) : Decidable (pq_linked pq) := by
  unfold pq_linked; infer_instance

/-! ## Packet allocation and duplication (`demux/demux.c`) -/

/-- The byte buffers of the C heap: the buffer at address `a` is `mem[a]`, a
list of byte values. Releasing a buffer is not represented. -/
abbrev memory := List (List Nat)

/-- Constants of `demux.h`, which is not among the sources: they are
parameters of the embedding. -/
structure demux_h where
  MAX_PACKS : Int
  MAX_PACK_BYTES : Nat
  MP_INPUT_BUFFER_PADDING_SIZE : Nat
  MAX_SH_STREAMS : Int := 256
  SEEK_ABSOLUTE : Nat := 1
  SEEK_FACTOR : Nat := 2
  DEMUXER_CTRL_NOTIMPL : Int := -1
  DEMUXER_CTRL_OK : Int := 1
deriving DecidableEq, Repr

/-- `malloc(size)`: `none` is `NULL` (the allocation failed); otherwise the
address of a fresh buffer of `size` bytes whose contents are indeterminate,
`fill i` being the byte found at offset `i`. -/
def malloc (mem : memory) (size : Nat) (fill : Option (Nat → Nat)) :
    Option Nat × memory :=
  match fill with
  | none => (none, mem)
  | some f => (some mem.length, mem ++ [(List.range size).map f])

/-- `memset(p + off, 0, n)` on the bytes of one buffer. -/
def memset_zero (buf : List Nat) (off n : Nat) : List Nat :=
  buf.take off ++ List.replicate n 0 ++ buf.drop (off + n)

/-- `memcpy(dst, src, n)` on the bytes of two buffers. -/
def memcpy (dst src : List Nat) (n : Nat) : List Nat :=
  src.take n ++ dst.drop n

/-- `create_packet`: `none` is `abort()`. -/
def create_packet (len : Nat) : Option demux_packet :=
  if len > 1000000000 then none
  else some
    { len := len
      pts := MP_NOPTS_VALUE
      duration := -1
      stream_pts := MP_NOPTS_VALUE
      pos := -1
      buffer := none
      stream := -1
      allocation := none
      avpacket := none }

/-- `new_demux_packet`: `none` is `abort()`. -/
def new_demux_packet (c : demux_h) (mem : memory) (len : Nat)
    (fill : Option (Nat → Nat)) : Option (demux_packet × memory) :=
  match create_packet len with
  | none => none
  | some dp =>
    match malloc mem (len + c.MP_INPUT_BUFFER_PADDING_SIZE) fill with
    | (none, _) => none
    | (some a, mem1) =>
      match mem1[a]? with
      | none => none
      | some buf =>
        let mem2 := mem1.set a (memset_zero buf len c.MP_INPUT_BUFFER_PADDING_SIZE)
        some ({ dp with buffer := some a, allocation := some a }, mem2)

/-- `new_demux_packet_fromdata`: wrap `data` without copying it. -/
def new_demux_packet_fromdata (data : Option Nat) (len : Nat) : Option demux_packet :=
  match create_packet len with
  | none => none
  | some dp => some { dp with buffer := data }

/-- `demux_copy_packet`: `none` is `abort()` or an access outside the heap.
`ffmpeg` is the compile-time test `LIBAVCODEC_VERSION_MICRO >= 100` and
`av_copy_packet` the libavcodec routine of that name (`none` is a negative
return value). -/
def demux_copy_packet (c : demux_h) (ffmpeg : Bool)
    (av_copy_packet : memory → AVPacket → Option (AVPacket × memory))
    (mem : memory) (dp : demux_packet) (fill : Option (Nat → Nat)) :
    Option (demux_packet × memory) :=
  let viaAv : Option (Option (demux_packet × memory)) :=
    match ffmpeg, dp.avpacket with
    | true, some avp =>
      if dp.buffer = avp.data ∧ dp.len = avp.size then
        match av_copy_packet mem avp with
        | none => some none
        | some (newavp, mem1) =>
          match new_demux_packet_fromdata newavp.data newavp.size with
          | none => some none
          | some new => some (some ({ new with avpacket := some newavp }, mem1))
      else some none
    | _, _ => none
  let fresh : Option (demux_packet × memory) :=
    match viaAv with
    | some r => r
    | none =>
      match new_demux_packet c mem dp.len fill with
      | none => none
      | some (new, mem1) =>
        match new.buffer, dp.buffer with
        | some d, some s =>
          match mem1[d]?, mem1[s]? with
          | some dst, some src => some (new, mem1.set d (memcpy dst src new.len))
          | _, _ => none
        | _, _ => none
  match fresh with
  | none => none
  | some (new, mem1) =>
    some ({ new with pts := dp.pts, duration := dp.duration, stream_pts := dp.stream_pts },
          mem1)

/-- Store byte `v` at offset `off` of the buffer at address `a`. -/
def poke (mem : memory) (a off v : Nat) : memory :=
  match mem[a]? with
  | some buf => mem.set a (buf.set off v)
  | none => mem

/-- The first `n` bytes of the buffer at address `a`. -/
def peek_bytes (mem : memory) (a : Option Nat) (n : Nat) : Option (List Nat) :=
  match a with
  | some a => (mem[a]?).map (fun buf => buf.take n)
  | none => none

/-! ## Tracks and the demuxer (`demux/demux.c`) -/

/-- The `enum stream_type` (`STREAM_TYPE_COUNT` is the number of its values). -/
inductive stream_type where
  | STREAM_VIDEO
  | STREAM_AUDIO
  | STREAM_SUB
deriving DecidableEq, Repr

/-- The `struct sh_stream`, as far as the packet path uses it. `pq` is the
queue the `pq` pointer refers to. -/
structure sh_stream where
  type : stream_type
  index : Int
  demuxer_id : Int
  selected : Bool
  pq : packet_queue
deriving DecidableEq, Repr

/-- One line written by `printf`, `mp_msg`, `mp_tmsg` or `mp_dbg`. -/
inductive msg_line where
  | kill
  | append_packet (type : stream_type) (len : Nat) (pts : Rat) (pos : Int)
      (a v s : Int)
  | too_many_packets (vcount : Int) (vbytes : Nat) (acount : Int) (abytes : Nat)
      (scount : Int) (sbytes : Nat)
  | maybe_non_interleaved
  | ds_get_packets_called (type : stream_type)
  | ds_get_packets_eof (type : stream_type)
  | too_many_streams
  | cannot_seek
  | trying_demuxer (name level : String)
  | detected_file_format (filetype : Option String) (desc : String)
  | not_seekable_but_cache
  | demuxer_does_not_exist (name : String)
  | demuxer_info_changed (opt param : String)
deriving DecidableEq, Repr

/-! ### Tags, chapters, the stream and the calls to the outside -/

/-- The `struct mp_tags`: the arrays `keys[0 .. num_keys)` and
`values[0 .. num_keys)`. A `bstr` and a C string are the string of their
bytes. -/
structure mp_tags where
  keys : List String := []
  values : List String := []
deriving DecidableEq, Repr

/-- The `struct demux_chapter`. `start` and `end` are `uint64_t` nanoseconds. -/
structure demux_chapter where
  original_index : Int
  start : Nat
  end_ : Nat
  name : Option String
  metadata : mp_tags
  demuxer_id : Nat
deriving DecidableEq, Repr

/-- The fields of `struct stream` that `demux.c` reads; `uncached_stream` is
whether that pointer is non-null, and `state` stands for everything else the
stream layer keeps of the stream (position, buffers). -/
structure stream where
  flags : Nat := 0
  start_pos : Int := 0
  end_pos : Int := 0
  url : String := ""
  demuxer : Option String := none
  uncached_stream : Bool := false
  state : List Int := []
deriving DecidableEq, Repr

/-- The `enum demux_check`: how sure a plugin has to be of the format. -/
inductive demux_check where
  | DEMUX_CHECK_FORCE
  | DEMUX_CHECK_UNSAFE
  | DEMUX_CHECK_REQUEST
  | DEMUX_CHECK_NORMAL
deriving DecidableEq, Repr

/-- The `DEMUXER_CTRL_*` commands that occur in the sources. -/
inductive demuxer_ctrl where
  | DEMUXER_CTRL_SWITCHED_TRACKS
  | DEMUXER_CTRL_RESYNC
  | DEMUXER_CTRL_UPDATE_INFO
  | DEMUXER_CTRL_FLUSH
  | DEMUXER_CTRL_GET_TIME_LENGTH
  | DEMUXER_CTRL_GET_START_TIME
  | DEMUXER_CTRL_IDENTIFY_PROGRAM
deriving DecidableEq, Repr

/-- The `STREAM_CTRL_*` commands that occur in the sources. -/
inductive stream_ctrl where
  | STREAM_CTRL_GET_TIME_LENGTH
  | STREAM_CTRL_SEEK_TO_TIME
  | STREAM_CTRL_GET_METADATA
  | STREAM_CTRL_GET_CHAPTER_TIME
  | STREAM_CTRL_SEEK_TO_CHAPTER
  | STREAM_CTRL_GET_CURRENT_CHAPTER
  | STREAM_CTRL_GET_NUM_CHAPTERS
  | STREAM_CTRL_GET_START_TIME
  | STREAM_CTRL_GET_NUM_ANGLES
  | STREAM_CTRL_GET_ANGLE
  | STREAM_CTRL_SET_ANGLE
deriving DecidableEq, Repr

/-- What the `void *arg` of a control call points to: nothing, an `int`, a
`double`, or a `NULL`-terminated array of strings. -/
inductive ctrl_arg where
  | null
  | int (v : Int)
  | double (v : Rat)
  | strings (v : List String)
deriving DecidableEq, Repr

/-- One call that leaves `demux.c`: into a format plugin or into the stream
layer. The list of these calls is kept with the demuxer by the embedding; it
is no field of the C structure and no plugin can change it. -/
inductive ext_call where
  | desc_open (name : String) (check : demux_check) (ret : Int)
  | desc_close (name : String)
  | desc_seek (rel_seek_secs : Rat) (flags : Nat)
  | desc_control (cmd : demuxer_ctrl)
  | stream_seek (pos : Int)
  | stream_peek (len : Nat)
  | stream_control (cmd : stream_ctrl)
deriving DecidableEq, Repr

/-- The `struct demuxer`, as far as the modelled functions use it. `streams`
is the array `streams[0 .. num_streams)`, `chapters` the array
`chapters[0 .. num_chapters)`, `priv` the state of the format plugin,
`stream` the stream the `stream` pointer refers to, `params` and `opts`
stand for the pointers of these names, `msgs` are the lines written so far by
calls on this demuxer, and `calls` the calls made so far into the plugin and
the stream layer. -/
structure demuxer (P : Type) where
  streams : List sh_stream
  filepos : Int
  stream_pts : Rat
  warned_queue_overflow : Bool
  stream_autoselect : Bool
  priv : P
  msgs : List msg_line
  type : Int := 0
  seekable : Bool := false
  accurate_seek : Bool := false
  ts_resets_possible : Bool := false
  filetype : Option String := none
  filename : String := ""
  chapters : List demux_chapter := []
  metadata : mp_tags := {}
  stream : stream := {}
  params : Option Nat := none
  opts : Nat := 0
  calls : List ext_call := []

/-- The `struct demuxer_desc` of a format plugin; `none` is a `NULL` function
pointer. `open_` is the `open` entry, which `open_given_type` calls without a
test for `NULL`. The `void *arg` of `control` is passed in and handed back. -/
structure demuxer_desc (P : Type) where
  fill_buffer : Option (demuxer P → Int × demuxer P)
  name : String := ""
  desc : String := ""
  type : Int := 0
  open_ : demuxer P → demux_check → Int × demuxer P := fun d _ => (-1, d)
  seek : Option (demuxer P → Rat → Nat → demuxer P) := none
  control : Option (demuxer P → demuxer_ctrl → ctrl_arg → Int × ctrl_arg × demuxer P) := none
  close : Option (demuxer P → demuxer P) := none

/-- `get_queue_sizes`: bytes and packets queued per stream type. -/
def get_queue_sizes {P : Type} (demux : demuxer P) :
    (stream_type → Nat) × (stream_type → Int) :=
  demux.streams.foldl
    (fun acc sh =>
      let r := packet_queue_add_size sh.pq (acc.1 sh.type) (acc.2 sh.type)
      (Function.update acc.1 sh.type r.1, Function.update acc.2 sh.type r.2))
    (fun _ => 0, fun _ => 0)

/-- The packet after the assignment `dp->stream = index`. -/
def set_stream (dp : demux_packet) (index : Int) : demux_packet :=
  { dp with stream := index }

/-- Replace the queue of the track at position `i`. -/
def set_pq {P : Type} (demux : demuxer P) (i : Nat) (pq : packet_queue) : demuxer P :=
  { demux with streams := demux.streams.modify (fun sh => { sh with pq := pq }) i }

/-- `demuxer_add_packet`: returns 1 (ok) or 0 (not selected). The outer
`none` is the undefined call with a `stream` that is no track of `demuxer`. -/
def demuxer_add_packet {P : Type} (demuxer : demuxer P) (stream : Option Nat)
    (dp : Option demux_packet) : Option (Int × Demux.demuxer P) :=
  let reject : Option (Int × Demux.demuxer P) :=
    some (0, { demuxer with msgs := demuxer.msgs ++ [msg_line.kill] })
  match dp with
  | none => reject
  | some dp =>
    match stream with
    | none => reject
    | some i =>
      match demuxer.streams[i]? with
      | none => none
      | some sh =>
        if !sh.selected then reject
        else
          let dp := set_stream dp sh.index
          let demuxer1 :=
            if dp.pos ≥ 0 then { demuxer with filepos := dp.pos } else demuxer
          let info := dp
          let demuxer2 := set_pq demuxer1 i (packet_queue_add sh.pq dp)
          let q := get_queue_sizes demuxer2
          some (1, { demuxer2 with
            msgs := demuxer2.msgs ++
              [msg_line.append_packet sh.type info.len info.pts info.pos
                (q.2 stream_type.STREAM_AUDIO) (q.2 stream_type.STREAM_VIDEO)
                (q.2 stream_type.STREAM_SUB)] })

/-- The test of one loop iteration of `demux_check_queue_full`. -/
def queue_over_limit (c : demux_h) (sh : sh_stream) : Bool :=
  let r := packet_queue_add_size sh.pq 0 0
  decide (r.2 > c.MAX_PACKS) || decide (r.1 > c.MAX_PACK_BYTES)

/-- `demux_check_queue_full`. -/
def demux_check_queue_full {P : Type} (c : demux_h) (demux : demuxer P) :
    Bool × demuxer P :=
  if demux.streams.any (queue_over_limit c) then
    let demux1 :=
      if !demux.warned_queue_overflow then
        let q := get_queue_sizes demux
        { demux with
          msgs := demux.msgs ++
            [msg_line.too_many_packets
               (q.2 stream_type.STREAM_VIDEO) (q.1 stream_type.STREAM_VIDEO)
               (q.2 stream_type.STREAM_AUDIO) (q.1 stream_type.STREAM_AUDIO)
               (q.2 stream_type.STREAM_SUB) (q.1 stream_type.STREAM_SUB),
             msg_line.maybe_non_interleaved] }
      else demux
    (true, { demux1 with warned_queue_overflow := true })
  else (false, demux)

/-- `demux_fill_buffer`. -/
def demux_fill_buffer {P : Type} (desc : demuxer_desc P) (demux : demuxer P) :
    Int × demuxer P :=
  match desc.fill_buffer with
  | some f => f demux
  | none => (0, demux)

/-- The tail of `ds_get_packets` after the loop was left with `break`. -/
def ds_get_packets_eof {P : Type} (demux : demuxer P) (i : Nat) (sh : sh_stream) :
    demuxer P :=
  let demux1 := { demux with msgs := demux.msgs ++ [msg_line.ds_get_packets_eof sh.type] }
  set_pq demux1 i (packet_queue_set_eof sh.pq true)

/-- The `while (1)` loop of `ds_get_packets` with the code after it, run for
at most `fuel` iterations; `none` when the iterations are used up or `sh` is
no track of the demuxer. -/
def ds_get_packets_loop {P : Type} (c : demux_h) (desc : demuxer_desc P) (i : Nat) :
    Nat → demuxer P → Option (demuxer P)
  | 0, _ => none
  | fuel + 1, demux =>
    match demux.streams[i]? with
    | none => none
    | some sh =>
      if !packet_queue_is_empty sh.pq then some demux
      else
        let full := demux_check_queue_full c demux
        if full.1 then
          match full.2.streams[i]? with
          | none => none
          | some sh1 => some (ds_get_packets_eof full.2 i sh1)
        else
          let r := demux_fill_buffer desc full.2
          if r.1 = 0 then
            match r.2.streams[i]? with
            | none => none
            | some sh1 => some (ds_get_packets_eof r.2 i sh1)
          else ds_get_packets_loop c desc i fuel r.2

/-- `ds_get_packets` for the track at position `i`. -/
def ds_get_packets {P : Type} (c : demux_h) (desc : demuxer_desc P) (fuel : Nat)
    (demux : demuxer P) (i : Nat) : Option (demuxer P) :=
  match demux.streams[i]? with
  | none => none
  | some sh =>
    ds_get_packets_loop c desc i fuel
      { demux with msgs := demux.msgs ++ [msg_line.ds_get_packets_called sh.type] }

/-- `demux_read_packet`: the packet (`none` is `NULL`) and the demuxer after
the call. -/
def demux_read_packet {P : Type} (c : demux_h) (desc : demuxer_desc P) (fuel : Nat)
    (demux : demuxer P) (sh : Option Nat) : Option (Option demux_packet × demuxer P) :=
  match sh with
  | none => some (none, demux)
  | some i =>
    match ds_get_packets c desc fuel demux i with
    | none => none
    | some demux1 =>
      match demux1.streams[i]? with
      | none => none
      | some sh1 =>
        let r := packet_queue_get sh1.pq
        let demux2 := set_pq demux1 i r.2
        match r.1 with
        | some dp =>
          if dp.stream_pts ≠ MP_NOPTS_VALUE then
            some (some dp, { demux2 with stream_pts := dp.stream_pts })
          else some (some dp, demux2)
        | none => some (none, demux2)

/-- `demux_get_next_pts`; the outer `none` when `sh` is no track of the
demuxer. -/
def demux_get_next_pts {P : Type} (demux : demuxer P) (sh : Option Nat) : Option Rat :=
  match sh with
  | none => some MP_NOPTS_VALUE
  | some i =>
    match demux.streams[i]? with
    | none => none
    | some sh1 => some (packet_queue_get_pts sh1.pq)

/-! ### Sequences of demuxer calls -/

/-- Hand the packets of a list, first to last, to `demuxer_add_packet` for
the track at position `i`; the return values and the demuxer afterwards. -/
def demuxer_add_packets {P : Type} (demux : demuxer P) (i : Nat) :
    List demux_packet → Option (List Int × demuxer P)
  | [] => some ([], demux)
  | dp :: rest =>
    match demuxer_add_packet demux (some i) (some dp) with
    | none => none
    | some (r, demux1) =>
      match demuxer_add_packets demux1 i rest with
      | none => none
      | some (rs, demux2) => some (r :: rs, demux2)

/-- Take `n` packets from the queue of the track at position `i` with
`packet_queue_get`. -/
def demuxer_pop_n {P : Type} (demux : demuxer P) (i : Nat) : Nat → Option (demuxer P)
  | 0 => some demux
  | n + 1 =>
    match demux.streams[i]? with
    | none => none
    | some sh => demuxer_pop_n (set_pq demux i (packet_queue_get sh.pq).2) i n

/-- The results of `n` successive calls of `demux_read_packet` on the track
at position `i`, with the demuxer left by the last call. -/
def demux_read_packets {P : Type} (c : demux_h) (desc : demuxer_desc P) (fuel : Nat)
    (i : Nat) : Nat → demuxer P → Option (List (Option demux_packet) × demuxer P)
  | 0, demux => some ([], demux)
  | n + 1, demux =>
    match demux_read_packet c desc fuel demux (some i) with
    | none => none
    | some (dp, demux1) =>
      match demux_read_packets c desc fuel i n demux1 with
      | none => none
      | some (dps, demux2) => some (dp :: dps, demux2)

/-- The format plugin of the end-to-end read: its private state is the list
of packets it has still to deliver; each `fill_buffer` call hands the next
one to `demuxer_add_packet` for the track at position 0 and returns what that
call returns, and returns 0 once the list is used up. -/
def list_fill_buffer (demux : demuxer (List demux_packet)) :
    Int × demuxer (List demux_packet) :=
  match demux.priv with
  | [] => (0, demux)
  | dp :: rest =>
    match demuxer_add_packet { demux with priv := rest } (some 0) (some dp) with
    | some r => r
    | none => (0, { demux with priv := rest })

/-- The plugin description with `list_fill_buffer` as its `fill_buffer`. -/
def list_desc : demuxer_desc (List demux_packet) :=
  { fill_buffer := some list_fill_buffer }

/-- The demuxer has exactly one track; it is selected, its `index` field is
`idx`, and its queue holds no packet and counts none. -/
def single_idle_track {P : Type} (d : demuxer P) (idx : Int) : Prop :=
  ∃ sh, d.streams = [sh] ∧ sh.selected = true ∧ sh.index = idx ∧ sh.pq.head = [] ∧
    sh.pq.tail = none ∧ sh.pq.packs = 0 ∧ sh.pq.bytes = 0

/-! ## Track creation and selection (`demux/demux.c`) -/

/-- `new_sh_stream`: the new track (its position in `streams`, `none` for
`NULL`) and the demuxer afterwards. The type-specific header (`sh_video`,
`sh_audio`, `sh_sub`) is a zeroed block and is left out. -/
def new_sh_stream {P : Type} (c : demux_h) (demuxer : demuxer P) (type : stream_type) :
    Option Nat × Demux.demuxer P :=
  if (demuxer.streams.length : Int) > c.MAX_SH_STREAMS then
    (none, { demuxer with msgs := demuxer.msgs ++ [msg_line.too_many_streams] })
  else
    let demuxer_id : Int :=
      demuxer.streams.foldl (fun id s => if s.type = type then id + 1 else id) 0
    let sh : sh_stream :=
      { type := type
        index := demuxer.streams.length
        demuxer_id := demuxer_id
        selected := false
        pq := packet_queue_create }
    let demuxer1 := { demuxer with streams := demuxer.streams ++ [sh] }
    let sh1 := { sh with selected := demuxer1.stream_autoselect }
    (some demuxer.streams.length,
     { demuxer1 with streams := demuxer.streams ++ [sh1] })

/-- `demux_control`: the return value, the `arg` handed back and the demuxer
afterwards. -/
def demux_control {P : Type} (c : demux_h) (desc : demuxer_desc P) (demuxer : demuxer P)
    (cmd : demuxer_ctrl) (arg : ctrl_arg) : Int × ctrl_arg × Demux.demuxer P :=
  match desc.control with
  | some f =>
    let r := f demuxer cmd arg
    (r.1, r.2.1, { r.2.2 with calls := demuxer.calls ++ [ext_call.desc_control cmd] })
  | none => (c.DEMUXER_CTRL_NOTIMPL, arg, demuxer)

/-- Replace the `selected` flag of the track at position `i`. -/
def set_selected {P : Type} (demux : demuxer P) (i : Nat) (selected : Bool) : demuxer P :=
  { demux with
    streams := demux.streams.modify (fun sh => { sh with selected := selected }) i }

/-- `demuxer_select_track` for the track at position `stream`; `none` when
that is no track of the demuxer. -/
def demuxer_select_track {P : Type} (c : demux_h) (desc : demuxer_desc P)
    (demuxer : demuxer P) (stream : Nat) (selected : Bool) : Option (Demux.demuxer P) :=
  match demuxer.streams[stream]? with
  | none => none
  | some sh =>
    if sh.selected ≠ selected then
      let demuxer1 := set_selected demuxer stream selected
      let demuxer2 := set_pq demuxer1 stream (packet_queue_flush sh.pq)
      some (demux_control c desc demuxer2
        demuxer_ctrl.DEMUXER_CTRL_SWITCHED_TRACKS ctrl_arg.null).2.2
    else some demuxer

/-- The `for` loop of `demuxer_switch_track` from index `n` on, for at most
`fuel` iterations. -/
def demuxer_switch_track_loop {P : Type} (c : demux_h) (desc : demuxer_desc P)
    (type : stream_type) (stream : Option Nat) :
    Nat → Nat → demuxer P → Option (demuxer P)
  | 0, _, _ => none
  | fuel + 1, n, demuxer =>
    match demuxer.streams[n]? with
    | none => some demuxer
    | some cur =>
      if cur.type = type then
        match demuxer_select_track c desc demuxer n (decide (some n = stream)) with
        | none => none
        | some demuxer1 => demuxer_switch_track_loop c desc type stream fuel (n + 1) demuxer1
      else demuxer_switch_track_loop c desc type stream fuel (n + 1) demuxer

/-- `demuxer_switch_track`; `none` is the failed `assert`, a `stream` that is
no track of the demuxer, or the loop not ending within `fuel` iterations. -/
def demuxer_switch_track {P : Type} (c : demux_h) (desc : demuxer_desc P) (fuel : Nat)
    (demuxer : demuxer P) (type : stream_type) (stream : Option Nat) :
    Option (Demux.demuxer P) :=
  let ok : Bool :=
    match stream with
    | none => true
    | some i =>
      match demuxer.streams[i]? with
      | some sh => decide (sh.type = type)
      | none => false
  if ok then demuxer_switch_track_loop c desc type stream fuel 0 demuxer else none

/-- `demuxer_enable_autoselect`. -/
def demuxer_enable_autoselect {P : Type} (demuxer : demuxer P) : Demux.demuxer P :=
  { demuxer with stream_autoselect := true }

/-- `demuxer_stream_is_selected`. -/
def demuxer_stream_is_selected {P : Type} (d : demuxer P) (stream : Option Nat) : Bool :=
  match stream with
  | none => false
  | some i =>
    match d.streams[i]? with
    | some sh => sh.selected
    | none => false

/-- `demux_flush`. -/
def demux_flush {P : Type} (demuxer : demuxer P) : Demux.demuxer P :=
  { demuxer with
    streams := demuxer.streams.map (fun sh => { sh with pq := packet_queue_flush sh.pq })
    warned_queue_overflow := false }

/-- What `demuxer_switch_track(demuxer, type, stream)` makes of the track at
position `n`: a track of the given type whose flag differs from "is the
target" gets that flag and a flushed queue, every other track stays. -/
def switched_track (type : stream_type) (stream : Option Nat) (n : Nat) (sh : sh_stream) :
    sh_stream :=
  if sh.type = type ∧ sh.selected ≠ decide (some n = stream) then
    { sh with selected := decide (some n = stream), pq := packet_queue_flush sh.pq }
  else sh

/-- Whether `demuxer_switch_track(demuxer, type, stream)` changes the flag of
the track at position `n`. -/
def switch_changes (type : stream_type) (stream : Option Nat) (n : Nat) (sh : sh_stream) :
    Bool :=
  decide (sh.type = type ∧ sh.selected ≠ decide (some n = stream))

/-- The plugin's `control` entry leaves the track list alone. -/
def control_keeps_streams {P : Type} (desc : demuxer_desc P) : Prop :=
  ∀ f, desc.control = some f → ∀ (d : demuxer P) cmd arg, (f d cmd arg).2.2.streams = d.streams

/-! ## Seeking (`demux/demux.c`) -/

/-- The stream layer (`stream/stream.h` and `stream/stream.c`, which are not
among the sources) as far as `demux.c` uses it: its constants and its
routines are parameters of the embedding. Each routine gets the stream and
gives back the stream as it leaves it; `stream_control` also gets and gives
back what its `void *arg` points to. -/
structure stream_layer where
  STREAM_UNSUPPORTED : Int := -1
  STREAM_OK : Int := 1
  MP_STREAM_SEEK : Nat := 3
  STREAM_BUFFER_SIZE : Nat := 2048
  stream_seek : stream → Int → stream
  stream_peek : stream → Nat → stream
  stream_manages_timeline : stream → Bool
  stream_control : stream → stream_ctrl → ctrl_arg → Int × ctrl_arg × stream

/-- `stream_control(demuxer->stream, cmd, arg)`: the return value, the `arg`
handed back and the demuxer afterwards. -/
def stream_control {P : Type} (sl : stream_layer) (demuxer : demuxer P) (cmd : stream_ctrl)
    (arg : ctrl_arg) : Int × ctrl_arg × Demux.demuxer P :=
  let r := sl.stream_control demuxer.stream cmd arg
  (r.1, r.2.1,
   { demuxer with
     stream := r.2.2
     calls := demuxer.calls ++ [ext_call.stream_control cmd] })

/-- The value of a `double` variable after a control call that was given its
address. -/
def arg_double (arg : ctrl_arg) (old : Rat) : Rat :=
  match arg with
  | ctrl_arg.double v => v
  | _ => old

/-- The value of an `int` variable after a control call that was given its
address. -/
def arg_int (arg : ctrl_arg) (old : Int) : Int :=
  match arg with
  | ctrl_arg.int v => v
  | _ => old

/-- The code of `demux_seek` from the label `dmx_seek` on. -/
def demux_seek_dmx {P : Type} (desc : demuxer_desc P) (demuxer : demuxer P)
    (rel_seek_secs : Rat) (flags : Nat) : Int × Demux.demuxer P :=
  match desc.seek with
  | some f =>
    (1, { f demuxer rel_seek_secs flags with
          calls := demuxer.calls ++ [ext_call.desc_seek rel_seek_secs flags] })
  | none => (1, demuxer)

/-- The code of `demux_seek` from the `STREAM_CTRL_SEEK_TO_TIME` call on. -/
def demux_seek_to_time {P : Type} (c : demux_h) (sl : stream_layer) (desc : demuxer_desc P)
    (demuxer : demuxer P) (pts rel_seek_secs : Rat) (flags : Nat) : Int × Demux.demuxer P :=
  let r := stream_control sl demuxer stream_ctrl.STREAM_CTRL_SEEK_TO_TIME (ctrl_arg.double pts)
  if r.1 ≠ sl.STREAM_UNSUPPORTED then
    (1, (demux_control c desc r.2.2 demuxer_ctrl.DEMUXER_CTRL_RESYNC ctrl_arg.null).2.2)
  else demux_seek_dmx desc r.2.2 rel_seek_secs flags

/-- `demux_seek`: the return value and the demuxer afterwards. The `float`
and `double` values are rational numbers and their arithmetic is exact. -/
def demux_seek {P : Type} (c : demux_h) (sl : stream_layer) (desc : demuxer_desc P)
    (demuxer : demuxer P) (rel_seek_secs : Rat) (flags : Nat) : Int × Demux.demuxer P :=
  if !demuxer.seekable then
    (0, { demuxer with msgs := demuxer.msgs ++ [msg_line.cannot_seek] })
  else if rel_seek_secs = MP_NOPTS_VALUE ∧ flags &&& c.SEEK_ABSOLUTE ≠ 0 then
    (0, demuxer)
  else
    let demuxer1 := demux_flush demuxer
    if sl.stream_manages_timeline demuxer1.stream then
      let start : Option Rat :=
        if flags &&& c.SEEK_ABSOLUTE ≠ 0 then some 0
        else if demuxer1.stream_pts = MP_NOPTS_VALUE then none
        else some demuxer1.stream_pts
      match start with
      | none => demux_seek_dmx desc demuxer1 rel_seek_secs flags
      | some pts =>
        if flags &&& c.SEEK_FACTOR ≠ 0 then
          let r := stream_control sl demuxer1 stream_ctrl.STREAM_CTRL_GET_TIME_LENGTH
            (ctrl_arg.double 0)
          if r.1 = sl.STREAM_UNSUPPORTED then
            demux_seek_dmx desc r.2.2 rel_seek_secs flags
          else
            demux_seek_to_time c sl desc r.2.2 (pts + arg_double r.2.1 0 * rel_seek_secs)
              rel_seek_secs flags
        else
          demux_seek_to_time c sl desc demuxer1 (pts + rel_seek_secs) rel_seek_secs flags
    else demux_seek_dmx desc demuxer1 rel_seek_secs flags

/-! ## Tags (`demux/demux.c`) -/

/-- The string has no NUL character, so it is its own C string. -/
def is_cstring (s : String) : Prop := Char.ofNat 0 ∉ s.data

instance (s : String) : Decidable (is_cstring s) := by
  unfold is_cstring; infer_instance

/-- `talloc_strndup(ctx, s.start, s.len)` for a `bstr` `s` (talloc is not
among the sources): the C string made of the characters of `s` before its
first NUL. -/
def talloc_strndup (s : String) : String :=
  String.mk (s.data.takeWhile (fun ch => ch ≠ Char.ofNat 0))

/-- Modelled from the spec: `bstrcasecmp0` of `bstr.h`, which is not among the
sources, compares a `bstr` with a C string ignoring case ("case-insensitive
key lookup"). The result is 0 exactly when the two are equal up to the case
of their letters; the sign of a non-zero result is not used by `demux.c`. -/
def bstrcasecmp0 (str1 str2 : String) : Int :=
  if str1.data.map Char.toLower = str2.data.map Char.toLower then 0
  else if str1.data.map Char.toLower < str2.data.map Char.toLower then -1 else 1

/-- The loop of `mp_tags_set_bstr` over `keys[n]`, `values[n]`: the new
`values` when a key equal to `key` ignoring case is found, `none` when the
loop ends without. -/
def mp_tags_set_loop (key value : String) : List String → List String → Option (List String)
  | k :: keys, v :: values =>
    if bstrcasecmp0 key k = 0 then some (talloc_strndup value :: values)
    else (mp_tags_set_loop key value keys values).map (fun vs => v :: vs)
  | _, _ => none

/-- `mp_tags_set_bstr`. -/
def mp_tags_set_bstr (tags : mp_tags) (key value : String) : mp_tags :=
  match mp_tags_set_loop key value tags.keys tags.values with
  | some values => { tags with values := values }
  | none =>
    { keys := tags.keys ++ [talloc_strndup key]
      values := tags.values ++ [talloc_strndup value] }

/-- The loop of `mp_tags_get_bstr` over `keys[n]`, `values[n]`. -/
def mp_tags_get_loop (key : String) : List String → List String → Option String
  | k :: keys, v :: values =>
    if bstrcasecmp0 key k = 0 then some v else mp_tags_get_loop key keys values
  | _, _ => none

/-- `mp_tags_get_bstr`: the value as a C string, `none` for `NULL`. -/
def mp_tags_get_bstr (tags : mp_tags) (key : String) : Option String :=
  mp_tags_get_loop key tags.keys tags.values

/-- `demux_info_add_bstr`. `bstrcmp0(param, oldval) == 0` is the equality of
the two strings. -/
def demux_info_add_bstr {P : Type} (demuxer : demuxer P) (opt param : String) :
    Int × Demux.demuxer P :=
  let oldval := mp_tags_get_bstr demuxer.metadata opt
  let set (d : Demux.demuxer P) : Int × Demux.demuxer P :=
    (1, { d with metadata := mp_tags_set_bstr d.metadata opt param })
  match oldval with
  | some old =>
    if param = old then (0, demuxer)
    else set { demuxer with
               msgs := demuxer.msgs ++ [msg_line.demuxer_info_changed opt param] }
  | none => set demuxer

/-! ## Chapters (`demux/demux.c`) -/

/-- `chapter_compare`. -/
def chapter_compare (c1 c2 : demux_chapter) : Int :=
  if c1.start > c2.start then 1
  else if c1.start < c2.start then -1
  else if c1.original_index > c2.original_index then 1 else -1

/-- `qsort` of the C library: the array in ascending order according to
`compar`. The library leaves the algorithm open; this is insertion sort,
which takes `compar(a, b) <= 0` as "`a` may stand before `b`". -/
def qsort {α : Type} (compar : α → α → Int) (base : List α) : List α :=
  base.insertionSort (fun a b => compar a b ≤ 0)

/-- `demuxer_sort_chapters`. -/
def demuxer_sort_chapters {P : Type} (demuxer : demuxer P) : Demux.demuxer P :=
  { demuxer with chapters := qsort chapter_compare demuxer.chapters }

/-- `demuxer_add_chapter`: the return value and the demuxer afterwards. -/
def demuxer_add_chapter {P : Type} (demuxer : demuxer P) (name : String)
    (start end_ demuxer_id : Nat) : Int × Demux.demuxer P :=
  let new : demux_chapter :=
    { original_index := demuxer.chapters.length
      start := start
      end_ := end_
      name := if name.length ≠ 0 then some (talloc_strndup name) else none
      metadata := mp_tags_set_bstr {} "TITLE" name
      demuxer_id := demuxer_id }
  (0, { demuxer with chapters := demuxer.chapters ++ [new] })

/-! ### `double` arithmetic -/

/-- The integer nearest to `y`; of the two nearest integers of a `y` half way
between them, the even one. -/
def round_half_even (y : Rat) : Int :=
  let f := Int.floor y
  if y - f < 1 / 2 then f
  else if 1 / 2 < y - f then f + 1
  else if f % 2 = 0 then f else f + 1

/-- The `double` nearest to the real number `x`: the binary64 format of
IEEE 754 (53 significant bits, least exponent -1022, gradual underflow) with
rounding to nearest, ties to even, which is the `double` of the platforms mpv
builds for. `e` is the exponent of `x` and `2^(e - 52)` the distance of
neighbouring doubles there. A result of magnitude `2^1024` or more is an
infinity in C; here it is the rational number of that magnitude, and the only
use made of such a value is its conversion to `uint64_t`, for which it is out
of range either way. -/
def round_double (x : Rat) : Rat :=
  if x = 0 then 0
  else
    let e := max (Int.log 2 |x|) (-1022)
    round_half_even (x / 2 ^ (e - 52)) * 2 ^ (e - 52)

/-- The conversion of an `uint64_t` to `double`. -/
def uint64_to_double (n : Nat) : Rat := round_double n

/-- The sum `x + y` of two `double` values. -/
def double_add (x y : Rat) : Rat := round_double (x + y)

/-- The product `x * y` of two `double` values. -/
def double_mul (x y : Rat) : Rat := round_double (x * y)

/-- The quotient `x / y` of two `double` values. -/
def double_div (x y : Rat) : Rat := round_double (x / y)

/-- What the compiled program does where the C standard defines no result: a
parameter of the embedding. `double_to_uint64_undefined x` is the number a
conversion of the `double` `x` to `uint64_t` produces when `x` is -1 or less
or `2^64` or more. -/
structure c_compiler where
  double_to_uint64_undefined : Rat → Nat

/-- The `double` `x` is in the range in which its conversion to `uint64_t` is
defined: its integer part is a value of `uint64_t`. -/
def uint64_defined (x : Rat) : Prop := -1 < x ∧ x < 18446744073709551616

instance (x : Rat) : Decidable (uint64_defined x) := by
  unfold uint64_defined; infer_instance

/-- The conversion of a `double` to `uint64_t`: the fraction is dropped (a
value between -1 and 0 gives 0). For a value of -1 or less or of `2^64` or
more the C result is undefined and `demux.c` converts without a check: there
the result is what the compiler makes of it. -/
def double_to_uint64 (cc : c_compiler) (x : Rat) : Nat :=
  if uint64_defined x then Int.toNat (Int.floor x)
  else cc.double_to_uint64_undefined x % 18446744073709551616

/-- `demuxer_seek_chapter`: the return value, the value of `*seek_pts` and
the demuxer afterwards; `none` when the chapter array is read outside its
bounds. -/
def demuxer_seek_chapter {P : Type} (c : demux_h) (sl : stream_layer) (desc : demuxer_desc P)
    (demuxer : demuxer P) (chapter : Int) (seek_pts : Rat) :
    Option (Int × Rat × Demux.demuxer P) :=
  let r : Int × ctrl_arg × Demux.demuxer P :=
    if demuxer.chapters.length = 0 then
      stream_control sl demuxer stream_ctrl.STREAM_CTRL_SEEK_TO_CHAPTER (ctrl_arg.int chapter)
    else (sl.STREAM_UNSUPPORTED, ctrl_arg.int chapter, demuxer)
  let ris := r.1
  let chapter := arg_int r.2.1 chapter
  let demuxer := r.2.2
  if ris ≠ sl.STREAM_UNSUPPORTED then
    let demuxer1 := demux_flush demuxer
    let demuxer2 :=
      (demux_control c desc demuxer1 demuxer_ctrl.DEMUXER_CTRL_RESYNC ctrl_arg.null).2.2
    some (chapter, -1, demuxer2)
  else if chapter ≥ demuxer.chapters.length then some (-1, seek_pts, demuxer)
  else
    let chapter := if chapter < 0 then 0 else chapter
    match demuxer.chapters[chapter.toNat]? with
    | none => none
    | some ch => some (chapter, double_div (uint64_to_double ch.start) 1000000000, demuxer)

/-- The loop of `demuxer_get_current_chapter`, entered with
`chapter == k - 1`: the value of `chapter` when the loop is left. -/
def chapter_scan (chapters : List demux_chapter) (now : Nat) : Nat → Int
  | 0 => -1
  | k + 1 =>
    match chapters[k]? with
    | some ch => if ch.start ≤ now then (k : Int) else chapter_scan chapters now k
    | none => chapter_scan chapters now k

/-- `demuxer_get_current_chapter`: the return value and the demuxer
afterwards. -/
def demuxer_get_current_chapter {P : Type} (cc : c_compiler) (sl : stream_layer)
    (demuxer : demuxer P) (time_now : Rat) : Int × Demux.demuxer P :=
  if demuxer.chapters.length = 0 then
    let r := stream_control sl demuxer stream_ctrl.STREAM_CTRL_GET_CURRENT_CHAPTER
      (ctrl_arg.int (-2))
    if r.1 = sl.STREAM_UNSUPPORTED then (-2, r.2.2) else (arg_int r.2.1 (-2), r.2.2)
  else
    let now := double_to_uint64 cc (double_add (double_mul time_now 1000000000) (1 / 2))
    (chapter_scan demuxer.chapters now demuxer.chapters.length, demuxer)

/-- `demuxer_chapter_count`: the return value and the demuxer afterwards. -/
def demuxer_chapter_count {P : Type} (sl : stream_layer) (demuxer : demuxer P) :
    Int × Demux.demuxer P :=
  if demuxer.chapters.length = 0 then
    let r := stream_control sl demuxer stream_ctrl.STREAM_CTRL_GET_NUM_CHAPTERS (ctrl_arg.int 0)
    if r.1 = sl.STREAM_UNSUPPORTED then (0, r.2.2) else (arg_int r.2.1 0, r.2.2)
  else (demuxer.chapters.length, demuxer)

/-! ## Opening a demuxer (`demux/demux.c`) -/

/-- `demux_info_add_bstr` for each key/value pair of the array that
`STREAM_CTRL_GET_METADATA` hands back (the loop of `demux_info_update`). -/
def demux_info_add_pairs {P : Type} (demuxer : demuxer P) : List String → Demux.demuxer P
  | k :: v :: rest => demux_info_add_pairs (demux_info_add_bstr demuxer k v).2 rest
  | _ => demuxer

/-- `demux_info_update`. -/
def demux_info_update {P : Type} (c : demux_h) (sl : stream_layer) (desc : demuxer_desc P)
    (demuxer : demuxer P) : Demux.demuxer P :=
  let demuxer1 :=
    (demux_control c desc demuxer demuxer_ctrl.DEMUXER_CTRL_UPDATE_INFO ctrl_arg.null).2.2
  let r := stream_control sl demuxer1 stream_ctrl.STREAM_CTRL_GET_METADATA ctrl_arg.null
  if r.1 > 0 then
    match r.2.1 with
    | ctrl_arg.strings meta => demux_info_add_pairs r.2.2 meta
    | _ => r.2.2
  else r.2.2

/-- The loop of `add_stream_chapters` from chapter `n` on, with `k`
iterations left. -/
def add_stream_chapters_loop {P : Type} (cc : c_compiler) (sl : stream_layer) :
    Nat → Nat → demuxer P → demuxer P
  | 0, _, demuxer => demuxer
  | k + 1, n, demuxer =>
    let r := stream_control sl demuxer stream_ctrl.STREAM_CTRL_GET_CHAPTER_TIME
      (ctrl_arg.double n)
    if r.1 ≠ sl.STREAM_OK then r.2.2
    else
      add_stream_chapters_loop cc sl k (n + 1)
        (demuxer_add_chapter r.2.2 ""
          (double_to_uint64 cc (double_mul (arg_double r.2.1 n) 1000000000)) 0 0).2

/-- `add_stream_chapters`. -/
def add_stream_chapters {P : Type} (cc : c_compiler) (sl : stream_layer)
    (demuxer : demuxer P) : Demux.demuxer P :=
  if demuxer.chapters.length ≠ 0 then demuxer
  else
    let r := demuxer_chapter_count sl demuxer
    add_stream_chapters_loop cc sl r.1.toNat 0 r.2

/-- `free_demuxer`: the demuxer as the plugin's `close` leaves it, just
before its memory is released. -/
def free_demuxer {P : Type} (desc : demuxer_desc P) (demuxer : demuxer P) :
    Demux.demuxer P :=
  match desc.close with
  | some f => { f demuxer with calls := demuxer.calls ++ [ext_call.desc_close desc.name] }
  | none => demuxer

/-- `d_level`. -/
def d_level : demux_check → String
  | demux_check.DEMUX_CHECK_FORCE => "force"
  | demux_check.DEMUX_CHECK_UNSAFE => "unsafe"
  | demux_check.DEMUX_CHECK_REQUEST => "request"
  | demux_check.DEMUX_CHECK_NORMAL => "normal"

/-- The array `d_normal` (without its end mark -1). -/
def d_normal : List demux_check :=
  [demux_check.DEMUX_CHECK_NORMAL, demux_check.DEMUX_CHECK_UNSAFE]

/-- The array `d_request`. -/
def d_request : List demux_check := [demux_check.DEMUX_CHECK_REQUEST]

/-- The array `d_force`. -/
def d_force : List demux_check := [demux_check.DEMUX_CHECK_FORCE]

/-- What outlives the demuxer of a failed attempt of `demux_open`: the
stream, the log and the record of calls. -/
structure outside where
  stream : stream := {}
  msgs : List msg_line := []
  calls : List ext_call := []
deriving DecidableEq, Repr

/-- The stream, log and call record a demuxer leaves behind. -/
def outside_of {P : Type} (demuxer : demuxer P) : outside :=
  { stream := demuxer.stream, msgs := demuxer.msgs, calls := demuxer.calls }

/-- The code of `open_given_type` after a successful `open` call. -/
def open_given_type_opened {P : Type} (c : demux_h) (cc : c_compiler)
    (sl : stream_layer)
    (desc : demuxer_desc P) (demuxer : demuxer P) : Demux.demuxer P :=
  let demuxer4 :=
    { demuxer with
      params := none
      msgs := demuxer.msgs ++ [msg_line.detected_file_format demuxer.filetype desc.desc] }
  let demuxer5 :=
    if sl.stream_manages_timeline demuxer4.stream then
      { demuxer4 with ts_resets_possible := false, accurate_seek := false }
    else demuxer4
  let demuxer6 := add_stream_chapters cc sl demuxer5
  let demuxer7 := demuxer_sort_chapters demuxer6
  let demuxer8 := demux_info_update c sl desc demuxer7
  if !demuxer8.seekable && demuxer8.stream.uncached_stream then
    { demuxer8 with
      msgs := demuxer8.msgs ++ [msg_line.not_seekable_but_cache]
      seekable := true }
  else demuxer8

/-- The demuxer `open_given_type` creates and hands to the plugin's `open`,
after the `stream_seek` call. `null_priv` is the plugin state of a demuxer no
plugin has opened yet (`priv == NULL`). -/
def open_given_type_new {P : Type} (sl : stream_layer) (null_priv : P) (opts : Nat)
    (desc : demuxer_desc P) (w : outside) (params : Option Nat) (check : demux_check) :
    demuxer P :=
  let stream := w.stream
  let demuxer0 : demuxer P :=
    { streams := []
      filepos := -1
      stream_pts := MP_NOPTS_VALUE
      warned_queue_overflow := false
      stream_autoselect := false
      priv := null_priv
      msgs := w.msgs
      type := desc.type
      seekable := decide (stream.flags &&& sl.MP_STREAM_SEEK = sl.MP_STREAM_SEEK) &&
        decide (stream.end_pos > 0)
      accurate_seek := true
      ts_resets_possible := false
      filetype := none
      filename := stream.url
      chapters := []
      metadata := {}
      stream := stream
      params := none
      opts := opts
      calls := w.calls }
  let demuxer1 := { demuxer0 with params := params }
  { demuxer1 with
    stream := sl.stream_seek demuxer1.stream demuxer1.stream.start_pos
    calls := demuxer1.calls ++ [ext_call.stream_seek demuxer1.stream.start_pos]
    msgs := demuxer1.msgs ++ [msg_line.trying_demuxer desc.name (d_level check)] }

/-- `open_given_type`: the demuxer (`none` for `NULL`) and what the attempt
leaves behind. -/
def open_given_type {P : Type} (c : demux_h) (cc : c_compiler)
    (sl : stream_layer) (null_priv : P)
    (opts : Nat) (desc : demuxer_desc P) (w : outside) (params : Option Nat)
    (check : demux_check) : Option (demuxer P) × outside :=
  let demuxer2 := open_given_type_new sl null_priv opts desc w params check
  let r := desc.open_ demuxer2 check
  let demuxer3 :=
    { r.2 with calls := demuxer2.calls ++ [ext_call.desc_open desc.name check r.1] }
  if r.1 ≥ 0 then
    let demuxer9 := open_given_type_opened c cc sl desc demuxer3
    (some demuxer9, outside_of demuxer9)
  else (none, outside_of (free_demuxer desc demuxer3))

/-- The loop of `demux_open` that looks the forced format up in
`demuxer_list`: the position of the last plugin of that name. -/
def find_desc {P : Type} (demuxer_list : List (demuxer_desc P)) (force_format : String) :
    Option Nat :=
  (List.enumFrom 0 demuxer_list).foldl
    (fun check_desc e => if e.2.name = force_format then some e.1 else check_desc) none

/-- The inner loop of `demux_open` over `demuxer_list[n ..]` at one check
level: the opened demuxer with the position of its plugin, and what is left
behind. -/
def demux_open_descs {P : Type} (c : demux_h) (cc : c_compiler)
    (sl : stream_layer) (null_priv : P)
    (opts : Nat) (params : Option Nat) (check_desc : Option Nat) (level : demux_check) :
    Nat → List (demuxer_desc P) → outside → Option (Nat × demuxer P) × outside
  | _, [], w => (none, w)
  | n, desc :: rest, w =>
    if check_desc = none ∨ check_desc = some n then
      match open_given_type c cc sl null_priv opts desc w params level with
      | (some demuxer, w1) => (some (n, demuxer), w1)
      | (none, w1) =>
        demux_open_descs c cc sl null_priv opts params check_desc level (n + 1) rest w1
    else demux_open_descs c cc sl null_priv opts params check_desc level (n + 1) rest w

/-- The outer loop of `demux_open` over the check levels. -/
def demux_open_passes {P : Type} (c : demux_h) (cc : c_compiler)
    (sl : stream_layer) (null_priv : P)
    (opts : Nat) (params : Option Nat) (check_desc : Option Nat)
    (demuxer_list : List (demuxer_desc P)) :
    List demux_check → outside → Option (Nat × demuxer P) × outside
  | [], w => (none, w)
  | level :: rest, w =>
    match demux_open_descs c cc sl null_priv opts params check_desc level 0 demuxer_list w with
    | (some r, w1) => (some r, w1)
    | (none, w1) =>
      demux_open_passes c cc sl null_priv opts params check_desc demuxer_list rest w1

/-- The format `demux_open` works with: its argument, or `stream->demuxer`
when the argument is `NULL`. -/
def effective_format (stream : stream) (force_format : Option String) : Option String :=
  match force_format with
  | none => stream.demuxer
  | some f => some f

/-- `demux_open`: the opened demuxer with the position of its plugin in
`demuxer_list` (`none` for `NULL`), and what the call leaves behind. -/
def demux_open {P : Type} (c : demux_h) (cc : c_compiler)
    (sl : stream_layer) (null_priv : P)
    (demuxer_list : List (demuxer_desc P)) (w : outside) (force_format : Option String)
    (params : Option Nat) (opts : Nat) : Option (Nat × demuxer P) × outside :=
  let probe (check_levels : List demux_check) (check_desc : Option Nat) :
      Option (Nat × demuxer P) × outside :=
    let w1 : outside :=
      { w with
        stream := sl.stream_peek w.stream sl.STREAM_BUFFER_SIZE
        calls := w.calls ++ [ext_call.stream_peek sl.STREAM_BUFFER_SIZE] }
    demux_open_passes c cc sl null_priv opts params check_desc demuxer_list check_levels w1
  match effective_format w.stream force_format with
  | none => probe d_normal none
  | some f =>
    if f.length ≠ 0 then
      let forced := decide (f.data.head? = some '+')
      let name := if forced then String.mk (f.data.drop 1) else f
      let check_levels := if forced then d_force else d_request
      match find_desc demuxer_list name with
      | none => (none, { w with msgs := w.msgs ++ [msg_line.demuxer_does_not_exist name] })
      | some n => probe check_levels (some n)
    else probe d_normal none

/-! ### The order of probing, as the specification words it -/

/-- The open attempts in a record of calls: plugin name, check level and
return value of each `open` call, in order. -/
def open_calls : List ext_call → List (String × demux_check × Int)
  | [] => []
  | ext_call.desc_open name check ret :: rest => (name, check, ret) :: open_calls rest
  | _ :: rest => open_calls rest

/-- The candidates of `demux_open` in the order of the specification: the
one plugin of a forced `+name` at "force", the one plugin of a plain `name`
at "request" (none when no plugin has the name), and otherwise every plugin
in list order at "normal" and then again at "unsafe". -/
def probe_order {P : Type} (demuxer_list : List (demuxer_desc P)) (format : Option String) :
    List (String × demux_check) :=
  let all :=
    demuxer_list.map (fun desc => (desc.name, demux_check.DEMUX_CHECK_NORMAL)) ++
    demuxer_list.map (fun desc => (desc.name, demux_check.DEMUX_CHECK_UNSAFE))
  match format with
  | none => all
  | some f =>
    if f.length = 0 then all
    else if f.data.head? = some '+' then
      if demuxer_list.any (fun desc => decide (desc.name = String.mk (f.data.drop 1))) then
        [(String.mk (f.data.drop 1), demux_check.DEMUX_CHECK_FORCE)]
      else []
    else if demuxer_list.any (fun desc => decide (desc.name = f)) then
      [(f, demux_check.DEMUX_CHECK_REQUEST)]
    else []

/-- The attempts `tried` (with their return values) are the candidates
`cands` tried in order up to and including the first that succeeds (return
value at least 0), and all of them when none succeeds; `success` tells which. -/
def first_success (cands : List (String × demux_check))
    (tried : List (String × demux_check × Int)) (success : Bool) : Prop :=
  (∃ later, cands = tried.map (fun t => (t.1, t.2.1)) ++ later ∧
    (success = false → later = [])) ∧
  (∀ t ∈ tried.dropLast, t.2.2 < 0) ∧
  (success = true → ∃ t, tried.getLast? = some t ∧ 0 ≤ t.2.2) ∧
  (success = false → ∀ t ∈ tried, t.2.2 < 0)

/-- The record of calls `new` continues `old` without any `open` call. -/
def calls_quiet (old new : List ext_call) : Prop :=
  ∃ ext, new = old ++ ext ∧ open_calls ext = []

/-- The candidates of the inner loop of `demux_open` over
`demuxer_list[n ..]`: the plugins the test
`!check_desc || desc == check_desc` lets through, with the check level. -/
def level_candidates {P : Type} (check_desc : Option Nat) (level : demux_check) (n : Nat)
    (descs : List (demuxer_desc P)) : List (String × demux_check) :=
  ((List.enumFrom n descs).filter
    (fun e => decide (check_desc = none ∨ check_desc = some e.1))).map
    (fun e => (e.2.name, level))

/-- The candidates of the two loops of `demux_open`, pass after pass. -/
def pass_candidates {P : Type} (check_desc : Option Nat)
    (demuxer_list : List (demuxer_desc P)) : List demux_check → List (String × demux_check)
  | [] => []
  | level :: rest =>
    level_candidates check_desc level 0 demuxer_list ++
      pass_candidates check_desc demuxer_list rest

/-! ### The bookkeeping of the queue -/

/-- The sum of the `len` fields of the packets linked from `pq->head`. -/
def pq_total_len (pq : packet_queue) : Nat := (pq.head.map (fun dp => dp.len)).sum

/-- The bookkeeping invariant of the queue: `packs` is the number of packets
linked from `head`, `bytes` is the sum of their `len` fields as a `size_t`,
and `tail` is the last packet of the chain (`NULL` when the chain is empty). -/
def pq_counted (pq : packet_queue) : Prop :=
  pq.packs = (pq.head.length : Int) ∧ pq.bytes = pq_total_len pq % SIZE_MODULUS ∧ pq_linked pq

/-! ### The two ways of `demux_seek`, as the specification words them -/

/-- The number of `DEMUXER_CTRL_RESYNC` control calls into the plugin in a
record of calls. -/
def count_resync (calls : List ext_call) : Nat :=
  calls.countP (fun e => decide (e = ext_call.desc_control demuxer_ctrl.DEMUXER_CTRL_RESYNC))

/-- The number of calls of the plugin's `seek` routine in a record of calls. -/
def count_seek (calls : List ext_call) : Nat :=
  calls.countP (fun e =>
    match e with
    | ext_call.desc_seek _ _ => true
    | _ => false)

/-- The stream layer takes the seek: the stream manages its own timeline, a
base pts is available (`SEEK_ABSOLUTE` is set or `stream_pts` has a value),
and no stream control that `demux_seek` asks for (the time length, when
`SEEK_FACTOR` is set, and then the seek to the time) is reported
unsupported. -/
def stream_takes_seek {P : Type} (c : demux_h) (sl : stream_layer) (demuxer : demuxer P)
    (rel_seek_secs : Rat) (flags : Nat) : Bool :=
  sl.stream_manages_timeline demuxer.stream &&
  (decide (flags &&& c.SEEK_ABSOLUTE ≠ 0) || decide (demuxer.stream_pts ≠ MP_NOPTS_VALUE)) &&
  (let pts : Rat := if flags &&& c.SEEK_ABSOLUTE ≠ 0 then 0 else demuxer.stream_pts
   if flags &&& c.SEEK_FACTOR ≠ 0 then
     let r := sl.stream_control demuxer.stream stream_ctrl.STREAM_CTRL_GET_TIME_LENGTH
       (ctrl_arg.double 0)
     decide (r.1 ≠ sl.STREAM_UNSUPPORTED) &&
     decide ((sl.stream_control r.2.2 stream_ctrl.STREAM_CTRL_SEEK_TO_TIME
       (ctrl_arg.double (pts + arg_double r.2.1 0 * rel_seek_secs))).1 ≠ sl.STREAM_UNSUPPORTED)
   else
     decide ((sl.stream_control demuxer.stream stream_ctrl.STREAM_CTRL_SEEK_TO_TIME
       (ctrl_arg.double (pts + rel_seek_secs))).1 ≠ sl.STREAM_UNSUPPORTED))

/-! ### The EOF flag on the read path -/

/-- `demux_stream_eof`: `!sh || packet_queue_is_eof(sh->pq)`; the outer `none`
when `sh` is no track of the demuxer. -/
def demux_stream_eof {P : Type} (demux : demuxer P) (sh : Option Nat) : Option Bool :=
  match sh with
  | none => some true
  | some i =>
    match demux.streams[i]? with
    | none => none
    | some s => some (packet_queue_is_eof s.pq)

/-- No track queue of the demuxer has the EOF flag set while it holds a
packet (the invariant of every queue made with the queue API). -/
def eof_only_if_empty {P : Type} (d : demuxer P) : Prop :=
  ∀ (j : Nat) (sh : sh_stream), d.streams[j]? = some sh → sh.pq.eof = true → sh.pq.head = []

/-- The plugin's `fill_buffer` entry keeps `eof_only_if_empty`, as every
plugin does that changes the queues through `demuxer_add_packet` only. -/
def fill_buffer_keeps_eof {P : Type} (desc : demuxer_desc P) : Prop :=
  ∀ f, desc.fill_buffer = some f → ∀ d : demuxer P, eof_only_if_empty d →
    eof_only_if_empty (f d).2

/-- The plugin keeps, in the part `log` of its private state, a record of its
`fill_buffer` calls: each call appends the track list it was called with. -/
def fill_buffer_logged {P : Type} (desc : demuxer_desc P) (log : P → List (List sh_stream)) :
    Prop :=
  ∀ f, desc.fill_buffer = some f → ∀ d : demuxer P,
    log (f d).2.priv = log d.priv ++ [d.streams]

/-! ## Paths (`mpvcore/path.c`) -/

/-- A `struct bstr` that refers to a C string: `start` is the string the
pointer points to (`none` is `NULL`), and `len` is the value assigned to the
`len` field, as the integer it is before the conversion to the type of the
field (`bstr.h` is not among the sources; in a `size_t` field the value is
taken modulo `SIZE_MODULUS`). -/
structure bstr where
  start : Option String
  len : Int
deriving DecidableEq, Repr

/-- `strrchr(s, c)` of the C library, searched in `s[n ..]`: the position of
the last `c`, `none` for `NULL`. -/
def strrchr_from (c : Char) : List Char → Nat → Option Nat
  | [], _ => none
  | x :: rest, n =>
    match strrchr_from c rest (n + 1) with
    | some k => some k
    | none => if x = c then some n else none

/-- `strrchr(s, c)` of the C library for a character `c` other than NUL. -/
def strrchr (s : String) (c : Char) : Option Nat := strrchr_from c s.data 0

/-- `mp_splitext(path, &root)` with a non-null `root`: the returned string
(the part of `path` from `split` on) and `*root`. The pointer difference
`path - split` is minus the position of `split` in `path`. -/
def mp_splitext (path : String) : String × bstr :=
  let split : Nat :=
    match strrchr path '.' with
    | some k => k
    | none => path.length
  (String.mk (path.data.drop split), { start := some path, len := (0 : Int) - (split : Int) })

/-- `is_absolute` without `HAVE_DOS_PATHS`. -/
def is_absolute (p : String) : Bool :=
  if p.length < 1 then false else decide (p.data.head? = some '/')

/-- `ends_with_separator(bstr0(p))` without `HAVE_DOS_PATHS`, for a C string
`p` (`none` is `NULL`, of which `bstr0` makes the empty `bstr`). -/
def ends_with_separator (p : Option String) : Bool :=
  match p with
  | none => false
  | some s => if s.length < 1 then false else decide (s.data.getLast? = some '/')

/-- `talloc_asprintf(tmp, "%s%s%.*s", p, sep, BSTR_P(np))`. A `NULL` string
given to `%s` is outside the C standard: `null_s` is what the C library
prints for it (`"(null)"` with glibc), or `none` if the call does not
return. -/
def talloc_asprintf_sss (null_s : Option String) (p : Option String) (sep np : String) :
    Option String :=
  match p with
  | some s => some (s ++ sep ++ talloc_strndup np)
  | none => null_s.map (fun s => s ++ sep ++ talloc_strndup np)

/-- The `for` loop of `mp_path_join_cb_array` (with `cb == NULL` and without
`HAVE_DOS_PATHS`) from component `i` on: the value of `p` after the loop and
the components the warning "Joining path with absolute path" was written
for; `none` if a `talloc_asprintf` call does not return. -/
def mp_path_join_loop (null_s : Option String) :
    Option String → Nat → List String → Option (Option String × List String)
  | p, _, [] => some (p, [])
  | p, i, np :: rest =>
    if is_absolute np then
      match mp_path_join_loop null_s (some (talloc_strndup np)) (i + 1) rest with
      | some (q, warned) => some (q, if i > 0 then np :: warned else warned)
      | none => none
    else
      let sep := if !ends_with_separator p then "/" else ""
      match talloc_asprintf_sss null_s p sep np with
      | none => none
      | some q => mp_path_join_loop null_s (some q) (i + 1) rest

/-- `mp_path_join_array` (`mp_path_join_cb_array` with `cb == NULL`) on the
components before the `bstr0(NULL)` end mark: the string returned (`none` is
`NULL`) and the components warned about; the outer `none` if a
`talloc_asprintf` call does not return. -/
def mp_path_join_array (null_s : Option String) (path : List String) :
    Option (Option String × List String) :=
  match path with
  | [] => some (some "", [])
  | [a] => some (some (talloc_strndup a), [])
  | a :: b :: rest =>
    if rest = [] ∧ is_absolute b then some (some (talloc_strndup b), [])
    else mp_path_join_loop null_s none 0 (a :: b :: rest)

/-! ### Joining paths, as the specification words it -/

/-- One step of the reference fold: an absolute component replaces the
accumulated path; any other component is appended, after one `/` iff the
accumulated path does not end in `/`. -/
def path_join_step (acc np : String) : String :=
  if np.data.head? = some '/' then np
  else if acc.data.getLast? = some '/' then acc ++ np
  else acc ++ "/" ++ np

/-- The reference fold over a non-empty list of components, starting with
the first (the empty string for the empty list). -/
def path_join_reference : List String → String
  | [] => ""
  | first :: rest => rest.foldl path_join_step first

/-- The loop of `mp_path_join_cb_array` is not entered with `p == NULL` and a
relative first component: the list is empty or has one component, or its
first component is absolute, or it has two components and the second is
absolute. -/
def path_join_starts (path : List String) : Bool :=
  match path with
  | [] => true
  | [_] => true
  | a :: b :: rest => is_absolute a || (decide (rest = []) && is_absolute b)

/-! ## The threaded wrapper (`demux/thread_wrapper.c`) -/

/-- The `#define NUM_READAHEAD_PACKETS 70`. -/
def NUM_READAHEAD_PACKETS : Int := 70

/-- One call a wrapper function makes on its mutex or condition variable, or
into the inner demuxer's fill path. The list of these calls is kept with the
wrapper state by the embedding; it is no field of the C structure. -/
inductive thread_call where
  | mutex_lock
  | mutex_unlock
  | cond_signal
  | demux_fill_buffer (ret : Int)
deriving DecidableEq, Repr

/-- The `struct priv` of the wrapper (without the thread handle, the mutex,
the condition variable and `cache_ctrls`). `wrapper` is the facade demuxer
and `demuxer` the inner demuxer the pointers of these names refer to. The
queue of facade track `n` is the queue object of inner track `n`, which
`add_stream_headers` shares: the embedding keeps the facade's copy equal
to the inner one (`share_queues`). `trace` is the record of the calls made
so far. -/
structure priv (P : Type) where
  wrapper : demuxer Unit
  demuxer : demuxer P
  thread_request_kill : Bool := false
  thread_request_pause : Bool := false
  thread_paused : Bool := false
  read_packets : Bool := false
  num_streams : Int := 0
  start_time : Rat := 0
  time_length : Rat := 0
  trace : List thread_call := []

/-- What the facade sees of the shared queues after the inner demuxer was
worked on: facade track `n` has the queue of inner track `n`. -/
def share_queues {P : Type} (wrapper : demuxer Unit) (inner : demuxer P) : demuxer Unit :=
  { wrapper with
    streams := wrapper.streams.mapIdx (fun n sh =>
      match inner.streams[n]? with
      | some src => { sh with pq := src.pq }
      | none => sh) }

/-- The loop of `read_packet` that computes `enough`. -/
def read_ahead_enough {P : Type} (d : demuxer P) : Bool :=
  d.streams.foldl
    (fun enough sh =>
      if sh.type = stream_type.STREAM_VIDEO ∨ sh.type = stream_type.STREAM_AUDIO then
        if sh.selected then
          let r := packet_queue_add_size sh.pq 0 0
          if r.2 < NUM_READAHEAD_PACKETS then false else enough
        else enough
      else enough)
    true

/-- `read_packet` of the wrapper, called in the demuxer thread with the mutex
held: the return value and the wrapper state afterwards. While the mutex is
released for the `demux_fill_buffer` call the main thread can write the two
request flags only, which `read_packet` neither reads nor writes. -/
def read_packet {P : Type} (desc : demuxer_desc P) (p : priv P) : Int × priv P :=
  if !p.read_packets then (0, p)
  else if read_ahead_enough p.demuxer then (0, p)
  else
    let f := demux_fill_buffer desc p.demuxer
    let r : Int := if f.1 > 0 then 1 else 0
    (r,
     { p with
       demuxer := f.2
       wrapper := share_queues p.wrapper f.2
       num_streams := f.2.streams.length
       trace := p.trace ++
         [thread_call.mutex_unlock, thread_call.demux_fill_buffer f.1,
          thread_call.mutex_lock, thread_call.cond_signal] })

/-! ### The read-ahead decision, as the specification words it -/

/-- A track that asks for more packets: a selected audio or video track with
fewer than `NUM_READAHEAD_PACKETS` packets counted in its queue. -/
def track_wants_packets (sh : sh_stream) : Bool :=
  (decide (sh.type = stream_type.STREAM_VIDEO) || decide (sh.type = stream_type.STREAM_AUDIO)) &&
  sh.selected && decide (sh.pq.packs < NUM_READAHEAD_PACKETS)

/-- Reading is enabled and at least one track asks for more packets. -/
def wants_read {P : Type} (p : priv P) : Bool :=
  p.read_packets && p.demuxer.streams.any track_wants_packets

/-- The number of `demux_fill_buffer` calls in a record of calls. -/
def count_fill (calls : List thread_call) : Nat :=
  calls.countP (fun e =>
    match e with
    | thread_call.demux_fill_buffer _ => true
    | _ => false)

/-- One iteration of the loop of `add_stream_headers`: mirror the inner track
`src` on the facade. `none` is the undefined use of the `NULL` that
`new_sh_stream` returns when the facade has too many tracks, or a failed
`assert`. The assignment `*dst = *src` copies every field of the track (the
queue pointer among them); `dst->demuxer`, which is restored, is no field of
the embedding. -/
def add_stream_header (c : demux_h) (wrapper : demuxer Unit) (src : sh_stream) :
    Option (demuxer Unit) :=
  match new_sh_stream c wrapper src.type with
  | (none, _) => none
  | (some k, wrapper1) =>
    match wrapper1.streams[k]? with
    | none => none
    | some dst =>
      if src.index ≠ dst.index then none
      else if !packet_queue_is_empty dst.pq then none
      else some { wrapper1 with streams := wrapper1.streams.set k src }

/-- The loop of `add_stream_headers` over the inner tracks
`streams[wrapper->num_streams ..]`. -/
def add_stream_headers_loop (c : demux_h) :
    demuxer Unit → List sh_stream → Option (demuxer Unit)
  | wrapper, [] => some wrapper
  | wrapper, src :: rest =>
    match add_stream_header c wrapper src with
    | none => none
    | some wrapper1 => add_stream_headers_loop c wrapper1 rest

/-- `add_stream_headers`; `none` is a failed `assert` or the use of a `NULL`
track. -/
def add_stream_headers {P : Type} (c : demux_h) (p : priv P) : Option (priv P) :=
  if p.demuxer.streams.length < p.wrapper.streams.length then none
  else
    match add_stream_headers_loop c p.wrapper
        (p.demuxer.streams.drop p.wrapper.streams.length) with
    | none => none
    | some wrapper1 =>
      some { p with wrapper := wrapper1, num_streams := wrapper1.streams.length }

/-- `pause_thread`, called with the mutex held. When `thread_paused` is set
the `while` loop is not entered and the call returns; otherwise it waits on
the condition variable for the demuxer thread, which is no part of this
function: that is `none`. -/
def pause_thread {P : Type} (p : priv P) : Option (priv P) :=
  let p1 := { p with
    thread_request_pause := true
    trace := p.trace ++ [thread_call.cond_signal] }
  if p1.thread_paused then some p1 else none

/-- `resume_thread`; `none` is the failed `assert`. -/
def resume_thread {P : Type} (p : priv P) : Option (priv P) :=
  if p.thread_request_pause && p.thread_paused then
    some { p with
      thread_request_pause := false
      trace := p.trace ++ [thread_call.cond_signal] }
  else none

/-- The `for` loop of the `DEMUXER_CTRL_SWITCHED_TRACKS` case of `d_control`
from index `n` on, for `k` more facade tracks; `none` when the inner demuxer
has no track `n`. -/
def d_control_select_loop {P : Type} (c : demux_h) (desc : demuxer_desc P)
    (wrapper : demuxer Unit) : Nat → Nat → demuxer P → Option (demuxer P)
  | 0, _, inner => some inner
  | k + 1, n, inner =>
    match demuxer_select_track c desc inner n
        (demuxer_stream_is_selected wrapper (some n)) with
    | none => none
    | some inner1 => d_control_select_loop c desc wrapper k (n + 1) inner1

/-- `d_control` of the wrapper: the return value, what `arg` points to
afterwards, and the wrapper state afterwards. `none` when a `pause_thread`
call has to wait, an `assert` fails or a `NULL` track is used. -/
def d_control {P : Type} (c : demux_h) (desc : demuxer_desc P) (p : priv P)
    (cmd : demuxer_ctrl) (arg : ctrl_arg) : Option (Int × ctrl_arg × priv P) :=
  let p0 := { p with trace := p.trace ++ [thread_call.mutex_lock] }
  let unlock (r : Int) (a : ctrl_arg) (q : priv P) : Option (Int × ctrl_arg × priv P) :=
    some (r, a, { q with trace := q.trace ++ [thread_call.mutex_unlock] })
  match cmd with
  | demuxer_ctrl.DEMUXER_CTRL_GET_TIME_LENGTH =>
    unlock c.DEMUXER_CTRL_OK (ctrl_arg.double p0.time_length) p0
  | demuxer_ctrl.DEMUXER_CTRL_GET_START_TIME =>
    unlock c.DEMUXER_CTRL_OK (ctrl_arg.double p0.start_time) p0
  | demuxer_ctrl.DEMUXER_CTRL_UPDATE_INFO =>
    if p0.num_streams ≠ p0.wrapper.streams.length then
      (pause_thread p0).bind (fun p1 =>
        (add_stream_headers c p1).bind (fun p2 =>
          (resume_thread p2).bind (fun p3 => unlock c.DEMUXER_CTRL_OK arg p3)))
    else unlock c.DEMUXER_CTRL_OK arg p0
  | demuxer_ctrl.DEMUXER_CTRL_FLUSH =>
    (pause_thread p0).bind (fun p1 =>
      (resume_thread { p1 with read_packets := false }).bind (fun p3 =>
        unlock c.DEMUXER_CTRL_OK arg p3))
  | demuxer_ctrl.DEMUXER_CTRL_SWITCHED_TRACKS =>
    (pause_thread p0).bind (fun p1 =>
      (add_stream_headers c p1).bind (fun p2 =>
        (d_control_select_loop c desc p2.wrapper p2.wrapper.streams.length 0
            p2.demuxer).bind (fun inner =>
          let inner1 := { inner with stream_autoselect := p2.wrapper.stream_autoselect }
          (resume_thread
            { p2 with demuxer := inner1, wrapper := share_queues p2.wrapper inner1 }).bind
            (fun p3 => unlock c.DEMUXER_CTRL_OK arg p3))))
  | _ =>
    (pause_thread p0).bind (fun p1 =>
      let r := demux_control c desc p1.demuxer cmd arg
      (resume_thread
        { p1 with demuxer := r.2.2, wrapper := share_queues p1.wrapper r.2.2 }).bind
        (fun p3 => unlock r.1 r.2.1 p3))

/-! ### Propagating the selection, as the specification words it -/

/-- What the `DEMUXER_CTRL_SWITCHED_TRACKS` case of `d_control` makes of the
inner track at position `n`: a track whose flag differs from `selected`, the
flag of facade track `n`, gets that flag and a flushed queue; a track with
that flag stays as it is. -/
def propagated_track (selected : Nat → Bool) (n : Nat) (sh : sh_stream) : sh_stream :=
  if sh.selected ≠ selected n then
    { sh with selected := selected n, pq := packet_queue_flush sh.pq }
  else sh

/-- The selected flag of the inner track at position `n` differs from the
flag of the facade track at that position (`false` when the facade has no
such track yet). -/
def track_selection_differs (wrapper : demuxer Unit) (n : Nat) (sh : sh_stream) : Bool :=
  match wrapper.streams[n]? with
  | some wsh => decide (sh.selected ≠ wsh.selected)
  | none => false

/-! ### The pause rendezvous of the wrapper as a transition system

The demuxer thread (`demux_thread`) and the main thread (the facade calls
`d_fill_buffer`, `d_seek`, `d_control`, `s_control` and `d_close`) take
steps in any order. A thread that needs the mutex takes no step while the
other one holds it. `pthread_cond_wait` and `mpthread_cond_timed_wait`
release the mutex, sleep, and take the mutex again before they return; a
sleeping thread may wake at any time (a signal, a timeout or a spurious
wake-up), so `pthread_cond_signal` changes nothing in the state. -/

/-- The two threads of a wrapper. -/
inductive thread_id where
  | demux
  | main
deriving DecidableEq, Repr

/-- The positions of the demuxer thread in `demux_thread` (with `read_packet`
inlined). -/
inductive demux_pc where
  /-- Before `update_infos(p)` at the start of `demux_thread`. -/
  | update_first
  /-- Before the `pthread_mutex_lock` ahead of the outer loop. -/
  | lock_first
  /-- At the test `while (!p->thread_request_kill)`. -/
  | loop_head
  /-- At the test `while (p->thread_request_pause)`. -/
  | pause_test
  /-- After `p->thread_paused = true` and the signal, before
  `pthread_cond_wait` releases the mutex. -/
  | pause_wait
  /-- Asleep in `pthread_cond_wait` of the pause loop. -/
  | pause_asleep
  /-- Woken in `pthread_cond_wait`, before it has the mutex again. -/
  | pause_relock
  /-- Before `p->thread_paused = false`. -/
  | unpause
  /-- Before the `pthread_mutex_unlock` ahead of the timed `update_infos`. -/
  | update_unlock
  /-- Before `if (mp_time_sec() - last > CACHE_UPDATE_TIME) update_infos(p)`. -/
  | update
  /-- Before the `pthread_mutex_lock` after it. -/
  | update_lock
  /-- At `if (p->thread_request_pause || p->thread_request_kill) continue`. -/
  | request_test
  /-- At the start of `read_packet`, before its tests. -/
  | read_test
  /-- Before `demux_fill_buffer(p->demuxer)`, the mutex released. -/
  | fill
  /-- Before the `pthread_mutex_lock` of `read_packet`. -/
  | fill_lock
  /-- Before `p->num_streams = ...` and the signal of `read_packet`. -/
  | fill_done
  /-- At `if (!read_packet(p))`, with the value `read_packet` returned. -/
  | idle_test
  /-- Asleep in `mpthread_cond_timed_wait`. -/
  | idle_asleep
  /-- Woken in `mpthread_cond_timed_wait`, before it has the mutex again. -/
  | idle_relock
  /-- After the outer loop, before the signal and `pthread_mutex_unlock`. -/
  | exit
  /-- The thread has returned. -/
  | done
deriving DecidableEq, Repr

/-- The positions of the main thread in the facade calls. -/
inductive main_pc where
  /-- Between two facade calls. -/
  | idle
  /-- Before the `pthread_mutex_lock` of a call that pauses the thread. -/
  | op_lock
  /-- In `pause_thread`, before `p->thread_request_pause = true`. -/
  | pause_request
  /-- At the test `while (!p->thread_paused)` of `pause_thread`. -/
  | pause_test
  /-- Asleep in `pthread_cond_wait` of `pause_thread`. -/
  | pause_asleep
  /-- Woken in `pthread_cond_wait`, before it has the mutex again. -/
  | pause_relock
  /-- After `pause_thread` has returned: the code that works on the inner
  demuxer, before `resume_thread` is called. -/
  | work
  /-- At the start of `resume_thread`. -/
  | resume
  /-- Before the `pthread_mutex_unlock` that ends the call. -/
  | op_unlock
  /-- Before the `pthread_mutex_lock` of a call that does not pause. -/
  | plain_lock
  /-- Before the `pthread_mutex_unlock` of such a call. -/
  | plain_unlock
  /-- Before the `pthread_mutex_lock` of `d_close`. -/
  | close_lock
  /-- Before `p->thread_request_kill = true` of `d_close`. -/
  | close_request
  /-- Before the `pthread_mutex_unlock` of `d_close`. -/
  | close_unlock
  /-- In `pthread_join`. -/
  | join
  /-- `d_close` has returned. -/
  | closed
  /-- The `assert` of `resume_thread` has failed. -/
  | aborted
deriving DecidableEq, Repr

/-- The state of the two threads: their positions, the owner of `p->mutex`
(`none` when it is free), the flags of `struct priv`, the value the last
`read_packet` returned, and the number of calls each thread has made so far
into the inner demuxer (kept by the embedding). -/
structure rendezvous where
  demux : demux_pc := demux_pc.update_first
  main : main_pc := main_pc.idle
  mutex : Option thread_id := none
  thread_request_kill : Bool := false
  thread_request_pause : Bool := false
  thread_paused : Bool := false
  read_packets : Bool := false
  read_result : Bool := false
  demux_calls : Nat := 0
  main_calls : Nat := 0
deriving DecidableEq, Repr

/-- One step of the demuxer thread. `choice` settles what depends on data
the model does not hold: whether the cache update time has passed, whether
every track has enough packets, and whether `demux_fill_buffer` returned a
positive value. -/
def demux_step (s : rendezvous) (choice : Bool) : rendezvous :=
  match s.demux with
  | demux_pc.update_first =>
    { s with demux := demux_pc.lock_first, demux_calls := s.demux_calls + 1 }
  | demux_pc.lock_first =>
    if s.mutex = none then
      { s with mutex := some thread_id.demux, demux := demux_pc.loop_head }
    else s
  | demux_pc.loop_head =>
    if s.thread_request_kill then { s with demux := demux_pc.exit }
    else { s with demux := demux_pc.pause_test }
  | demux_pc.pause_test =>
    if s.thread_request_pause then
      { s with thread_paused := true, demux := demux_pc.pause_wait }
    else { s with demux := demux_pc.unpause }
  | demux_pc.pause_wait => { s with mutex := none, demux := demux_pc.pause_asleep }
  | demux_pc.pause_asleep => { s with demux := demux_pc.pause_relock }
  | demux_pc.pause_relock =>
    if s.mutex = none then
      { s with mutex := some thread_id.demux, demux := demux_pc.pause_test }
    else s
  | demux_pc.unpause => { s with thread_paused := false, demux := demux_pc.update_unlock }
  | demux_pc.update_unlock => { s with mutex := none, demux := demux_pc.update }
  | demux_pc.update =>
    { s with
      demux := demux_pc.update_lock
      demux_calls := if choice then s.demux_calls + 1 else s.demux_calls }
  | demux_pc.update_lock =>
    if s.mutex = none then
      { s with mutex := some thread_id.demux, demux := demux_pc.request_test }
    else s
  | demux_pc.request_test =>
    if s.thread_request_pause || s.thread_request_kill then
      { s with demux := demux_pc.loop_head }
    else { s with demux := demux_pc.read_test }
  | demux_pc.read_test =>
    if !s.read_packets || choice then
      { s with read_result := false, demux := demux_pc.idle_test }
    else { s with mutex := none, demux := demux_pc.fill }
  | demux_pc.fill =>
    { s with
      demux_calls := s.demux_calls + 1
      read_result := choice
      demux := demux_pc.fill_lock }
  | demux_pc.fill_lock =>
    if s.mutex = none then
      { s with mutex := some thread_id.demux, demux := demux_pc.fill_done }
    else s
  | demux_pc.fill_done => { s with demux := demux_pc.idle_test }
  | demux_pc.idle_test =>
    if s.read_result then { s with demux := demux_pc.loop_head }
    else if s.thread_request_pause || s.thread_request_kill then
      { s with demux := demux_pc.loop_head }
    else { s with mutex := none, demux := demux_pc.idle_asleep }
  | demux_pc.idle_asleep => { s with demux := demux_pc.idle_relock }
  | demux_pc.idle_relock =>
    if s.mutex = none then
      { s with mutex := some thread_id.demux, demux := demux_pc.loop_head }
    else s
  | demux_pc.exit => { s with mutex := none, demux := demux_pc.done }
  | demux_pc.done => s

/-- One step of the main thread. `choice` settles which facade call comes
next (one that pauses the thread, one that only takes the mutex, or
`d_close`) and what the code between `pause_thread` and `resume_thread`
does: it calls into the inner demuxer, may set or clear `read_packets`
(`d_fill_buffer` sets it, the flush command clears it), and goes on with
another call or with `resume_thread`. -/
def main_step (s : rendezvous) (choice : Nat) : rendezvous :=
  match s.main with
  | main_pc.idle =>
    if choice % 3 = 0 then { s with main := main_pc.op_lock }
    else if choice % 3 = 1 then { s with main := main_pc.plain_lock }
    else { s with main := main_pc.close_lock }
  | main_pc.op_lock =>
    if s.mutex = none then
      { s with mutex := some thread_id.main, main := main_pc.pause_request }
    else s
  | main_pc.pause_request =>
    { s with thread_request_pause := true, main := main_pc.pause_test }
  | main_pc.pause_test =>
    if s.thread_paused then { s with main := main_pc.work }
    else { s with mutex := none, main := main_pc.pause_asleep }
  | main_pc.pause_asleep => { s with main := main_pc.pause_relock }
  | main_pc.pause_relock =>
    if s.mutex = none then
      { s with mutex := some thread_id.main, main := main_pc.pause_test }
    else s
  | main_pc.work =>
    { s with
      main_calls := s.main_calls + 1
      read_packets :=
        if choice % 3 = 1 then true else if choice % 3 = 2 then false else s.read_packets
      main := if choice < 3 then main_pc.resume else main_pc.work }
  | main_pc.resume =>
    if s.thread_request_pause && s.thread_paused then
      { s with thread_request_pause := false, main := main_pc.op_unlock }
    else { s with main := main_pc.aborted }
  | main_pc.op_unlock => { s with mutex := none, main := main_pc.idle }
  | main_pc.plain_lock =>
    if s.mutex = none then
      { s with mutex := some thread_id.main, main := main_pc.plain_unlock }
    else s
  | main_pc.plain_unlock => { s with mutex := none, main := main_pc.idle }
  | main_pc.close_lock =>
    if s.mutex = none then
      { s with mutex := some thread_id.main, main := main_pc.close_request }
    else s
  | main_pc.close_request =>
    { s with thread_request_kill := true, main := main_pc.close_unlock }
  | main_pc.close_unlock => { s with mutex := none, main := main_pc.join }
  | main_pc.join => if s.demux = demux_pc.done then { s with main := main_pc.closed } else s
  | main_pc.closed => s
  | main_pc.aborted => s

/-- One entry of a schedule: which thread takes the next step, and with
which choice. -/
inductive sched_step where
  | demux (choice : Bool)
  | main (choice : Nat)
deriving DecidableEq, Repr

/-- One step of the pair of threads. -/
def thread_step (s : rendezvous) : sched_step → rendezvous
  | sched_step.demux choice => demux_step s choice
  | sched_step.main choice => main_step s choice

/-- The state after a schedule, from the state `demux_create_thread_wrapper`
leaves when it has created the demuxer thread: all flags zero, the mutex
free, the demuxer thread at its start. -/
def thread_run (sched : List sched_step) : rendezvous := sched.foldl thread_step {}

/-- The main thread is between the return of `pause_thread` and the call of
`resume_thread` (or at the start of `resume_thread`, before its write). -/
def in_pause_window (pc : main_pc) : Bool :=
  match pc with
  | main_pc.work => true
  | main_pc.resume => true
  | _ => false

/-- The demuxer thread is parked in the `pthread_cond_wait` of its pause
loop: asleep, or woken and without the mutex. -/
def demux_parked (pc : demux_pc) : Bool :=
  match pc with
  | demux_pc.pause_asleep => true
  | demux_pc.pause_relock => true
  | _ => false

/-- The positions at which the demuxer thread holds the mutex. -/
def demux_holds (pc : demux_pc) : Bool :=
  match pc with
  | demux_pc.loop_head => true
  | demux_pc.pause_test => true
  | demux_pc.pause_wait => true
  | demux_pc.unpause => true
  | demux_pc.update_unlock => true
  | demux_pc.request_test => true
  | demux_pc.read_test => true
  | demux_pc.fill_done => true
  | demux_pc.idle_test => true
  | demux_pc.exit => true
  | _ => false

/-- The positions at which the main thread holds the mutex. -/
def main_holds (pc : main_pc) : Bool :=
  match pc with
  | main_pc.pause_request => true
  | main_pc.pause_test => true
  | main_pc.work => true
  | main_pc.resume => true
  | main_pc.op_unlock => true
  | main_pc.plain_unlock => true
  | main_pc.close_request => true
  | main_pc.close_unlock => true
  | main_pc.aborted => true
  | _ => false

/-- The positions of the demuxer thread in its pause loop, from the write
`thread_paused = true` to the write `thread_paused = false`. -/
def demux_pausing (pc : demux_pc) : Bool :=
  match pc with
  | demux_pc.pause_test => true
  | demux_pc.pause_wait => true
  | demux_pc.pause_asleep => true
  | demux_pc.pause_relock => true
  | demux_pc.unpause => true
  | _ => false

/-- The positions of the main thread from the write
`thread_request_pause = true` to the write `thread_request_pause = false`. -/
def main_requesting (pc : main_pc) : Bool :=
  match pc with
  | main_pc.pause_test => true
  | main_pc.pause_asleep => true
  | main_pc.pause_relock => true
  | main_pc.work => true
  | main_pc.resume => true
  | _ => false

/-- The invariant of the rendezvous: the mutex is held by the thread whose
position says so; `thread_paused` is set only while the demuxer thread is in
its pause loop; `thread_request_pause` is set exactly while the main thread
is between its two writes of it; in the pause window `thread_paused` is set;
and the `assert` of `resume_thread` has not failed. -/
def rendezvous_inv (s : rendezvous) : Prop :=
  (s.mutex = some thread_id.demux ↔ demux_holds s.demux = true) ∧
  (s.mutex = some thread_id.main ↔ main_holds s.main = true) ∧
  (s.thread_paused = true → demux_pausing s.demux = true) ∧
  (s.thread_request_pause = true ↔ main_requesting s.main = true) ∧
  (in_pause_window s.main = true → s.thread_paused = true) ∧
  s.main ≠ main_pc.aborted

/-! ### Concrete packets and demuxers -/

/-- Packet number `index` of a synthetic source: 16 bytes, pts
`index × 0.02`, position `16 × index`. -/
def sample_packet (index : Nat) : demux_packet :=
  { len := 16
    pts := (index : Rat) / 50
    duration := 1 / 50
    stream_pts := MP_NOPTS_VALUE
    pos := 16 * (index : Int)
    buffer := some index
    stream := -1
    allocation := some index
    avpacket := none }

/-- The first `n` packets of the synthetic source. -/
def sample_packets (n : Nat) : List demux_packet :=
  (List.range n).map sample_packet

/-- A track of the given type at position `index` with a fresh queue. -/
def sample_track (type : stream_type) (index : Int) (selected : Bool) : sh_stream :=
  { type := type, index := index, demuxer_id := 0, selected := selected,
    pq := packet_queue_create }

/-- A freshly opened demuxer with the given tracks and plugin state. -/
def sample_demuxer {P : Type} (streams : List sh_stream) (priv : P) : demuxer P :=
  { streams := streams
    filepos := -1
    stream_pts := MP_NOPTS_VALUE
    warned_queue_overflow := false
    stream_autoselect := true
    priv := priv
    msgs := [] }

/-- A heap with one 4-byte packet buffer (and its 8 bytes of padding). -/
def sample_memory : memory := [[10, 20, 30, 40, 0, 0, 0, 0, 0, 0, 0, 0]]

/-- A packet whose buffer is the one of `sample_memory`. -/
def sample_data_packet : demux_packet :=
  { len := 4
    pts := 1 / 2
    duration := 1 / 50
    stream_pts := MP_NOPTS_VALUE
    pos := 0
    buffer := some 0
    stream := 0
    allocation := some 0
    avpacket := none }

/-- A demuxer on the synthetic source of 200 packets: one selected audio
track, nothing read yet. -/
def sample_source_demuxer : demuxer (List demux_packet) :=
  sample_demuxer [sample_track stream_type.STREAM_AUDIO 0 true] (sample_packets 200)

/-- A demuxer with an audio track that is selected and a video track that is
not, both with fresh queues. -/
def sample_two_track_demuxer : demuxer Unit :=
  sample_demuxer [sample_track stream_type.STREAM_AUDIO 0 true,
                  sample_track stream_type.STREAM_VIDEO 1 false] ()

/-- A demuxer whose selected audio track has the index 5 and whose video
track, of index 9, is not selected. -/
def sample_stamp_demuxer : demuxer Unit :=
  sample_demuxer [sample_track stream_type.STREAM_AUDIO 5 true,
                  sample_track stream_type.STREAM_VIDEO 9 false] ()

/-- A demuxer with one selected audio track and a fresh queue. -/
def sample_one_track_demuxer : demuxer Unit :=
  sample_demuxer [sample_track stream_type.STREAM_AUDIO 0 true] ()

/-- A demuxer whose only track has packets 0 and 1 of the synthetic source
queued. -/
def sample_loaded_demuxer : demuxer Unit :=
  sample_demuxer
    [{ sample_track stream_type.STREAM_AUDIO 0 true with
       pq := packet_queue_add_all packet_queue_create (sample_packets 2) }] ()

/-- Limits with a packet ceiling small enough to be reached by hand. -/
def small_limits (max_packs : Int) : demux_h :=
  { MAX_PACKS := max_packs, MAX_PACK_BYTES := 419430400, MP_INPUT_BUFFER_PADDING_SIZE := 8 }

/-- The values of the `demux.h` constants used for concrete runs. -/
def sample_limits : demux_h :=
  { MAX_PACKS := 16000, MAX_PACK_BYTES := 419430400, MP_INPUT_BUFFER_PADDING_SIZE := 8 }

/-- A demuxer with two audio tracks, the first selected, and a selected video
track. -/
def sample_three_track_demuxer : demuxer Unit :=
  sample_demuxer [sample_track stream_type.STREAM_AUDIO 0 true,
                  sample_track stream_type.STREAM_AUDIO 1 false,
                  sample_track stream_type.STREAM_VIDEO 2 true] ()

/-- A plugin whose `control` entry answers every command with 1 and changes
nothing. -/
def sample_control_desc : demuxer_desc Unit :=
  { fill_buffer := none, name := "sample", control := some (fun d _ arg => (1, arg, d)) }

/-- A stream layer that supports no control command and leaves the stream as
it is. -/
def sample_stream_layer : stream_layer :=
  { stream_seek := fun s _ => s
    stream_peek := fun s _ => s
    stream_manages_timeline := fun _ => false
    stream_control := fun s _ arg => (-1, arg, s) }

/-- A compiler whose conversion of an out-of-range `double` to `uint64_t`
gives `2^63`. -/
def sample_compiler : c_compiler :=
  { double_to_uint64_undefined := fun _ => 9223372036854775808 }

/-- Chapter number `n` of a table with one chapter every 10 seconds. -/
def sample_chapter (n : Nat) : demux_chapter :=
  { original_index := n
    start := 10000000000 * n
    end_ := 0
    name := none
    metadata := {}
    demuxer_id := 0 }

/-- A demuxer with a table of five chapters. -/
def sample_chapter_demuxer : demuxer Unit :=
  { sample_demuxer [] () with chapters := (List.range 5).map sample_chapter }

/-- A demuxer with a table of three chapters that start at 0, at 2 and at
100000000 nanoseconds (a tenth of a second). -/
def sample_short_chapter_demuxer : demuxer Unit :=
  { sample_demuxer [] () with
    chapters := [{ sample_chapter 0 with start := 0 },
                 { sample_chapter 1 with start := 2 },
                 { sample_chapter 2 with start := 100000000 }] }

/-- A demuxer to which four chapters with the start times 5, 5, 3 and 5 were
added, in this order, with `demuxer_add_chapter`. -/
def sample_unsorted_demuxer : demuxer Unit :=
  let d0 := sample_demuxer [] ()
  let d1 := (demuxer_add_chapter d0 "a" 5 0 0).2
  let d2 := (demuxer_add_chapter d1 "b" 5 0 0).2
  let d3 := (demuxer_add_chapter d2 "c" 3 0 0).2
  (demuxer_add_chapter d3 "d" 5 0 0).2

/-- A tag list with the keys `Title` and `Artist`. -/
def sample_tags : mp_tags :=
  { keys := ["Title", "Artist"], values := ["Sintel", "Blender"] }

/-- A plugin called `name` whose `open` refuses every file. -/
def sample_refusing_desc (name : String) : demuxer_desc Unit :=
  { fill_buffer := none, name := name, open_ := fun d _ => (-1, d) }

/-- A plugin called `name` whose `open` accepts a file at the check level
"unsafe" and at the levels above it, and refuses it at "normal". -/
def sample_unsafe_desc (name : String) : demuxer_desc Unit :=
  { fill_buffer := none
    name := name
    open_ := fun d check =>
      (if check = demux_check.DEMUX_CHECK_NORMAL then -1 else 0, d) }

/-- A list of three plugins: "raw" refuses, "lavf" accepts from "unsafe" on,
"mkv" refuses. -/
def sample_demuxer_list : List (demuxer_desc Unit) :=
  [sample_refusing_desc "raw", sample_unsafe_desc "lavf", sample_refusing_desc "mkv"]

/-- A seekable demuxer whose only track has two packets queued. -/
def sample_seekable_demuxer : demuxer Unit :=
  { sample_loaded_demuxer with seekable := true }

/-- A plugin with a `seek` entry that leaves the demuxer as it is. -/
def sample_seek_desc : demuxer_desc Unit :=
  { fill_buffer := none, name := "sample", seek := some (fun d _ _ => d) }

/-- A plugin at the end of its input that keeps a record of its `fill_buffer`
calls: each call appends the track list it finds to the plugin state and
returns 0. -/
def sample_logging_desc : demuxer_desc (List (List sh_stream)) :=
  { fill_buffer := some (fun d => (0, { d with priv := d.priv ++ [d.streams] })) }

/-- A demuxer of the recording plugin with one selected audio track and an
empty record. -/
def sample_logging_demuxer : demuxer (List (List sh_stream)) :=
  sample_demuxer [sample_track stream_type.STREAM_AUDIO 0 true] []

/-- A wrapper state around the synthetic source: the inner demuxer has one
selected audio track with an empty queue, the facade mirrors it, and reading
is enabled. -/
def sample_priv : priv (List demux_packet) :=
  { wrapper := sample_demuxer sample_source_demuxer.streams ()
    demuxer := sample_source_demuxer
    read_packets := true
    num_streams := 1 }

/-- A wrapper state with three inner tracks, of which the facade mirrors the
first two: the facade has deselected track 0 and selected track 1, the inner
demuxer still has it the other way round, and the demuxer thread is paused. -/
def sample_switch_priv : priv Unit :=
  { wrapper := sample_demuxer
      [sample_track stream_type.STREAM_AUDIO 0 false,
       sample_track stream_type.STREAM_AUDIO 1 true] ()
    demuxer := sample_demuxer
      [sample_track stream_type.STREAM_AUDIO 0 true,
       sample_track stream_type.STREAM_AUDIO 1 false,
       sample_track stream_type.STREAM_VIDEO 2 true] ()
    thread_paused := true
    num_streams := 2 }

/-- A schedule that brings the main thread into the pause window: the
demuxer thread runs up to its timed `update_infos`, where the mutex is free;
the main thread starts a pausing call and goes to sleep in `pause_thread`;
the demuxer thread updates, sees the request, sets `thread_paused` and goes
to sleep; and the main thread wakes and returns from `pause_thread`. -/
def sample_schedule : List sched_step :=
  [sched_step.demux false, sched_step.demux false, sched_step.demux false,
   sched_step.demux false, sched_step.demux false, sched_step.demux false,
   sched_step.main 0, sched_step.main 0, sched_step.main 0, sched_step.main 0,
   sched_step.demux true, sched_step.demux false, sched_step.demux false,
   sched_step.demux false, sched_step.demux false, sched_step.demux false,
   sched_step.main 0, sched_step.main 0, sched_step.main 0]

/-! ## Queue lemmas -/

theorem pq_linked_create : pq_linked packet_queue_create := rfl

theorem packet_queue_add_head_of_linked (pq : packet_queue) (dp : demux_packet)
    (h : pq_linked pq) : (packet_queue_add pq dp).head = pq.head ++ [dp] := by
  unfold pq_linked at h
  unfold packet_queue_add
  cases hh : pq.head with
  | nil => simp [hh] at h; simp [h]
  | cons a l =>
    rw [hh] at h
    have : ∃ x, pq.tail = some x := by
      rw [h]
      exact Option.isSome_iff_exists.mp (by simp [List.getLast?_isSome])
    obtain ⟨x, hx⟩ := this
    simp [hx]

theorem pq_linked_add (pq : packet_queue) (dp : demux_packet) (h : pq_linked pq) :
    pq_linked (packet_queue_add pq dp) := by
  have hh := packet_queue_add_head_of_linked pq dp h
  unfold pq_linked
  rw [hh]
  simp [packet_queue_add]

theorem packet_queue_add_all_head (ps : List demux_packet) :
    ∀ pq : packet_queue, pq_linked pq →
      (packet_queue_add_all pq ps).head = pq.head ++ ps ∧
      pq_linked (packet_queue_add_all pq ps) := by
  induction ps with
  | nil => intro pq h; simp [packet_queue_add_all, h]
  | cons p rest ih =>
    intro pq h
    have h1 := packet_queue_add_head_of_linked pq p h
    have h2 := pq_linked_add pq p h
    obtain ⟨ih1, ih2⟩ := ih (packet_queue_add pq p) h2
    refine ⟨?_, ?_⟩
    · simp [packet_queue_add_all, ih1, h1]
    · simpa [packet_queue_add_all] using ih2

theorem packet_queue_get_n_head (ps : List demux_packet) :
    ∀ pq : packet_queue, pq.head = ps →
      (packet_queue_get_n (ps.length + 1) pq).1 = ps.map some ++ [none] := by
  induction ps with
  | nil =>
    intro pq h
    simp [packet_queue_get_n, packet_queue_get, h]
  | cons p rest ih =>
    intro pq h
    have hget : packet_queue_get pq = (some p,
        { pq with
          head := rest
          tail := if rest.isEmpty then none else pq.tail
          bytes := (pq.bytes + (SIZE_MODULUS - p.len % SIZE_MODULUS)) % SIZE_MODULUS
          packs := pq.packs - 1 }) := by
      simp [packet_queue_get, h]
    have hrest := ih (packet_queue_get pq).2 (by rw [hget])
    rw [hget] at hrest
    rw [List.length_cons, packet_queue_get_n]
    simp only [hrest, hget, List.map_cons, List.cons_append]

/-! ## Queue theorems -/

/-- C1: the packets appended with `packet_queue_add` to an empty queue come
back from the next calls of `packet_queue_get` in exactly the push order, and
the call after the last of them returns `NULL`. -/
theorem packet_queue_fifo (pq : packet_queue) (ps : List demux_packet)
    (hhead : pq.head = []) (htail : pq.tail = none) :
    (packet_queue_get_n (ps.length + 1) (packet_queue_add_all pq ps)).1
      = ps.map some ++ [none] := by
  apply packet_queue_get_n_head
  have hl : pq_linked pq := by simp [pq_linked, hhead, htail]
  have := (packet_queue_add_all_head ps pq hl).1
  simpa [hhead] using this

/-- Witness of C1: three packets pushed to a fresh queue and four pops. -/
theorem packet_queue_fifo_witness :
    packet_queue_create.head = [] ∧ packet_queue_create.tail = none ∧
    (packet_queue_get_n 4 (packet_queue_add_all packet_queue_create (sample_packets 3))).1
      = [some (sample_packet 0), some (sample_packet 1), some (sample_packet 2), none] :=
  ⟨rfl, rfl, packet_queue_fifo packet_queue_create (sample_packets 3) rfl rfl⟩

/-- C2: after `packet_queue_set_eof(q, s)` the value of `packet_queue_is_eof` is
`s && (q holds no packet)`, so after `set_eof(true)` it is true exactly when
the queue was empty; the call changes neither the queued packets nor the
packet and byte counts. -/
theorem packet_queue_set_eof_spec (pq : packet_queue) (state : Bool) :
    packet_queue_is_eof (packet_queue_set_eof pq state)
        = (state && packet_queue_is_empty pq) ∧
    (packet_queue_is_eof (packet_queue_set_eof pq true) = true ↔ pq.head = []) ∧
    (packet_queue_set_eof pq state).head = pq.head ∧
    (packet_queue_set_eof pq state).tail = pq.tail ∧
    (packet_queue_set_eof pq state).packs = pq.packs ∧
    (packet_queue_set_eof pq state).bytes = pq.bytes := by
  refine ⟨rfl, ?_, rfl, rfl, rfl, rfl⟩
  simp [packet_queue_is_eof, packet_queue_set_eof]

theorem pq_step_eof_inv (pq : packet_queue) (op : pq_op)
    (h : pq.eof = true → pq.head = []) :
    (pq_step pq op).eof = true → (pq_step pq op).head = [] := by
  cases op with
  | add dp => intro he; simp [pq_step, packet_queue_add] at he
  | get =>
    intro he
    cases hh : pq.head with
    | nil => simp [pq_step, packet_queue_get, hh]
    | cons a l =>
      simp only [pq_step, packet_queue_get, hh] at he
      rw [h he] at hh
      cases hh
  | set_eof state =>
    intro he
    simp only [pq_step, packet_queue_set_eof, Bool.and_eq_true, List.isEmpty_iff] at he
    simpa [pq_step, packet_queue_set_eof] using he.2
  | flush => intro _; rfl

theorem pq_run_eof_inv (ops : List pq_op) :
    ∀ pq : packet_queue, (pq.eof = true → pq.head = []) →
      (pq_run pq ops).eof = true → (pq_run pq ops).head = [] := by
  induction ops with
  | nil => intro pq h; simpa [pq_run] using h
  | cons op rest ih =>
    intro pq h
    have := ih (pq_step pq op) (pq_step_eof_inv pq op h)
    simpa [pq_run] using this

/-- C3: in every state reached from `packet_queue_create` by calls of
`packet_queue_add`, `packet_queue_get`, `packet_queue_set_eof` and
`packet_queue_flush`, the EOF flag is true only if no packet is queued; and a
push after `set_eof(true)` makes `packet_queue_is_eof` return false. -/
theorem packet_queue_eof_only_if_empty (ops : List pq_op) :
    ((pq_run packet_queue_create ops).eof = true →
      (pq_run packet_queue_create ops).head = []) ∧
    (∀ dp : demux_packet,
      packet_queue_is_eof
        (packet_queue_add (packet_queue_set_eof (pq_run packet_queue_create ops) true) dp)
        = false) :=
  ⟨pq_run_eof_inv ops packet_queue_create (by intro h; cases h), fun _ => rfl⟩

/-- C4: on a queue whose chain is `dp :: rest`, `packet_queue_get` returns `dp`,
leaves `rest` queued in its order, lowers the packet count by one and the
byte count by `dp.len` (in `size_t` arithmetic, which is the plain difference
whenever the count is at least `dp.len`), and keeps the EOF flag; on an empty
queue it returns `NULL` and leaves the queue as it is. -/
theorem packet_queue_get_spec (pq : packet_queue) :
    (∀ dp rest, pq.head = dp :: rest →
      (packet_queue_get pq).1 = some dp ∧
      (packet_queue_get pq).2.head = rest ∧
      (packet_queue_get pq).2.packs = pq.packs - 1 ∧
      ((packet_queue_get pq).2.bytes + dp.len) % SIZE_MODULUS
          = pq.bytes % SIZE_MODULUS ∧
      (dp.len ≤ pq.bytes → pq.bytes < SIZE_MODULUS →
        (packet_queue_get pq).2.bytes = pq.bytes - dp.len) ∧
      (packet_queue_get pq).2.eof = pq.eof) ∧
    (pq.head = [] → packet_queue_get pq = (none, pq)) := by
  refine ⟨?_, ?_⟩
  · intro dp rest h
    simp only [packet_queue_get, h, SIZE_MODULUS]
    refine ⟨trivial, trivial, trivial, ?_, ?_, trivial⟩
    · omega
    · intro h1 h2; omega
  · intro h
    simp [packet_queue_get, h]

/-- Witness of C3: after a push, a pop and `set_eof(true)` the flag is set and
the queue is empty. -/
theorem packet_queue_eof_only_if_empty_witness :
    (pq_run packet_queue_create
      [pq_op.add (sample_packet 0), pq_op.get, pq_op.set_eof true]).eof = true ∧
    (pq_run packet_queue_create
      [pq_op.add (sample_packet 0), pq_op.get, pq_op.set_eof true]).head = [] :=
  ⟨by decide,
   (packet_queue_eof_only_if_empty
      [pq_op.add (sample_packet 0), pq_op.get, pq_op.set_eof true]).1 (by decide)⟩

/-- Witness of C4: a pop from the queue holding packets 0 and 1. -/
theorem packet_queue_get_spec_witness :
    (packet_queue_add_all packet_queue_create (sample_packets 2)).head
        = [sample_packet 0, sample_packet 1] ∧
    (packet_queue_get (packet_queue_add_all packet_queue_create (sample_packets 2))).1
        = some (sample_packet 0) ∧
    (packet_queue_get (packet_queue_add_all packet_queue_create (sample_packets 2))).2.head
        = [sample_packet 1] ∧
    (packet_queue_get (packet_queue_add_all packet_queue_create (sample_packets 2))).2.bytes
        = 32 - 16 :=
  have h := (packet_queue_get_spec
    (packet_queue_add_all packet_queue_create (sample_packets 2))).1
      (sample_packet 0) [sample_packet 1] rfl
  ⟨rfl, h.1, h.2.1, h.2.2.2.2.1 (by decide) (by decide)⟩

/-! ## Demuxer lemmas -/

@[simp] theorem set_stream_stream (dp : demux_packet) (index : Int) :
    (set_stream dp index).stream = index := rfl

theorem set_stream_eq (dp : demux_packet) (index : Int) :
    set_stream dp index
      = { len := dp.len, pts := dp.pts, duration := dp.duration, stream_pts := dp.stream_pts,
          pos := dp.pos, buffer := dp.buffer, stream := index, allocation := dp.allocation,
          avpacket := dp.avpacket } := rfl

@[simp] theorem set_stream_len (dp : demux_packet) (index : Int) :
    (set_stream dp index).len = dp.len := rfl

@[simp] theorem set_stream_pos (dp : demux_packet) (index : Int) :
    (set_stream dp index).pos = dp.pos := rfl

theorem set_pq_getElem?_eq {P : Type} (d : demuxer P) (i : Nat) (sh : sh_stream)
    (pq : packet_queue) (h : d.streams[i]? = some sh) :
    (set_pq d i pq).streams[i]? = some { sh with pq := pq } := by
  simp [set_pq, h]

theorem set_pq_getElem?_ne {P : Type} (d : demuxer P) (i j : Nat) (pq : packet_queue)
    (h : j ≠ i) : (set_pq d i pq).streams[j]? = d.streams[j]? := by
  simp [set_pq, List.getElem?_modify_ne _ _ (Ne.symm h)]

theorem set_pq_length {P : Type} (d : demuxer P) (i : Nat) (pq : packet_queue) :
    (set_pq d i pq).streams.length = d.streams.length := by
  simp [set_pq]

theorem demuxer_add_packet_accept {P : Type} (d : demuxer P) (i : Nat) (sh : sh_stream)
    (dp : demux_packet) (h : d.streams[i]? = some sh) (hsel : sh.selected = true) :
    ∃ d', demuxer_add_packet d (some i) (some dp) = some (1, d') ∧
      d'.streams = (set_pq d i
        (packet_queue_add sh.pq (set_stream dp sh.index))).streams ∧
      d'.filepos = (if dp.pos ≥ 0 then dp.pos else d.filepos) ∧
      d'.priv = d.priv ∧ d'.stream_pts = d.stream_pts ∧
      d'.warned_queue_overflow = d.warned_queue_overflow := by
  by_cases hp : dp.pos ≥ 0
  · refine ⟨_, by simp only [demuxer_add_packet, h, hsel, hp]; rfl, ?_⟩
    simp [set_pq, hp]
  · refine ⟨_, by simp only [demuxer_add_packet, h, hsel, hp]; rfl, ?_⟩
    simp [set_pq, hp]

theorem demux_check_queue_full_fst {P : Type} (c : demux_h) (d : demuxer P) :
    (demux_check_queue_full c d).1 = d.streams.any (queue_over_limit c) := by
  unfold demux_check_queue_full
  split <;> simp_all

theorem demux_check_queue_full_streams {P : Type} (c : demux_h) (d : demuxer P) :
    (demux_check_queue_full c d).2.streams = d.streams ∧
    (demux_check_queue_full c d).2.priv = d.priv ∧
    (demux_check_queue_full c d).2.filepos = d.filepos ∧
    (demux_check_queue_full c d).2.stream_pts = d.stream_pts := by
  unfold demux_check_queue_full
  split
  · split <;> simp
  · simp

theorem demux_check_queue_full_of_false {P : Type} (c : demux_h) (d : demuxer P)
    (h : d.streams.any (queue_over_limit c) = false) :
    demux_check_queue_full c d = (false, d) := by
  simp [demux_check_queue_full, h]

theorem queue_over_limit_iff (c : demux_h) (sh : sh_stream)
    (h : sh.pq.bytes < SIZE_MODULUS) :
    queue_over_limit c sh = true ↔
      sh.pq.packs > c.MAX_PACKS ∨ sh.pq.bytes > c.MAX_PACK_BYTES := by
  simp [queue_over_limit, packet_queue_add_size, Nat.mod_eq_of_lt h]

theorem packet_queue_add_all_counts (ps : List demux_packet) :
    ∀ pq : packet_queue, pq.bytes < SIZE_MODULUS →
      (packet_queue_add_all pq ps).packs = pq.packs + ps.length ∧
      (packet_queue_add_all pq ps).bytes < SIZE_MODULUS ∧
      (packet_queue_add_all pq ps).bytes % SIZE_MODULUS
        = (pq.bytes + (ps.map (fun p => p.len)).sum) % SIZE_MODULUS := by
  induction ps with
  | nil => intro pq h; exact ⟨by simp [packet_queue_add_all], h, rfl⟩
  | cons p rest ih =>
    intro pq h
    have hb : (packet_queue_add pq p).bytes < SIZE_MODULUS := by
      simp only [packet_queue_add, SIZE_MODULUS]; omega
    obtain ⟨h1, h2, h3⟩ := ih (packet_queue_add pq p) hb
    refine ⟨?_, ?_, ?_⟩
    · show (packet_queue_add_all (packet_queue_add pq p) rest).packs = _
      rw [h1]
      simp only [packet_queue_add, List.length_cons]
      push_cast; ring
    · simpa [packet_queue_add_all] using h2
    · show (packet_queue_add_all (packet_queue_add pq p) rest).bytes % SIZE_MODULUS = _
      rw [h3]
      simp only [packet_queue_add, SIZE_MODULUS, List.map_cons, List.sum_cons]
      omega

theorem packet_queue_get_n_counts (k : Nat) :
    ∀ (ps : List demux_packet) (pq : packet_queue), pq.head = ps → k ≤ ps.length →
      pq.bytes < SIZE_MODULUS →
      (packet_queue_get_n k pq).2.head = ps.drop k ∧
      (packet_queue_get_n k pq).2.packs = pq.packs - k ∧
      (packet_queue_get_n k pq).2.bytes < SIZE_MODULUS ∧
      ((packet_queue_get_n k pq).2.bytes + ((ps.take k).map (fun p => p.len)).sum)
          % SIZE_MODULUS = pq.bytes % SIZE_MODULUS := by
  induction k with
  | zero => intro ps pq h _ hb; simp [packet_queue_get_n, h, hb]
  | succ k ih =>
    intro ps pq h hk hb
    cases ps with
    | nil => simp at hk
    | cons p rest =>
      have hget : packet_queue_get pq = (some p,
          { pq with
            head := rest
            tail := if rest.isEmpty then none else pq.tail
            bytes := (pq.bytes + (SIZE_MODULUS - p.len % SIZE_MODULUS)) % SIZE_MODULUS
            packs := pq.packs - 1 }) := by
        simp [packet_queue_get, h]
      have hb1 : (packet_queue_get pq).2.bytes < SIZE_MODULUS := by
        rw [hget]; simp only [SIZE_MODULUS]; omega
      obtain ⟨h1, h2, h3, h4⟩ := ih rest (packet_queue_get pq).2 (by rw [hget])
        (by simpa using hk) hb1
      simp only [packet_queue_get_n]
      refine ⟨by simpa using h1, ?_, h3, ?_⟩
      · rw [h2, hget]; push_cast; ring
      · have hbytes : (packet_queue_get pq).2.bytes
            = (pq.bytes + (SIZE_MODULUS - p.len % SIZE_MODULUS)) % SIZE_MODULUS := by
          rw [hget]
        simp only [List.take_succ_cons, List.map_cons, List.sum_cons]
        simp only [SIZE_MODULUS] at h4 hb hbytes ⊢
        omega

theorem demuxer_add_packets_track {P : Type} (i : Nat) (ps : List demux_packet) :
    ∀ (d : demuxer P) (sh : sh_stream), d.streams[i]? = some sh → sh.selected = true →
      ∃ d1, demuxer_add_packets d i ps = some (List.replicate ps.length 1, d1) ∧
        d1.streams[i]? = some { sh with
          pq := packet_queue_add_all sh.pq
            (ps.map (fun p => set_stream p sh.index)) } ∧
        (∀ j, j ≠ i → d1.streams[j]? = d.streams[j]?) ∧
        d1.priv = d.priv := by
  induction ps with
  | nil =>
    intro d sh h _
    exact ⟨d, rfl, by simpa [packet_queue_add_all] using h, fun _ _ => rfl, rfl⟩
  | cons p rest ih =>
    intro d sh h hsel
    obtain ⟨d', hd, hst, _, hpriv, _⟩ := demuxer_add_packet_accept d i sh p h hsel
    have hsh' : d'.streams[i]? = some { sh with
        pq := packet_queue_add sh.pq (set_stream p sh.index) } := by
      rw [hst]; exact set_pq_getElem?_eq d i sh _ h
    obtain ⟨d1, h1, h2, h3, h4⟩ := ih d' _ hsh' hsel
    refine ⟨d1, ?_, ?_, ?_, by rw [h4, hpriv]⟩
    · simp [demuxer_add_packets, hd, h1, List.replicate_succ]
    · simpa [packet_queue_add_all] using h2
    · intro j hj
      rw [h3 j hj, hst]
      exact set_pq_getElem?_ne d i j _ hj

theorem demuxer_pop_n_track {P : Type} (i : Nat) (k : Nat) :
    ∀ (d : demuxer P) (sh : sh_stream), d.streams[i]? = some sh →
      ∃ d1, demuxer_pop_n d i k = some d1 ∧
        d1.streams[i]? = some { sh with pq := (packet_queue_get_n k sh.pq).2 } ∧
        (∀ j, j ≠ i → d1.streams[j]? = d.streams[j]?) := by
  induction k with
  | zero =>
    intro d sh h
    exact ⟨d, rfl, by simpa [packet_queue_get_n] using h, fun _ _ => rfl⟩
  | succ k ih =>
    intro d sh h
    have hsh' := set_pq_getElem?_eq d i sh (packet_queue_get sh.pq).2 h
    obtain ⟨d1, h1, h2, h3⟩ := ih _ _ hsh'
    refine ⟨d1, ?_, ?_, ?_⟩
    · simp [demuxer_pop_n, h, h1]
    · simpa [packet_queue_get_n] using h2
    · intro j hj
      rw [h3 j hj]
      exact set_pq_getElem?_ne d i j _ hj

theorem ds_get_packets_loop_nonempty {P : Type} (c : demux_h) (desc : demuxer_desc P)
    (i fuel : Nat) (d : demuxer P) (sh : sh_stream) (h : d.streams[i]? = some sh)
    (hne : sh.pq.head ≠ []) : ds_get_packets_loop c desc i (fuel + 1) d = some d := by
  simp [ds_get_packets_loop, h, packet_queue_is_empty, hne]

theorem check_queue_full_idle {P : Type} (c : demux_h) (d : demuxer P) (idx : Int)
    (h : single_idle_track d idx) (hN : 0 ≤ c.MAX_PACKS) :
    demux_check_queue_full c d = (false, d) := by
  obtain ⟨sh, hs, _, _, _, _, hp, hb⟩ := h
  apply demux_check_queue_full_of_false
  simp [hs, queue_over_limit, packet_queue_add_size, hp, hb, hN]

theorem read_packet_step_some (c : demux_h) (fuel : Nat) (d : demuxer (List demux_packet))
    (idx : Int) (p : demux_packet) (rest : List demux_packet)
    (h : single_idle_track d idx) (hp : d.priv = p :: rest) (hN : 0 ≤ c.MAX_PACKS)
    (hfuel : 2 ≤ fuel) :
    ∃ d', demux_read_packet c list_desc fuel d (some 0) = some (some (set_stream p idx), d') ∧
      single_idle_track d' idx ∧ d'.priv = rest := by
  obtain ⟨f, rfl⟩ : ∃ f, fuel = f + 1 + 1 := ⟨fuel - 2, by omega⟩
  obtain ⟨sh, hs, hsel, hidx, hhead, htail, hpk, hby⟩ := h
  subst hidx
  have hs0 : d.streams[0]? = some sh := by simp [hs]
  -- the demuxer on entry to the loop
  let d0 : demuxer (List demux_packet) :=
    { d with msgs := d.msgs ++ [msg_line.ds_get_packets_called sh.type] }
  have hidle0 : single_idle_track d0 sh.index := ⟨sh, hs, hsel, rfl, hhead, htail, hpk, hby⟩
  have hchk := check_queue_full_idle c d0 sh.index hidle0 hN
  -- the plugin delivers `p`
  obtain ⟨d1, hadd, hst1, _, hpriv1, _⟩ :=
    demuxer_add_packet_accept { d0 with priv := rest } 0 sh p hs0 hsel
  have hfill : demux_fill_buffer list_desc d0 = (1, d1) := by
    simp only [demux_fill_buffer, list_desc, list_fill_buffer]
    rw [show d0.priv = p :: rest from hp]
    simp only [hadd]
  have hs1 : d1.streams[0]? = some { sh with pq := packet_queue_add sh.pq (set_stream p sh.index) } := by
    rw [hst1]; exact set_pq_getElem?_eq _ 0 sh _ hs0
  have hne1 : ({ sh with pq := packet_queue_add sh.pq (set_stream p sh.index) } : sh_stream).pq.head
      ≠ [] := by
    simp [packet_queue_add, htail]
  have hloop : ds_get_packets_loop c list_desc 0 (f + 1 + 1) d0 = some d1 := by
    rw [ds_get_packets_loop]
    simp only [show d0.streams[0]? = some sh from hs0, packet_queue_is_empty, hhead,
      List.isEmpty_nil, Bool.not_true, Bool.false_eq_true, if_false, hchk, hfill]
    simp only [one_ne_zero, if_false]
    exact ds_get_packets_loop_nonempty c list_desc 0 f d1 _ hs1 hne1
  have hget : ds_get_packets c list_desc (f + 1 + 1) d 0 = some d1 := by
    simp only [ds_get_packets, hs0]
    exact hloop
  have hstreams1 : d1.streams
      = [{ sh with pq := packet_queue_add sh.pq (set_stream p sh.index) }] := by
    rw [hst1]; simp [set_pq, d0, hs]
  -- the packet is taken from the queue again
  have hq : packet_queue_get (packet_queue_add sh.pq (set_stream p sh.index))
      = (some (set_stream p sh.index),
         { eof := false
           packs := sh.pq.packs + 1 - 1
           bytes := ((sh.pq.bytes + p.len) % SIZE_MODULUS
              + (SIZE_MODULUS - p.len % SIZE_MODULUS)) % SIZE_MODULUS
           head := []
           tail := none }) := by
    simp [packet_queue_get, packet_queue_add, htail]
  have hidle2 : single_idle_track
      (set_pq d1 0 (packet_queue_get (packet_queue_add sh.pq (set_stream p sh.index))).2)
      sh.index := by
    refine ⟨{ sh with pq :=
      (packet_queue_get (packet_queue_add sh.pq (set_stream p sh.index))).2 }, ?_, hsel, rfl,
      ?_, ?_, ?_, ?_⟩
    · simp [set_pq, hstreams1]
    · rw [hq]
    · rw [hq]
    · rw [hq]; simp [hpk]
    · rw [hq]; simp only [hby, SIZE_MODULUS]; omega
  have hpriv2 : (set_pq d1 0
      (packet_queue_get (packet_queue_add sh.pq (set_stream p sh.index))).2).priv = rest := by
    simp [set_pq, hpriv1]
  by_cases hsp : (set_stream p sh.index).stream_pts = MP_NOPTS_VALUE
  · refine ⟨set_pq d1 0
      (packet_queue_get (packet_queue_add sh.pq (set_stream p sh.index))).2, ?_, ?_, hpriv2⟩
    · simp only [demux_read_packet, hget, hs1, hq, hsp, ne_eq, not_true_eq_false, if_false]
    · exact hidle2
  · refine ⟨{ set_pq d1 0
      (packet_queue_get (packet_queue_add sh.pq (set_stream p sh.index))).2 with
      stream_pts := (set_stream p sh.index).stream_pts }, ?_, ?_, hpriv2⟩
    · simp only [demux_read_packet, hget, hs1, hq, hsp, ne_eq, not_false_eq_true, if_true]
    · exact hidle2

theorem read_packet_step_none (c : demux_h) (fuel : Nat) (d : demuxer (List demux_packet))
    (idx : Int) (h : single_idle_track d idx) (hp : d.priv = []) (hN : 0 ≤ c.MAX_PACKS)
    (hfuel : 1 ≤ fuel) :
    ∃ d', demux_read_packet c list_desc fuel d (some 0) = some (none, d') ∧
      single_idle_track d' idx ∧ d'.priv = [] ∧
      (∀ sh, d'.streams[0]? = some sh → sh.pq.eof = true) := by
  obtain ⟨f, rfl⟩ : ∃ f, fuel = f + 1 := ⟨fuel - 1, by omega⟩
  obtain ⟨sh, hs, hsel, hidx, hhead, htail, hpk, hby⟩ := h
  have hs0 : d.streams[0]? = some sh := by simp [hs]
  let d0 : demuxer (List demux_packet) :=
    { d with msgs := d.msgs ++ [msg_line.ds_get_packets_called sh.type] }
  have hidle0 : single_idle_track d0 idx := ⟨sh, hs, hsel, hidx, hhead, htail, hpk, hby⟩
  have hchk := check_queue_full_idle c d0 idx hidle0 hN
  have hfill : demux_fill_buffer list_desc d0 = (0, d0) := by
    simp only [demux_fill_buffer, list_desc, list_fill_buffer]
    rw [show d0.priv = [] from hp]
  have hloop : ds_get_packets_loop c list_desc 0 (f + 1) d0
      = some (ds_get_packets_eof d0 0 sh) := by
    rw [ds_get_packets_loop]
    simp only [show d0.streams[0]? = some sh from hs0, packet_queue_is_empty, hhead,
      List.isEmpty_nil, Bool.not_true, Bool.false_eq_true, if_false, hchk, hfill, if_true]
  have hget : ds_get_packets c list_desc (f + 1) d 0 = some (ds_get_packets_eof d0 0 sh) := by
    simp only [ds_get_packets, hs0]
    exact hloop
  have hstreams1 : (ds_get_packets_eof d0 0 sh).streams
      = [{ sh with pq := packet_queue_set_eof sh.pq true }] := by
    simp [ds_get_packets_eof, set_pq, d0, hs]
  have hs1 : (ds_get_packets_eof d0 0 sh).streams[0]?
      = some { sh with pq := packet_queue_set_eof sh.pq true } := by
    rw [hstreams1]; rfl
  have hq : packet_queue_get (packet_queue_set_eof sh.pq true)
      = (none, packet_queue_set_eof sh.pq true) := by
    simp [packet_queue_get, packet_queue_set_eof, hhead]
  refine ⟨set_pq (ds_get_packets_eof d0 0 sh) 0 (packet_queue_set_eof sh.pq true), ?_, ?_, ?_, ?_⟩
  · simp only [demux_read_packet, hget, hs1, hq]
  · refine ⟨{ sh with pq := packet_queue_set_eof sh.pq true }, ?_, hsel, hidx, hhead, htail,
      hpk, hby⟩
    simp [set_pq, hstreams1]
  · simp [set_pq, ds_get_packets_eof, d0, hp]
  · intro sh' hsh'
    simp only [set_pq, hstreams1, List.modify_zero_cons, List.getElem?_cons_zero,
      Option.some.injEq] at hsh'
    subst hsh'
    simp [packet_queue_set_eof, hhead]

theorem read_packets_initial (c : demux_h) (fuel : Nat) (idx : Int) (hN : 0 ≤ c.MAX_PACKS)
    (hfuel : 2 ≤ fuel) (pre : List demux_packet) :
    ∀ (d : demuxer (List demux_packet)) (post : List demux_packet),
      single_idle_track d idx → d.priv = pre ++ post →
      ∃ d', demux_read_packets c list_desc fuel 0 pre.length d
          = some (pre.map (fun p => some (set_stream p idx)), d') ∧
        single_idle_track d' idx ∧ d'.priv = post := by
  induction pre with
  | nil => intro d post h hp; exact ⟨d, rfl, h, by simpa using hp⟩
  | cons p rest ih =>
    intro d post h hp
    obtain ⟨d1, h1, h2, h3⟩ := read_packet_step_some c fuel d idx p (rest ++ post) h
      (by simpa using hp) hN hfuel
    obtain ⟨d2, g1, g2, g3⟩ := ih d1 post h2 h3
    exact ⟨d2, by simp [demux_read_packets, h1, g1], g2, g3⟩

theorem read_packets_all (c : demux_h) (fuel : Nat) (idx : Int) (hN : 0 ≤ c.MAX_PACKS)
    (hfuel : 2 ≤ fuel) (ps : List demux_packet) :
    ∀ d : demuxer (List demux_packet), single_idle_track d idx → d.priv = ps →
      ∃ d', demux_read_packets c list_desc fuel 0 (ps.length + 1) d
          = some (ps.map (fun p => some (set_stream p idx)) ++ [none], d') := by
  induction ps with
  | nil =>
    intro d h hp
    obtain ⟨d1, h1, _⟩ := read_packet_step_none c fuel d idx h hp hN (by omega)
    exact ⟨d1, by simp [demux_read_packets, h1]⟩
  | cons p rest ih =>
    intro d h hp
    obtain ⟨d1, h1, h2, h3⟩ := read_packet_step_some c fuel d idx p rest h hp hN hfuel
    obtain ⟨d2, g1⟩ := ih d1 h2 h3
    refine ⟨d2, ?_⟩
    rw [List.length_cons, demux_read_packets]
    simp only [h1, g1, List.map_cons, List.cons_append]

theorem get_next_pts_idle {P : Type} (d : demuxer P) (idx : Int)
    (h : single_idle_track d idx) : demux_get_next_pts d (some 0) = some MP_NOPTS_VALUE := by
  obtain ⟨sh, hs, _, _, hhead, _⟩ := h
  simp [demux_get_next_pts, hs, packet_queue_get_pts, hhead]

theorem sample_source_idle : single_idle_track sample_source_demuxer 0 :=
  ⟨_, rfl, rfl, rfl, rfl, rfl, rfl, rfl⟩

theorem sample_packets_length (n : Nat) : (sample_packets n).length = n := by
  simp [sample_packets]

theorem sample_packets_split (m n : Nat) (h : m ≤ n) :
    sample_packets n = sample_packets m ++ (sample_packets n).drop m := by
  have : sample_packets m = (sample_packets n).take m := by
    simp [sample_packets, ← List.map_take, List.take_range, Nat.min_eq_left h]
  rw [this, List.take_append_drop]

theorem sample_packets_drop_head (m n : Nat) (h : m < n) :
    ((sample_packets n).drop m).head? = some (sample_packet m) := by
  simp [sample_packets, List.head?_drop, List.getElem?_range h]

/-! ## Demuxer theorems -/

/-- C5: `demuxer_add_packet(demuxer, stream, dp)` (with `stream` `NULL` or a
track of the demuxer) returns 1 exactly when `dp` and `stream` are non-null
and the track is selected, and 0 otherwise. On 0 the track list with its
queues and `filepos` are as before. On 1 the queue of that track is the old
one with the stamped packet added by `packet_queue_add` (at the end of the
chain of a well-linked queue, where it is the last packet); the stamped packet
has the track's index in its `stream` field, whatever the field held before,
and every other field as in `dp`; every other track is as before, and
`filepos` is the packet's `pos` when `pos >= 0` and is unchanged otherwise. -/
theorem demuxer_add_packet_spec {P : Type} (d : demuxer P) (stream : Option Nat)
    (dp : Option demux_packet) (hvalid : ∀ i, stream = some i → i < d.streams.length) :
    ∃ r d', demuxer_add_packet d stream dp = some (r, d') ∧
      (r = 0 ∨ r = 1) ∧
      (r = 1 ↔ ∃ p i sh, dp = some p ∧ stream = some i ∧ d.streams[i]? = some sh ∧
        sh.selected = true) ∧
      (r = 0 → d'.streams = d.streams ∧ d'.filepos = d.filepos) ∧
      (r = 1 → ∀ p i sh, dp = some p → stream = some i → d.streams[i]? = some sh →
        d'.streams[i]? = some { sh with
          pq := packet_queue_add sh.pq { p with stream := sh.index } } ∧
        (pq_linked sh.pq → ∀ sh', d'.streams[i]? = some sh' →
          sh'.pq.head = sh.pq.head ++ [{ p with stream := sh.index }] ∧
          ∃ q, sh'.pq.head.getLast? = some q ∧ q.stream = sh.index ∧
            q.len = p.len ∧ q.pts = p.pts ∧ q.duration = p.duration ∧
            q.stream_pts = p.stream_pts ∧ q.pos = p.pos ∧ q.buffer = p.buffer ∧
            q.allocation = p.allocation ∧ q.avpacket = p.avpacket) ∧
        (∀ j, j ≠ i → d'.streams[j]? = d.streams[j]?) ∧
        d'.streams.length = d.streams.length ∧
        d'.filepos = (if p.pos ≥ 0 then p.pos else d.filepos)) := by
  cases dp with
  | none =>
    refine ⟨0, _, rfl, Or.inl rfl, ?_, fun _ => ⟨rfl, rfl⟩, ?_⟩
    · constructor
      · intro h; cases h
      · rintro ⟨p, i, sh, h, _⟩; cases h
    · intro h; cases h
  | some p =>
    cases stream with
    | none =>
      refine ⟨0, _, rfl, Or.inl rfl, ?_, fun _ => ⟨rfl, rfl⟩, ?_⟩
      · constructor
        · intro h; cases h
        · rintro ⟨p, i, sh, _, h, _⟩; cases h
      · intro h; cases h
    | some i =>
      have hi := hvalid i rfl
      obtain ⟨sh, hsh⟩ : ∃ sh, d.streams[i]? = some sh :=
        ⟨d.streams[i], List.getElem?_eq_getElem hi⟩
      cases hsel : sh.selected with
      | false =>
        refine ⟨0, { d with msgs := d.msgs ++ [msg_line.kill] }, ?_, Or.inl rfl, ?_,
          fun _ => ⟨rfl, rfl⟩, ?_⟩
        · simp [demuxer_add_packet, hsh, hsel]
        · constructor
          · intro h; cases h
          · rintro ⟨p', i', sh', _, h2, h3, h4⟩
            cases h2
            rw [hsh] at h3
            cases h3
            rw [hsel] at h4
            cases h4
        · intro h; cases h
      | true =>
        obtain ⟨d', hd, hst, hfp, _⟩ := demuxer_add_packet_accept d i sh p hsh hsel
        refine ⟨1, d', hd, Or.inr rfl, ?_, ?_, ?_⟩
        · exact ⟨fun _ => ⟨p, i, sh, rfl, rfl, hsh, hsel⟩, fun _ => rfl⟩
        · intro h; cases h
        · intro _ p' i' sh' h1 h2 h3
          cases h1
          cases h2
          rw [hsh] at h3
          cases h3
          have hnew : d'.streams[i]? = some { sh with
              pq := packet_queue_add sh.pq { p with stream := sh.index } } := by
            rw [hst]; exact set_pq_getElem?_eq d i sh _ hsh
          refine ⟨hnew, ?_, ?_, ?_, hfp⟩
          · intro hl sh2 hsh2
            rw [hnew] at hsh2
            cases hsh2
            have hh := packet_queue_add_head_of_linked sh.pq { p with stream := sh.index } hl
            refine ⟨hh, { p with stream := sh.index }, ?_, rfl, rfl, rfl, rfl, rfl, rfl, rfl,
              rfl, rfl⟩
            show (packet_queue_add sh.pq { p with stream := sh.index }).head.getLast? = _
            rw [hh]
            exact List.getLast?_concat _
          · intro j hj
            rw [hst]; exact set_pq_getElem?_ne d i j _ hj
          · rw [hst]; exact set_pq_length d i _

/-- Witness of C5: a packet with position 48 and `stream` field -1 handed to
the selected track of index 5 of a two-track demuxer is accepted, sets
`filepos` to 48 and is the one packet of that track's queue, with 5 in its
`stream` field. -/
theorem demuxer_add_packet_spec_witness :
    (∀ i, (some 0 : Option Nat) = some i → i < sample_stamp_demuxer.streams.length) ∧
    (sample_packet 3).stream = -1 ∧
    ∃ r d', demuxer_add_packet sample_stamp_demuxer (some 0) (some (sample_packet 3))
        = some (r, d') ∧ r = 1 ∧ d'.filepos = 48 ∧
      d'.streams[1]? = sample_stamp_demuxer.streams[1]? ∧
      (∃ sh', d'.streams[0]? = some sh' ∧
        sh'.pq.head = [{ sample_packet 3 with stream := 5 }] ∧
        sh'.pq.head.map (fun q => q.stream) = [5]) := by
  have hv : ∀ i, (some 0 : Option Nat) = some i →
      i < sample_stamp_demuxer.streams.length := by
    intro i h; cases h; decide
  obtain ⟨r, d', h1, _, h3, _, h5⟩ :=
    demuxer_add_packet_spec sample_stamp_demuxer (some 0) (some (sample_packet 3)) hv
  have hr : r = 1 := h3.mpr ⟨_, 0, _, rfl, rfl, rfl, rfl⟩
  obtain ⟨g1, g2, g3, _, g5⟩ := h5 hr _ 0 _ rfl rfl rfl
  have g6 := (g2 (by decide) _ g1).1
  exact ⟨hv, rfl, r, d', h1, hr, by rw [g5]; decide, g3 1 (by decide), _, g1, g6,
    by rw [g6]; rfl⟩

/-- C6, counterexample: with a packet-count ceiling of 1, two accepted pushes,
one to each of two tracks, are `1 + 1` pushes in total, and
`demux_check_queue_full` still returns false. And with a ceiling of 2, after
three pushes to one track and two pops a single packet (`2 - 1`) is queued,
and `demux_check_queue_full` still returns true, because that packet is
larger than `MAX_PACK_BYTES`. -/
theorem backpressure_total_counterexample :
    (∃ d1 d2,
      demuxer_add_packet
        (sample_demuxer [sample_track stream_type.STREAM_AUDIO 0 true,
                         sample_track stream_type.STREAM_VIDEO 1 true] ())
        (some 0) (some (sample_packet 0)) = some (1, d1) ∧
      demuxer_add_packet d1 (some 1) (some (sample_packet 1)) = some (1, d2) ∧
      (small_limits 1).MAX_PACKS = 1 ∧
      (demux_check_queue_full (small_limits 1) d2).1 = false) ∧
    (∃ d1 d2,
      demuxer_add_packets sample_one_track_demuxer 0
        [sample_packet 0, sample_packet 1, { sample_packet 2 with len := 1000000000 }]
        = some ([1, 1, 1], d1) ∧
      demuxer_pop_n d1 0 2 = some d2 ∧
      (d2.streams.map (fun sh => sh.pq.head.length)) = [1] ∧
      (small_limits 2).MAX_PACKS = 2 ∧
      (demux_check_queue_full (small_limits 2) d2).1 = true) :=
  ⟨⟨_, _, rfl, rfl, rfl, by decide⟩, ⟨_, _, rfl, rfl, by decide, rfl, by decide⟩⟩

/-- C6, amended: once `MAX_PACKS + 1` packets have been pushed with
`demuxer_add_packet` to one selected track whose queue was fresh, all are
accepted and `demux_check_queue_full` returns true; after that track is
popped back down to `MAX_PACKS - 1` queued packets it returns false again,
provided no other track is over a ceiling and the bytes left on the track do
not exceed `MAX_PACK_BYTES`. -/
theorem backpressure_single_track {P : Type} (c : demux_h) (d : demuxer P) (i : Nat)
    (sh : sh_stream) (ps : List demux_packet)
    (hsh : d.streams[i]? = some sh) (hsel : sh.selected = true)
    (hq : sh.pq = packet_queue_create)
    (hlen : (ps.length : Int) = c.MAX_PACKS + 1) :
    ∃ d1, demuxer_add_packets d i ps = some (List.replicate ps.length 1, d1) ∧
      (demux_check_queue_full c d1).1 = true ∧
      (2 ≤ ps.length →
        (∀ j t, j ≠ i → d.streams[j]? = some t → queue_over_limit c t = false) →
        ((ps.drop 2).map (fun p => p.len)).sum ≤ c.MAX_PACK_BYTES →
        ∃ d2, demuxer_pop_n d1 i 2 = some d2 ∧
          (∃ t, d2.streams[i]? = some t ∧ t.pq.packs = c.MAX_PACKS - 1 ∧
            t.pq.head = (ps.drop 2).map (fun p => set_stream p sh.index)) ∧
          (demux_check_queue_full c d2).1 = false) := by
  obtain ⟨d1, hadd, hst1, hoth1, _⟩ := demuxer_add_packets_track i ps d sh hsh hsel
  have hb0 : sh.pq.bytes < SIZE_MODULUS := by rw [hq]; decide
  have hl0 : pq_linked sh.pq := by rw [hq]; exact pq_linked_create
  obtain ⟨hc1, hc2, hc3⟩ := packet_queue_add_all_counts
    (ps.map (fun p => set_stream p sh.index)) sh.pq hb0
  obtain ⟨hh1, _⟩ := packet_queue_add_all_head
    (ps.map (fun p => set_stream p sh.index)) sh.pq hl0
  have hpacks0 : sh.pq.packs = 0 := by rw [hq]; rfl
  have hbytes0 : sh.pq.bytes = 0 := by rw [hq]; rfl
  have hhead0 : sh.pq.head = [] := by rw [hq]; rfl
  refine ⟨d1, hadd, ?_, ?_⟩
  · rw [demux_check_queue_full_fst, List.any_eq_true]
    refine ⟨_, List.getElem?_mem hst1, ?_⟩
    simp only [queue_over_limit, packet_queue_add_size, Bool.or_eq_true, decide_eq_true_eq]
    left
    rw [hc1, hpacks0]
    simp only [List.length_map]
    omega
  · intro h2 hothers hsum
    obtain ⟨d2, hpop, hst2, hoth2⟩ := demuxer_pop_n_track i 2 d1 _ hst1
    have hk : 2 ≤ (ps.map (fun p => set_stream p sh.index)).length := by
      simpa using h2
    obtain ⟨g1, g2, g3, g4⟩ := packet_queue_get_n_counts 2 _
      (packet_queue_add_all sh.pq (ps.map (fun p => set_stream p sh.index)))
      (by rw [hh1, hhead0]; rfl) hk hc2
    refine ⟨d2, hpop, ⟨_, hst2, ?_, ?_⟩, ?_⟩
    · show (packet_queue_get_n 2 _).2.packs = _
      rw [g2, hc1, hpacks0]
      simp only [List.length_map]
      push_cast
      omega
    · show (packet_queue_get_n 2 _).2.head = _
      rw [g1, List.map_drop]
    · rw [demux_check_queue_full_fst, List.any_eq_false]
      intro t ht
      obtain ⟨j, hj⟩ := List.getElem?_of_mem ht
      by_cases hji : j = i
      · subst hji
        rw [hst2] at hj
        cases hj
        have hsplit : ((ps.map (fun p => set_stream p sh.index)).map
            (fun p => p.len)).sum
            = (((ps.map (fun p => set_stream p sh.index)).take 2).map
                (fun p => p.len)).sum + ((ps.drop 2).map (fun p => p.len)).sum := by
          conv_lhs => rw [← List.take_append_drop 2 ps]
          simp [List.map_take, List.map_drop, Function.comp_def, set_stream]
        simp only [queue_over_limit, packet_queue_add_size, Bool.or_eq_true,
          decide_eq_true_eq, not_or, not_lt]
        constructor
        · show (0 : Int) + (packet_queue_get_n 2 _).2.packs ≤ _
          rw [g2, hc1, hpacks0]
          simp only [List.length_map]
          push_cast
          omega
        · show (0 + (packet_queue_get_n 2 _).2.bytes) % SIZE_MODULUS ≤ _
          rw [hbytes0, hsplit] at hc3
          simp only [SIZE_MODULUS] at g3 g4 hc3 hc2 ⊢
          omega
      · rw [hoth2 j hji, hoth1 j hji] at hj
        simpa using hothers j t hji hj

/-- Witness of C6 as amended: with a ceiling of two packets, three pushes to
the one track make the demuxer full, and two pops make it not full again. -/
theorem backpressure_single_track_witness :
    ∃ d1, demuxer_add_packets sample_one_track_demuxer 0 (sample_packets 3)
        = some ([1, 1, 1], d1) ∧
      (demux_check_queue_full (small_limits 2) d1).1 = true ∧
      ∃ d2, demuxer_pop_n d1 0 2 = some d2 ∧
        (demux_check_queue_full (small_limits 2) d2).1 = false := by
  obtain ⟨d1, h1, h2, h3⟩ := backpressure_single_track (small_limits 2)
    sample_one_track_demuxer 0 (sample_track stream_type.STREAM_AUDIO 0 true)
    (sample_packets 3) rfl rfl rfl (by decide)
  obtain ⟨d2, h4, _, h5⟩ := h3 (by decide)
    (by
      intro j t hj h
      cases j with
      | zero => exact absurd rfl hj
      | succ j => simp [sample_one_track_demuxer, sample_demuxer] at h)
    (by decide)
  exact ⟨d1, h1, h2, d2, h4, h5⟩

/-- C7: `demux_check_queue_full(demux)` returns true exactly when some track's
own queue counts more than `MAX_PACKS` packets or more than `MAX_PACK_BYTES`
bytes. It leaves the tracks and their queues as they are; when it returns true
`warned_queue_overflow` is true afterwards, when it returns false the demuxer
is unchanged; and the warning lines are written only when the flag was false
before the call. -/
theorem demux_check_queue_full_spec {P : Type} (c : demux_h) (d : demuxer P)
    (hsz : ∀ sh ∈ d.streams, sh.pq.bytes < SIZE_MODULUS) :
    ((demux_check_queue_full c d).1 = true ↔
      ∃ sh ∈ d.streams, sh.pq.packs > c.MAX_PACKS ∨ sh.pq.bytes > c.MAX_PACK_BYTES) ∧
    (demux_check_queue_full c d).2.streams = d.streams ∧
    ((demux_check_queue_full c d).1 = true →
      (demux_check_queue_full c d).2.warned_queue_overflow = true) ∧
    ((demux_check_queue_full c d).1 = false → (demux_check_queue_full c d).2 = d) ∧
    (d.warned_queue_overflow = true → (demux_check_queue_full c d).2.msgs = d.msgs) ∧
    ((demux_check_queue_full c d).1 = true → d.warned_queue_overflow = false →
      ∃ line, (demux_check_queue_full c d).2.msgs
        = d.msgs ++ [line, msg_line.maybe_non_interleaved]) := by
  refine ⟨?_, (demux_check_queue_full_streams c d).1, ?_, ?_, ?_, ?_⟩
  · rw [demux_check_queue_full_fst, List.any_eq_true]
    constructor
    · rintro ⟨sh, hm, ho⟩
      exact ⟨sh, hm, (queue_over_limit_iff c sh (hsz sh hm)).mp ho⟩
    · rintro ⟨sh, hm, ho⟩
      exact ⟨sh, hm, (queue_over_limit_iff c sh (hsz sh hm)).mpr ho⟩
  · unfold demux_check_queue_full
    split <;> simp
  · unfold demux_check_queue_full
    split <;> simp
  · intro hw
    unfold demux_check_queue_full
    split <;> simp [hw]
  · intro h hw
    unfold demux_check_queue_full at h ⊢
    split
    · simp [hw]
    · rename_i hc
      simp [hc] at h

/-- Witness of C7: with a ceiling of one packet, the demuxer whose track holds
two packets is full, and the call sets the warned flag. -/
theorem demux_check_queue_full_spec_witness :
    (∀ sh ∈ sample_loaded_demuxer.streams, sh.pq.bytes < SIZE_MODULUS) ∧
    (demux_check_queue_full (small_limits 1) sample_loaded_demuxer).1 = true ∧
    (demux_check_queue_full (small_limits 1) sample_loaded_demuxer).2.warned_queue_overflow
      = true ∧
    sample_loaded_demuxer.warned_queue_overflow = false := by
  have hsz : ∀ sh ∈ sample_loaded_demuxer.streams, sh.pq.bytes < SIZE_MODULUS := by
    intro sh h
    simp only [sample_loaded_demuxer, sample_demuxer, List.mem_singleton] at h
    subst h
    decide
  have h := demux_check_queue_full_spec (small_limits 1) sample_loaded_demuxer hsz
  have ht : (demux_check_queue_full (small_limits 1) sample_loaded_demuxer).1 = true :=
    h.1.mpr ⟨_, List.mem_singleton.mpr rfl, Or.inl (by decide)⟩
  exact ⟨hsz, ht, h.2.2.1 ht, rfl⟩

/-- C8: for a demuxer with a single selected track with an empty queue whose
plugin hands the packets `ps` one per `fill_buffer` call to
`demuxer_add_packet` and then returns 0, `ps.length + 1` successive calls of
`demux_read_packet` (each given at least two loop iterations) return the
packets of `ps` in order, stamped with the track index, and then `NULL`. -/
theorem demux_read_packet_end_to_end (c : demux_h) (fuel : Nat)
    (d : demuxer (List demux_packet)) (idx : Int) (ps : List demux_packet)
    (h : single_idle_track d idx) (hp : d.priv = ps) (hN : 0 ≤ c.MAX_PACKS)
    (hfuel : 2 ≤ fuel) :
    ∃ d', demux_read_packets c list_desc fuel 0 (ps.length + 1) d
        = some (ps.map (fun p => some (set_stream p idx)) ++ [none], d') :=
  read_packets_all c fuel idx hN hfuel ps d h hp

/-- Witness of C8: the 200 packets of the synthetic source are read in order
and the read after them, the 201st, returns `NULL`. -/
theorem demux_read_packet_end_to_end_witness :
    single_idle_track sample_source_demuxer 0 ∧
    ∃ d', demux_read_packets sample_limits list_desc 2 0 201 sample_source_demuxer
        = some ((sample_packets 200).map (fun p => some (set_stream p 0)) ++ [none], d') := by
  have h := demux_read_packet_end_to_end sample_limits 2 sample_source_demuxer 0
    (sample_packets 200) sample_source_idle rfl (by decide) (by decide)
  rw [sample_packets_length] at h
  exact ⟨sample_source_idle, h⟩

/-- C9, the code at the failing input: on the synthetic 200-packet source
`demux_get_next_pts` returns `MP_NOPTS_VALUE` before the first read, where the
first packet read has pts 0, and it returns `MP_NOPTS_VALUE` again after 50
packets have been read, where the next packet of the source has pts 1: the
function only looks at the queue and never runs the fill loop. -/
theorem demux_get_next_pts_does_not_fill :
    demux_get_next_pts sample_source_demuxer (some 0) = some MP_NOPTS_VALUE ∧
    MP_NOPTS_VALUE ≠ 0 ∧ MP_NOPTS_VALUE ≠ 1 ∧
    (∃ d1, demux_read_packet sample_limits list_desc 2 sample_source_demuxer (some 0)
        = some (some (set_stream (sample_packet 0) 0), d1) ∧
      (set_stream (sample_packet 0) 0).pts = 0) ∧
    (∃ d50, demux_read_packets sample_limits list_desc 2 0 50 sample_source_demuxer
        = some ((sample_packets 50).map (fun p => some (set_stream p 0)), d50) ∧
      d50.priv = (sample_packets 200).drop 50 ∧
      ((sample_packets 200).drop 50).head? = some (sample_packet 50) ∧
      (sample_packet 50).pts = 1 ∧
      demux_get_next_pts d50 (some 0) = some MP_NOPTS_VALUE) := by
  refine ⟨rfl, by decide, by decide, ?_, ?_⟩
  · obtain ⟨d1, h1, _⟩ := read_packet_step_some sample_limits 2 sample_source_demuxer 0
      (sample_packet 0) ((sample_packets 200).drop 1) sample_source_idle
      (sample_packets_split 1 200 (by decide)) (by decide) (by decide)
    exact ⟨d1, h1, by simp [set_stream, sample_packet]⟩
  · obtain ⟨d50, h1, h2, h3⟩ := read_packets_initial sample_limits 2 0 (by decide) (by decide)
      (sample_packets 50) sample_source_demuxer ((sample_packets 200).drop 50)
      sample_source_idle (sample_packets_split 50 200 (by decide))
    rw [sample_packets_length] at h1
    exact ⟨d50, h1, h3, sample_packets_drop_head 50 200 (by decide),
      by norm_num [sample_packet], get_next_pts_idle d50 0 h2⟩

/-! ## Packet duplication -/

theorem demux_copy_packet_raw (c : demux_h) (ffmpeg : Bool)
    (av_copy_packet : memory → AVPacket → Option (AVPacket × memory))
    (mem : memory) (dp : demux_packet) (f : Nat → Nat) (s : Nat) (src : List Nat)
    (hav : dp.avpacket = none) (hlen : dp.len ≤ 1000000000)
    (hbuf : dp.buffer = some s) (hsrc : mem[s]? = some src) :
    demux_copy_packet c ffmpeg av_copy_packet mem dp (some f)
      = some
          ({ len := dp.len
             pts := dp.pts
             duration := dp.duration
             stream_pts := dp.stream_pts
             pos := -1
             buffer := some mem.length
             stream := -1
             allocation := some mem.length
             avpacket := none },
           mem ++ [memcpy
             (memset_zero ((List.range (dp.len + c.MP_INPUT_BUFFER_PADDING_SIZE)).map f)
               dp.len c.MP_INPUT_BUFFER_PADDING_SIZE)
             src dp.len]) := by
  have hs : s < mem.length := by
    rcases Nat.lt_or_ge s mem.length with h | h
    · exact h
    · rw [List.getElem?_eq_none h] at hsrc; cases hsrc
  have hne : s ≠ mem.length := Nat.ne_of_lt hs
  have hnew : new_demux_packet c mem dp.len (some f)
      = some
          ({ len := dp.len
             pts := MP_NOPTS_VALUE
             duration := -1
             stream_pts := MP_NOPTS_VALUE
             pos := -1
             buffer := some mem.length
             stream := -1
             allocation := some mem.length
             avpacket := none },
           mem ++ [memset_zero ((List.range (dp.len + c.MP_INPUT_BUFFER_PADDING_SIZE)).map f)
             dp.len c.MP_INPUT_BUFFER_PADDING_SIZE]) := by
    simp [new_demux_packet, create_packet, malloc, Nat.not_lt.mpr hlen]
  have hsrc1 : (mem ++ [memset_zero
      ((List.range (dp.len + c.MP_INPUT_BUFFER_PADDING_SIZE)).map f)
      dp.len c.MP_INPUT_BUFFER_PADDING_SIZE])[s]? = some src := by
    rw [List.getElem?_append_left hs, hsrc]
  cases ffmpeg <;>
    simp [demux_copy_packet, hav, hnew, hbuf, hsrc1]

/-- C10: for a packet `dp` without decoder side object, of a length the packet
constructors allow and with a buffer that holds its `len` bytes,
`demux_copy_packet(dp)` returns a new packet with the same `len`, `pts`,
`duration` and `stream_pts`, whose first `len` buffer bytes equal those of
`dp`; the bytes of `dp` are untouched; and the copy's buffer is another
buffer than `dp`'s, so that storing any byte into `dp`'s buffer afterwards
leaves the bytes of the copy as they are. -/
theorem demux_copy_packet_spec (c : demux_h) (ffmpeg : Bool)
    (av_copy_packet : memory → AVPacket → Option (AVPacket × memory))
    (mem : memory) (dp : demux_packet) (f : Nat → Nat) (s : Nat) (src : List Nat)
    (hav : dp.avpacket = none) (hlen : dp.len ≤ 1000000000)
    (hbuf : dp.buffer = some s) (hsrc : mem[s]? = some src) (hfit : dp.len ≤ src.length) :
    ∃ new mem', demux_copy_packet c ffmpeg av_copy_packet mem dp (some f) = some (new, mem') ∧
      new.len = dp.len ∧ new.pts = dp.pts ∧ new.duration = dp.duration ∧
      new.stream_pts = dp.stream_pts ∧
      new.buffer ≠ dp.buffer ∧
      peek_bytes mem dp.buffer dp.len = some (src.take dp.len) ∧
      peek_bytes mem' dp.buffer dp.len = some (src.take dp.len) ∧
      peek_bytes mem' new.buffer new.len = some (src.take dp.len) ∧
      (∀ off v, peek_bytes (poke mem' s off v) new.buffer new.len
        = some (src.take dp.len)) := by
  have hs : s < mem.length := by
    rcases Nat.lt_or_ge s mem.length with h | h
    · exact h
    · rw [List.getElem?_eq_none h] at hsrc; cases hsrc
  have hne : mem.length ≠ s := Nat.ne_of_gt hs
  refine ⟨_, _, demux_copy_packet_raw c ffmpeg av_copy_packet mem dp f s src hav hlen hbuf hsrc,
    rfl, rfl, rfl, rfl, ?_, ?_, ?_, ?_, ?_⟩
  · rw [hbuf]; simpa using hne
  · simp [peek_bytes, hbuf, hsrc]
  · simp [peek_bytes, hbuf, List.getElem?_append_left hs, hsrc]
  · simp [peek_bytes, memcpy, List.take_append_eq_append_take, List.length_take,
      Nat.min_eq_left hfit]
  · intro off v
    have hsrc1 : ∀ x : List Nat, (mem ++ [x])[s]? = some src := by
      intro x; rw [List.getElem?_append_left hs, hsrc]
    simp [peek_bytes, poke, hsrc1, List.getElem?_set, hne.symm, memcpy,
      List.take_append_eq_append_take, List.length_take, Nat.min_eq_left hfit]

/-- Witness of C10: the copy of the 4-byte packet of `sample_memory` has the
same four bytes and timing, and keeps them when the original's buffer is
overwritten. -/
theorem demux_copy_packet_spec_witness :
    sample_data_packet.avpacket = none ∧ sample_data_packet.len ≤ 1000000000 ∧
    sample_data_packet.buffer = some 0 ∧
    ∃ new mem', demux_copy_packet sample_limits true (fun _ _ => none) sample_memory
        sample_data_packet (some (fun _ => 255)) = some (new, mem') ∧
      new.len = 4 ∧ new.pts = sample_data_packet.pts ∧
      new.duration = sample_data_packet.duration ∧
      peek_bytes mem' new.buffer new.len = some [10, 20, 30, 40] ∧
      (∀ off v, peek_bytes (poke mem' 0 off v) new.buffer new.len
        = some [10, 20, 30, 40]) := by
  obtain ⟨new, mem', h1, h2, h3, h4, _, _, _, _, h9, h10⟩ :=
    demux_copy_packet_spec sample_limits true (fun _ _ => none) sample_memory
      sample_data_packet (fun _ => 255) 0 [10, 20, 30, 40, 0, 0, 0, 0, 0, 0, 0, 0]
      rfl (by decide) rfl rfl (by decide)
  exact ⟨rfl, by decide, rfl, new, mem', h1, h2, h3, h4, h9, h10⟩

/-! ## Packet allocation -/

/-- C11: for every `len` up to 1000000000, when the allocation succeeds,
`new_demux_packet(len)` returns a packet with that `len`, `pts` and
`stream_pts` `MP_NOPTS_VALUE`, `duration` -1, `pos` -1 and `stream` -1, whose
buffer is a fresh one of `len + MP_INPUT_BUFFER_PADDING_SIZE` bytes with the
padding bytes after the first `len` all zero; for every larger `len` it
aborts, whatever the allocator would do. -/
theorem new_demux_packet_spec (c : demux_h) (mem : memory) (len : Nat) :
    (len ≤ 1000000000 → ∀ f : Nat → Nat,
      ∃ dp mem' a buf, new_demux_packet c mem len (some f) = some (dp, mem') ∧
        dp.len = len ∧ dp.pts = MP_NOPTS_VALUE ∧ dp.duration = -1 ∧
        dp.stream_pts = MP_NOPTS_VALUE ∧ dp.pos = -1 ∧ dp.stream = -1 ∧
        dp.avpacket = none ∧
        dp.buffer = some a ∧ dp.allocation = some a ∧ a = mem.length ∧
        mem'[a]? = some buf ∧
        buf.length = len + c.MP_INPUT_BUFFER_PADDING_SIZE ∧
        buf.take len = (List.range len).map f ∧
        buf.drop len = List.replicate c.MP_INPUT_BUFFER_PADDING_SIZE 0 ∧
        (∀ b, b < mem.length → mem'[b]? = mem[b]?)) ∧
    (1000000000 < len → ∀ fill, new_demux_packet c mem len fill = none) := by
  refine ⟨?_, ?_⟩
  · intro hlen f
    refine ⟨{ len := len
              pts := MP_NOPTS_VALUE
              duration := -1
              stream_pts := MP_NOPTS_VALUE
              pos := -1
              buffer := some mem.length
              stream := -1
              allocation := some mem.length
              avpacket := none },
      mem ++ [memset_zero ((List.range (len + c.MP_INPUT_BUFFER_PADDING_SIZE)).map f) len
        c.MP_INPUT_BUFFER_PADDING_SIZE],
      mem.length,
      memset_zero ((List.range (len + c.MP_INPUT_BUFFER_PADDING_SIZE)).map f) len
        c.MP_INPUT_BUFFER_PADDING_SIZE, ?_, rfl, rfl, rfl, rfl, rfl, rfl, rfl, rfl, rfl, rfl,
      ?_, ?_, ?_, ?_, ?_⟩
    · simp [new_demux_packet, create_packet, malloc, Nat.not_lt.mpr hlen]
    · simp
    · simp [memset_zero]
    · simp [memset_zero, List.take_append_eq_append_take, ← List.map_take, List.take_range]
    · simp [memset_zero, List.drop_append_eq_append_drop, List.drop_take]
    · intro b hb
      simp [List.getElem?_append_left hb]
  · intro hlen fill
    simp [new_demux_packet, create_packet, hlen]

/-- Witness of C11: a 4-byte packet allocated on `sample_memory`. -/
theorem new_demux_packet_spec_witness :
    ∃ dp mem', new_demux_packet sample_limits sample_memory 4 (some (fun _ => 255))
        = some (dp, mem') ∧ dp.len = 4 ∧ dp.buffer = some 1 ∧
      mem'[1]? = some [255, 255, 255, 255, 0, 0, 0, 0, 0, 0, 0, 0] ∧
      new_demux_packet sample_limits sample_memory 1000000001 (some (fun _ => 255)) = none := by
  obtain ⟨h1, h2⟩ := new_demux_packet_spec sample_limits sample_memory 4
  obtain ⟨h3, h4⟩ := new_demux_packet_spec sample_limits sample_memory 1000000001
  obtain ⟨dp, mem', a, buf, g1, g2, _, _, _, _, _, _, g9, _, g11, g12, g13, g14, g15, _⟩ :=
    h1 (by decide) (fun _ => 255)
  refine ⟨dp, mem', g1, g2, by rw [g9, g11]; rfl, ?_, h4 (by decide) _⟩
  have ha : a = 1 := g11
  subst ha
  rw [g12]
  have hb : buf = buf.take 4 ++ buf.drop 4 := (List.take_append_drop 4 buf).symm
  rw [hb, g14, g15]
  rfl

/-! ## Track creation and selection -/

theorem foldl_count_type (type : stream_type) (l : List sh_stream) :
    ∀ acc : Int, l.foldl (fun id s => if s.type = type then id + 1 else id) acc
      = acc + (l.countP (fun s => decide (s.type = type)) : Nat) := by
  induction l with
  | nil => intro acc; simp
  | cons a l ih =>
    intro acc
    rw [List.foldl_cons, ih]
    by_cases h : a.type = type
    · simp [h, List.countP_cons_of_pos]; ring
    · simp [h]

/-- C12: `new_sh_stream(demuxer, type)` returns `NULL` exactly when the number
of tracks is greater than `MAX_SH_STREAMS`, and then leaves the demuxer as it
was (it only writes a warning). Otherwise it returns a new track appended as
the last element of the track list, with `index` the previous `num_streams`,
`demuxer_id` the number of existing tracks of the same type, `selected` equal
to `stream_autoselect` and a fresh empty queue; the existing tracks and the
other fields of the demuxer are as before. -/
theorem new_sh_stream_spec {P : Type} (c : demux_h) (d : demuxer P) (type : stream_type) :
    ((new_sh_stream c d type).1 = none ↔ (d.streams.length : Int) > c.MAX_SH_STREAMS) ∧
    ((new_sh_stream c d type).1 = none →
      (new_sh_stream c d type).2
        = { d with msgs := d.msgs ++ [msg_line.too_many_streams] }) ∧
    ((new_sh_stream c d type).1 ≠ none →
      (new_sh_stream c d type).1 = some d.streams.length ∧
      (new_sh_stream c d type).2
        = { d with
            streams := d.streams ++
              [{ type := type
                 index := d.streams.length
                 demuxer_id := (d.streams.countP (fun s => decide (s.type = type)) : Nat)
                 selected := d.stream_autoselect
                 pq := packet_queue_create }] }) := by
  by_cases h : (d.streams.length : Int) > c.MAX_SH_STREAMS
  · simp [new_sh_stream, h]
  · simp [new_sh_stream, h, foldl_count_type]

/-- Witness of C12: a third track, the second audio track, added to a
demuxer with an audio and a video track. -/
theorem new_sh_stream_spec_witness :
    (new_sh_stream sample_limits sample_two_track_demuxer stream_type.STREAM_AUDIO).1
      = some 2 ∧
    (new_sh_stream sample_limits sample_two_track_demuxer stream_type.STREAM_AUDIO).2.streams
      = sample_two_track_demuxer.streams ++
          [{ type := stream_type.STREAM_AUDIO, index := 2, demuxer_id := 1, selected := true,
             pq := packet_queue_create }] ∧
    (new_sh_stream { sample_limits with MAX_SH_STREAMS := 1 } sample_two_track_demuxer
      stream_type.STREAM_AUDIO).2
      = { sample_two_track_demuxer with msgs := [msg_line.too_many_streams] } :=
  have h := new_sh_stream_spec sample_limits sample_two_track_demuxer stream_type.STREAM_AUDIO
  have g := new_sh_stream_spec { sample_limits with MAX_SH_STREAMS := 1 }
    sample_two_track_demuxer stream_type.STREAM_AUDIO
  ⟨(h.2.2 (by decide)).1, by rw [(h.2.2 (by decide)).2]; rfl,
   g.2.1 (g.1.mpr (by decide))⟩

theorem modify_append_cons {α : Type} (f : α → α) (a : α) (rest : List α) :
    ∀ pre : List α, (pre ++ a :: rest).modify f pre.length = pre ++ f a :: rest := by
  intro pre
  induction pre with
  | nil => simp
  | cons b pre ih => simp [ih]

theorem getElem?_append_cons {α : Type} (a : α) (rest : List α) (pre : List α) :
    (pre ++ a :: rest)[pre.length]? = some a := by
  induction pre with
  | nil => simp
  | cons b pre ih => simpa using ih

theorem demux_control_streams {P : Type} (c : demux_h) (desc : demuxer_desc P)
    (d : demuxer P) (cmd : demuxer_ctrl) (arg : ctrl_arg) (hctl : control_keeps_streams desc) :
    (demux_control c desc d cmd arg).2.2.streams = d.streams ∧
    (demux_control c desc d cmd arg).2.2.calls
      = d.calls ++ (if desc.control.isSome then [ext_call.desc_control cmd] else []) := by
  unfold demux_control
  cases hf : desc.control with
  | none => simp
  | some f => simp [hctl f hf d cmd arg]

theorem demuxer_select_track_same {P : Type} (c : demux_h) (desc : demuxer_desc P)
    (d : demuxer P) (i : Nat) (sh : sh_stream) (s : Bool) (h : d.streams[i]? = some sh)
    (hs : sh.selected = s) : demuxer_select_track c desc d i s = some d := by
  simp [demuxer_select_track, h, hs]

theorem demuxer_select_track_at {P : Type} (c : demux_h) (desc : demuxer_desc P)
    (d : demuxer P) (pre rest : List sh_stream) (sh : sh_stream) (s : Bool)
    (h : d.streams = pre ++ sh :: rest) (hctl : control_keeps_streams desc) :
    ∃ d', demuxer_select_track c desc d pre.length s = some d' ∧
      d'.streams = pre ++
        (if sh.selected ≠ s then { sh with selected := s, pq := packet_queue_flush sh.pq }
         else sh) :: rest ∧
      d'.calls = d.calls ++
        (if sh.selected ≠ s ∧ desc.control.isSome = true then
          [ext_call.desc_control demuxer_ctrl.DEMUXER_CTRL_SWITCHED_TRACKS] else []) := by
  have hi : d.streams[pre.length]? = some sh := by rw [h]; exact getElem?_append_cons sh rest pre
  by_cases hs : sh.selected = s
  · exact ⟨d, demuxer_select_track_same c desc d _ sh s hi hs, by simp [hs, h], by simp [hs]⟩
  · obtain ⟨g1, g2⟩ := demux_control_streams c desc
      (set_pq (set_selected d pre.length s) pre.length (packet_queue_flush sh.pq))
      demuxer_ctrl.DEMUXER_CTRL_SWITCHED_TRACKS ctrl_arg.null hctl
    refine ⟨(demux_control c desc
        (set_pq (set_selected d pre.length s) pre.length (packet_queue_flush sh.pq))
        demuxer_ctrl.DEMUXER_CTRL_SWITCHED_TRACKS ctrl_arg.null).2.2,
      by simp only [demuxer_select_track, hi, ne_eq, hs, not_false_eq_true, if_true],
      ?_, ?_⟩
    · rw [g1]
      simp [set_pq, set_selected, h, modify_append_cons, hs]
    · rw [g2]
      simp [set_pq, set_selected, hs]

theorem demuxer_switch_track_loop_spec {P : Type} (c : demux_h) (desc : demuxer_desc P)
    (type : stream_type) (target : Option Nat) (hctl : control_keeps_streams desc) :
    ∀ (suf pre : List sh_stream) (d : demuxer P) (fuel : Nat),
      d.streams = pre ++ suf → suf.length < fuel →
      ∃ d', demuxer_switch_track_loop c desc type target fuel pre.length d = some d' ∧
        d'.streams = pre ++
          (List.enumFrom pre.length suf).map (fun e => switched_track type target e.1 e.2) ∧
        d'.calls = d.calls ++
          (if desc.control.isSome = true then
            List.replicate
              ((List.enumFrom pre.length suf).countP
                (fun e => switch_changes type target e.1 e.2))
              (ext_call.desc_control demuxer_ctrl.DEMUXER_CTRL_SWITCHED_TRACKS)
           else []) := by
  intro suf
  induction suf with
  | nil =>
    intro pre d fuel h hf
    obtain ⟨f, rfl⟩ : ∃ f, fuel = f + 1 := ⟨fuel - 1, by simp at hf; omega⟩
    have hi : d.streams[pre.length]? = none := by
      rw [h]; simp
    exact ⟨d, by simp [demuxer_switch_track_loop, hi], by simpa using h, by simp⟩
  | cons sh rest ih =>
    intro pre d fuel h hf
    obtain ⟨f, rfl⟩ : ∃ f, fuel = f + 1 := ⟨fuel - 1, by simp at hf; omega⟩
    have hf' : rest.length < f := by simp at hf; omega
    have hi : d.streams[pre.length]? = some sh := by
      rw [h]; exact getElem?_append_cons sh rest pre
    by_cases ht : sh.type = type
    · obtain ⟨d1, g1, g2, g3⟩ := demuxer_select_track_at c desc d pre rest sh
        (decide (some pre.length = target)) h hctl
      have h1 : d1.streams = (pre ++ [switched_track type target pre.length sh]) ++ rest := by
        rw [g2]; simp [switched_track, ht]
      obtain ⟨d2, k1, k2, k3⟩ := ih (pre ++ [switched_track type target pre.length sh]) d1 f
        h1 hf'
      rw [List.length_append, List.length_singleton] at k1 k2 k3
      refine ⟨d2, ?_, ?_, ?_⟩
      · rw [demuxer_switch_track_loop]
        simp only [hi, ht, if_true, g1, k1]
      · rw [k2]; simp [List.enumFrom_cons]
      · rw [k3, g3]
        cases hc : desc.control.isSome with
        | false => simp
        | true =>
          by_cases hch : sh.selected = decide (some pre.length = target)
          · simp [List.enumFrom_cons, List.countP_cons, switch_changes, ht, hch]
          · simp [List.enumFrom_cons, List.countP_cons, switch_changes, ht, hch,
              List.replicate_succ]
    · obtain ⟨d2, k1, k2, k3⟩ := ih (pre ++ [sh]) d f (by rw [h]; simp) hf'
      rw [List.length_append, List.length_singleton] at k1 k2 k3
      refine ⟨d2, ?_, ?_, ?_⟩
      · rw [demuxer_switch_track_loop]
        simp only [hi, ht, if_false, k1]
      · rw [k2]; simp [List.enumFrom_cons, switched_track, ht]
      · rw [k3]
        simp [List.enumFrom_cons, List.countP_cons, switch_changes, ht]

theorem split_at_getElem? {α : Type} (l : List α) :
    ∀ (i : Nat) (a : α), l[i]? = some a → ∃ pre rest, l = pre ++ a :: rest ∧ pre.length = i := by
  induction l with
  | nil => intro i a h; simp at h
  | cons b l ih =>
    intro i a h
    cases i with
    | zero =>
      simp at h
      exact ⟨[], l, by simp [h], rfl⟩
    | succ i =>
      simp at h
      obtain ⟨pre, rest, h1, h2⟩ := ih i a h
      exact ⟨b :: pre, rest, by simp [h1], by simp [h2]⟩

theorem sample_control_keeps_streams : control_keeps_streams sample_control_desc := by
  intro f hf d cmd arg
  simp only [sample_control_desc, Option.some.injEq] at hf
  subst hf
  rfl

/-- C13: `demuxer_select_track(d, track, s)` called when `track->selected`
already equals `s` returns with the demuxer exactly as it was: the flag, the
track's queue with its EOF flag and the record of plugin calls are unchanged.
Hence, with a plugin whose `control` leaves the tracks alone, of two calls
`select(track, true)` in a row only the first can flush the queue, and the
packets queued between the two calls are in the queue, in order, after the
second. -/
theorem demuxer_select_track_idempotent {P : Type} (c : demux_h) (desc : demuxer_desc P)
    (d : demuxer P) (i : Nat) (sh : sh_stream) (h : d.streams[i]? = some sh) :
    demuxer_select_track c desc d i sh.selected = some d ∧
    (control_keeps_streams desc → ∀ ps : List demux_packet,
      ∃ d1 sh1 d2 sh2, demuxer_select_track c desc d i true = some d1 ∧
        d1.streams[i]? = some sh1 ∧ sh1.selected = true ∧
        (sh.selected = true → d1 = d) ∧
        (sh.selected = false → sh1.pq = packet_queue_flush sh.pq) ∧
        demuxer_add_packets d1 i ps = some (List.replicate ps.length 1, d2) ∧
        d2.streams[i]? = some sh2 ∧
        sh2.pq = packet_queue_add_all sh1.pq (ps.map (fun p => set_stream p sh1.index)) ∧
        (pq_linked sh1.pq →
          sh2.pq.head = sh1.pq.head ++ ps.map (fun p => set_stream p sh1.index)) ∧
        demuxer_select_track c desc d2 i true = some d2) := by
  refine ⟨demuxer_select_track_same c desc d i sh sh.selected h rfl, ?_⟩
  intro hctl ps
  obtain ⟨pre, rest, hsplit, hlen⟩ := split_at_getElem? d.streams i sh h
  subst hlen
  obtain ⟨d1, g1, g2, _⟩ := demuxer_select_track_at c desc d pre rest sh true hsplit hctl
  have hsh1 : d1.streams[pre.length]? = some
      (if sh.selected ≠ true then
        { sh with selected := true, pq := packet_queue_flush sh.pq } else sh) := by
    rw [g2]; exact getElem?_append_cons _ rest pre
  have hsel1 : (if sh.selected ≠ true then
        ({ sh with selected := true, pq := packet_queue_flush sh.pq } : sh_stream)
        else sh).selected = true := by
    cases hs : sh.selected <;> simp [hs]
  obtain ⟨d2, k1, k2, _, _⟩ := demuxer_add_packets_track pre.length ps d1 _ hsh1 hsel1
  refine ⟨d1, _, d2, _, g1, hsh1, hsel1, ?_, ?_, k1, k2, rfl, ?_, ?_⟩
  · intro hs
    have := demuxer_select_track_same c desc d pre.length sh true h hs
    rw [g1] at this
    exact Option.some.inj this
  · intro hs; simp [hs]
  · intro hl
    exact (packet_queue_add_all_head _ _ hl).1
  · exact demuxer_select_track_same c desc d2 pre.length _ true k2 hsel1

/-- Witness of C13: on the demuxer whose selected track holds packets 0 and
1, `select(track, true)`, a push of packet 2 and `select(track, true)` again
leave the three packets queued in order. -/
theorem demuxer_select_track_idempotent_witness :
    ∃ d1 d2 sh2, demuxer_select_track sample_limits sample_control_desc
        sample_loaded_demuxer 0 true = some d1 ∧
      demuxer_add_packets d1 0 [sample_packet 2] = some ([1], d2) ∧
      demuxer_select_track sample_limits sample_control_desc d2 0 true = some d2 ∧
      d2.streams[0]? = some sh2 ∧
      sh2.pq.head = [sample_packet 0, sample_packet 1, set_stream (sample_packet 2) 0] := by
  obtain ⟨_, h⟩ := demuxer_select_track_idempotent sample_limits sample_control_desc
    sample_loaded_demuxer 0 _ rfl
  obtain ⟨d1, sh1, d2, sh2, g1, g2, _, g4, _, g6, g7, _, g9, g10⟩ :=
    h sample_control_keeps_streams [sample_packet 2]
  have hd1 : d1 = sample_loaded_demuxer := g4 rfl
  subst hd1
  have hsh1 : sh1 = { sample_track stream_type.STREAM_AUDIO 0 true with
      pq := packet_queue_add_all packet_queue_create (sample_packets 2) } := by
    have : sample_loaded_demuxer.streams[0]? = some
        { sample_track stream_type.STREAM_AUDIO 0 true with
          pq := packet_queue_add_all packet_queue_create (sample_packets 2) } := rfl
    rw [g2] at this
    exact Option.some.inj this
  subst hsh1
  exact ⟨_, d2, sh2, g1, g6, g10, g7, g9 rfl⟩

/-- C15: `demux_seek` on a demuxer with `seekable == false` returns 0 and
changes nothing but the log, to which it adds its warning: no track queue is
flushed, `warned_queue_overflow`, `stream_pts` and the stream are as before,
and no call is made into the stream layer or into the plugin's `seek` or
`control`. -/
theorem demux_seek_not_seekable {P : Type} (c : demux_h) (sl : stream_layer)
    (desc : demuxer_desc P) (d : demuxer P) (rel_seek_secs : Rat) (flags : Nat)
    (h : d.seekable = false) :
    demux_seek c sl desc d rel_seek_secs flags
      = (0, { d with msgs := d.msgs ++ [msg_line.cannot_seek] }) ∧
    (demux_seek c sl desc d rel_seek_secs flags).2.streams = d.streams ∧
    (demux_seek c sl desc d rel_seek_secs flags).2.warned_queue_overflow
      = d.warned_queue_overflow ∧
    (demux_seek c sl desc d rel_seek_secs flags).2.stream_pts = d.stream_pts ∧
    (demux_seek c sl desc d rel_seek_secs flags).2.stream = d.stream ∧
    (demux_seek c sl desc d rel_seek_secs flags).2.priv = d.priv ∧
    (demux_seek c sl desc d rel_seek_secs flags).2.calls = d.calls := by
  have : demux_seek c sl desc d rel_seek_secs flags
      = (0, { d with msgs := d.msgs ++ [msg_line.cannot_seek] }) := by
    simp [demux_seek, h]
  rw [this]
  exact ⟨rfl, rfl, rfl, rfl, rfl, rfl, rfl⟩

/-- Witness of C15: a seek on the demuxer that is not seekable and whose
track holds two packets. -/
theorem demux_seek_not_seekable_witness :
    sample_loaded_demuxer.seekable = false ∧
    (demux_seek sample_limits sample_stream_layer sample_control_desc
      sample_loaded_demuxer 10 0).1 = 0 ∧
    (demux_seek sample_limits sample_stream_layer sample_control_desc
      sample_loaded_demuxer 10 0).2.streams = sample_loaded_demuxer.streams ∧
    (demux_seek sample_limits sample_stream_layer sample_control_desc
      sample_loaded_demuxer 10 0).2.calls = [] :=
  have h := demux_seek_not_seekable sample_limits sample_stream_layer sample_control_desc
    sample_loaded_demuxer 10 0 rfl
  ⟨rfl, by rw [h.1], h.2.1, h.2.2.2.2.2.2⟩

/-! ## `double` arithmetic -/

theorem round_half_even_floor_le (y : Rat) : Int.floor y ≤ round_half_even y := by
  unfold round_half_even
  simp only
  split
  · exact le_refl _
  · split
    · omega
    · split <;> omega

theorem round_half_even_le_floor_succ (y : Rat) : round_half_even y ≤ Int.floor y + 1 := by
  unfold round_half_even
  simp only
  split
  · omega
  · split
    · omega
    · split <;> omega

theorem round_half_even_intCast (m : Int) : round_half_even (m : Rat) = m := by
  simp [round_half_even]

theorem round_half_even_mono (y z : Rat) (h : y ≤ z) :
    round_half_even y ≤ round_half_even z := by
  have hfl : Int.floor y ≤ Int.floor z := Int.floor_mono h
  by_cases hf : Int.floor y = Int.floor z
  swap
  · have hlt : Int.floor y + 1 ≤ Int.floor z := by omega
    exact le_trans (round_half_even_le_floor_succ y)
      (le_trans hlt (round_half_even_floor_le z))
  · unfold round_half_even
    simp only [hf]
    by_cases h1 : y - (Int.floor z : Rat) < 1 / 2
    · rw [if_pos h1]
      split
      · exact le_refl _
      · split
        · omega
        · split <;> omega
    · rw [if_neg h1]
      have h1z : ¬ (z - (Int.floor z : Rat) < 1 / 2) := by
        intro hz; apply h1; linarith
      rw [if_neg h1z]
      by_cases h2 : 1 / 2 < y - (Int.floor z : Rat)
      · have h2z : 1 / 2 < z - (Int.floor z : Rat) := by linarith
        rw [if_pos h2, if_pos h2z]
      · rw [if_neg h2]
        by_cases h2z : 1 / 2 < z - (Int.floor z : Rat)
        · rw [if_pos h2z]
          split <;> omega
        · rw [if_neg h2z]

theorem round_half_even_of_near (y : Rat) (m : Int) (h : |y - m| < 1 / 2) :
    round_half_even y = m := by
  rw [abs_lt] at h
  obtain ⟨h1, h2⟩ := h
  unfold round_half_even
  have hf : Int.floor y = m ∨ Int.floor y = m - 1 := by
    have a : Int.floor y ≤ m := by
      have : y < ((m + 1 : Int) : Rat) := by push_cast; linarith
      have := Int.floor_lt.mpr this
      omega
    have b : m - 1 ≤ Int.floor y := by
      apply Int.le_floor.mpr
      push_cast; linarith
    omega
  rcases hf with hf | hf
  · have hy : (m : Rat) ≤ y := by rw [← hf]; exact Int.floor_le y
    simp only [hf]
    rw [if_pos (by linarith)]
  · have hy : y < (m : Rat) := by
      have := Int.lt_floor_add_one y
      rw [hf] at this; push_cast at this; linarith
    simp only [hf]
    have e1 : ¬ (y - ((m - 1 : Int) : Rat) < 1 / 2) := by push_cast; linarith
    have e2 : 1 / 2 < y - ((m - 1 : Int) : Rat) := by push_cast; linarith
    rw [if_neg e1, if_pos e2]
    omega

theorem int_log_two_eq (x : Rat) (e : Int) (h1 : (2 : Rat) ^ e ≤ x)
    (h2 : x < (2 : Rat) ^ (e + 1)) : Int.log 2 x = e := by
  have h0 : 0 < x := lt_of_lt_of_le (zpow_pos (by norm_num) e) h1
  have hb : 1 < 2 := by norm_num
  have a : e ≤ Int.log 2 x :=
    (Int.zpow_le_iff_le_log hb h0).mp (by exact_mod_cast h1)
  have b : Int.log 2 x < e + 1 :=
    (Int.lt_zpow_iff_log_lt hb h0).mp (by exact_mod_cast h2)
  omega

/-- The value of `round_double` at a positive `x` of exponent `e` that is
nearer to `m * 2^(e - 52)` than to any other multiple of `2^(e - 52)`. -/
theorem round_double_eval (x : Rat) (e m : Int) (h1 : (2 : Rat) ^ e ≤ x)
    (h2 : x < (2 : Rat) ^ (e + 1)) (he : -1022 ≤ e)
    (hm : |x / 2 ^ (e - 52) - m| < 1 / 2) :
    round_double x = m * 2 ^ (e - 52) := by
  have hpos : 0 < x := lt_of_lt_of_le (zpow_pos (by norm_num) e) h1
  unfold round_double
  rw [if_neg (ne_of_gt hpos), abs_of_pos hpos, int_log_two_eq x e h1 h2, max_eq_left he]
  simp only
  rw [round_half_even_of_near _ m hm]

theorem round_double_zero : round_double 0 = 0 := by
  simp [round_double]

/-- An integer below `2^53` is a `double`. -/
theorem round_double_natCast (n : Nat) (h : n < 9007199254740992) :
    round_double (n : Rat) = n := by
  rcases Nat.eq_zero_or_pos n with h0 | h0
  · subst h0; simp [round_double]
  have hne : n ≠ 0 := Nat.pos_iff_ne_zero.mp h0
  have hlog : Nat.log 2 n < 53 := Nat.log_lt_of_lt_pow hne (by norm_num; exact h)
  have h1 : (2 : Rat) ^ ((Nat.log 2 n : Nat) : Int) ≤ (n : Rat) := by
    rw [zpow_natCast]
    exact_mod_cast Nat.pow_log_le_self 2 hne
  have h2 : (n : Rat) < (2 : Rat) ^ (((Nat.log 2 n : Nat) : Int) + 1) := by
    have : (((Nat.log 2 n : Nat) : Int) + 1) = ((Nat.log 2 n + 1 : Nat) : Int) := by
      push_cast; rfl
    rw [this, zpow_natCast]
    exact_mod_cast Nat.lt_pow_succ_log_self (by norm_num) n
  have hk : (((Nat.log 2 n : Nat) : Int) - 52) = -((52 - Nat.log 2 n : Nat) : Int) := by omega
  have hq : (n : Rat) / 2 ^ (((Nat.log 2 n : Nat) : Int) - 52)
      = ((n * 2 ^ (52 - Nat.log 2 n) : Nat) : Int) := by
    rw [hk, zpow_neg, zpow_natCast]
    push_cast
    field_simp
  rw [round_double_eval (n : Rat) (Nat.log 2 n) ((n * 2 ^ (52 - Nat.log 2 n) : Nat) : Int) h1 h2
    (by omega) (by rw [hq]; simp)]
  rw [hk, zpow_neg, zpow_natCast]
  push_cast
  field_simp

theorem round_double_nonneg (x : Rat) (h : 0 ≤ x) : 0 ≤ round_double x := by
  unfold round_double
  split
  · exact le_refl _
  · simp only
    apply mul_nonneg
    · have hq : 0 ≤ x / 2 ^ (max (Int.log 2 |x|) (-1022) - 52) :=
        div_nonneg h (le_of_lt (zpow_pos (by norm_num) _))
      have : (0 : Int) ≤ round_half_even (x / 2 ^ (max (Int.log 2 |x|) (-1022) - 52)) :=
        le_trans (Int.floor_nonneg.mpr hq) (round_half_even_floor_le _)
      exact_mod_cast this
    · exact le_of_lt (zpow_pos (by norm_num) _)

/-- Rounding to `double` keeps the order of non-negative numbers. -/
theorem round_double_mono (x y : Rat) (h0 : 0 ≤ x) (h : x ≤ y) :
    round_double x ≤ round_double y := by
  rcases eq_or_lt_of_le h0 with hx | hx
  · rw [← hx, round_double_zero]
    exact round_double_nonneg y (le_trans h0 h)
  have hy : 0 < y := lt_of_lt_of_le hx h
  have hb : 1 < 2 := by norm_num
  have hlog : Int.log 2 x ≤ Int.log 2 y := Int.log_mono_right hx h
  have two_pos : ∀ k : Int, (0 : Rat) < 2 ^ k := fun k => zpow_pos (by norm_num) k
  unfold round_double
  rw [if_neg (ne_of_gt hx), if_neg (ne_of_gt hy), abs_of_pos hx, abs_of_pos hy]
  simp only
  rcases lt_or_eq_of_le (max_le_max hlog (le_refl (-1022 : Int))) with he | he
  · -- different exponents
    have hey : max (Int.log 2 y) (-1022) = Int.log 2 y := by
      apply max_eq_left
      have : (-1022 : Int) ≤ max (Int.log 2 x) (-1022) := le_max_right _ _
      omega
    have hxe : Int.log 2 x ≤ max (Int.log 2 x) (-1022) := le_max_left _ _
    set ex := max (Int.log 2 x) (-1022) with hex
    rw [hey] at he ⊢
    have hxlt : x < (2 : Rat) ^ (ex + 1) := by
      have h1 : x < ((2 : Nat) : Rat) ^ (Int.log 2 x + 1) := Int.lt_zpow_succ_log_self hb x
      have h2 : ((2 : Nat) : Rat) ^ (Int.log 2 x + 1) ≤ (2 : Rat) ^ (ex + 1) := by
        push_cast
        exact zpow_le_zpow_right₀ (by norm_num) (by omega)
      exact lt_of_lt_of_le h1 h2
    have hyge : (2 : Rat) ^ (Int.log 2 y) ≤ y := by
      have := Int.zpow_log_le_self hb hy
      exact_mod_cast this
    have c53 : (9007199254740992 : Rat) = (2 : Rat) ^ (53 : Int) := by norm_num
    have c52 : (4503599627370496 : Rat) = (2 : Rat) ^ (52 : Int) := by norm_num
    have hA : ((round_half_even (x / 2 ^ (ex - 52)) : Int) : Rat) ≤ 9007199254740992 := by
      have hq : x / 2 ^ (ex - 52) ≤ ((9007199254740992 : Int) : Rat) := by
        rw [div_le_iff₀ (two_pos _)]
        push_cast
        rw [c53, ← zpow_add₀ (by norm_num)]
        have : (53 : Int) + (ex - 52) = ex + 1 := by omega
        rw [this]
        exact le_of_lt hxlt
      have := round_half_even_mono _ _ hq
      rw [round_half_even_intCast] at this
      exact_mod_cast this
    have hB : (4503599627370496 : Rat)
        ≤ ((round_half_even (y / 2 ^ (Int.log 2 y - 52)) : Int) : Rat) := by
      have hq : ((4503599627370496 : Int) : Rat) ≤ y / 2 ^ (Int.log 2 y - 52) := by
        rw [le_div_iff₀ (two_pos _)]
        push_cast
        rw [c52, ← zpow_add₀ (by norm_num)]
        have : (52 : Int) + (Int.log 2 y - 52) = Int.log 2 y := by omega
        rw [this]
        exact hyge
      have := round_half_even_mono _ _ hq
      rw [round_half_even_intCast] at this
      exact_mod_cast this
    calc ((round_half_even (x / 2 ^ (ex - 52)) : Int) : Rat) * 2 ^ (ex - 52)
        ≤ 9007199254740992 * 2 ^ (ex - 52) :=
          mul_le_mul_of_nonneg_right hA (le_of_lt (two_pos _))
      _ = 2 ^ (ex + 1) := by
          rw [c53, ← zpow_add₀ (by norm_num)]
          congr 1
          omega
      _ ≤ 2 ^ (Int.log 2 y) := zpow_le_zpow_right₀ (by norm_num) (by omega)
      _ = 4503599627370496 * 2 ^ (Int.log 2 y - 52) := by
          rw [c52, ← zpow_add₀ (by norm_num)]
          congr 1
          omega
      _ ≤ ((round_half_even (y / 2 ^ (Int.log 2 y - 52)) : Int) : Rat)
            * 2 ^ (Int.log 2 y - 52) :=
          mul_le_mul_of_nonneg_right hB (le_of_lt (two_pos _))
  · rw [← he]
    apply mul_le_mul_of_nonneg_right _ (le_of_lt (two_pos _))
    have hq : x / 2 ^ (max (Int.log 2 x) (-1022) - 52)
        ≤ y / 2 ^ (max (Int.log 2 x) (-1022) - 52) :=
      div_le_div_of_nonneg_right h (le_of_lt (two_pos _))
    exact_mod_cast round_half_even_mono _ _ hq

theorem round_double_tenth :
    round_double (1 / 10) = 3602879701896397 / 36028797018963968 := by
  rw [round_double_eval (1 / 10) (-4) 7205759403792794 (by norm_num) (by norm_num)
    (by norm_num) (by norm_num [abs_lt])]
  norm_num

theorem round_double_25_half : round_double (50000000001 / 2) = 50000000001 / 2 := by
  rw [round_double_eval _ 34 6553600000131072 (by norm_num) (by norm_num) (by norm_num)
    (by norm_num [abs_lt])]
  norm_num

theorem round_double_small_product :
    round_double (7253554917687775 / 4835703278458516698824704 * 1000000000) = 3 / 2 := by
  rw [round_double_eval _ 0 6755399441055744 (by norm_num) (by norm_num) (by norm_num)
    (by norm_num [abs_lt])]
  norm_num

theorem round_double_top :
    round_double 18446744073000000000 = 18446744072999999488 := by
  rw [round_double_eval _ 63 9007199254394531 (by norm_num) (by norm_num) (by norm_num)
    (by norm_num [abs_lt])]
  norm_num

theorem round_double_top_half :
    round_double (18446744072999999488 + 1 / 2) = 18446744072999999488 := by
  rw [round_double_eval _ 63 9007199254394531 (by norm_num) (by norm_num) (by norm_num)
    (by norm_num [abs_lt])]
  norm_num

/-- For a time from 0 to 18446744073 seconds the value of
`time_now * 1e9 + 0.5` is in the range in which the conversion to `uint64_t`
is defined. -/
theorem time_now_defined (time_now : Rat) (h0 : 0 ≤ time_now) (h1 : time_now ≤ 18446744073) :
    uint64_defined (double_add (double_mul time_now 1000000000) (1 / 2)) := by
  have hp0 : 0 ≤ double_mul time_now 1000000000 :=
    round_double_nonneg _ (mul_nonneg h0 (by norm_num))
  have hp1 : double_mul time_now 1000000000 ≤ 18446744072999999488 := by
    have := round_double_mono (time_now * 1000000000) 18446744073000000000
      (mul_nonneg h0 (by norm_num)) (by linarith)
    rw [round_double_top] at this
    exact this
  have hs0 : 0 ≤ double_add (double_mul time_now 1000000000) (1 / 2) :=
    round_double_nonneg _ (by linarith)
  have hs1 : double_add (double_mul time_now 1000000000) (1 / 2) ≤ 18446744072999999488 := by
    have := round_double_mono (double_mul time_now 1000000000 + 1 / 2)
      (18446744072999999488 + 1 / 2) (by linarith) (by linarith)
    rw [round_double_top_half] at this
    exact this
  constructor
  · linarith
  · linarith

theorem double_to_uint64_defined (cc : c_compiler) (x : Rat) (h : uint64_defined x) :
    double_to_uint64 cc x = Int.toNat (Int.floor x) := by
  unfold double_to_uint64
  rw [if_pos h]

/-- The quotient `start / 1e9` of an `uint64_t` below `2^53` is the `double`
nearest to the exact quotient. -/
theorem double_div_start (start : Nat) (h : start < 9007199254740992) :
    double_div (uint64_to_double start) 1000000000
      = round_double ((start : Rat) / 1000000000) := by
  unfold double_div uint64_to_double
  rw [round_double_natCast start h]

/-! ## Chapters -/

/-- C16: on a demuxer with a non-empty chapter table of `count` chapters,
`demuxer_seek_chapter(n)` with `n < 0` returns 0 and sets `seek_pts` to the
start of chapter 0 in seconds; with `0 <= n < count` it returns `n` and sets
`seek_pts` to the start of chapter `n` in seconds; with `n >= count` it
returns -1 and leaves `seek_pts` as it was. In each case the demuxer is
unchanged. The start in seconds is the `double` the code computes, the
quotient `start / 1e9` of `double` arithmetic; for a start below `2^53`
nanoseconds it is the `double` nearest to the exact quotient. -/
theorem demuxer_seek_chapter_spec {P : Type} (c : demux_h) (sl : stream_layer)
    (desc : demuxer_desc P) (d : demuxer P) (n : Int) (seek_pts : Rat)
    (hne : d.chapters ≠ []) :
    (n < 0 → ∃ ch, d.chapters[0]? = some ch ∧
      demuxer_seek_chapter c sl desc d n seek_pts
        = some (0, double_div (uint64_to_double ch.start) 1000000000, d)) ∧
    (0 ≤ n → n < d.chapters.length → ∃ ch, d.chapters[n.toNat]? = some ch ∧
      demuxer_seek_chapter c sl desc d n seek_pts
        = some (n, double_div (uint64_to_double ch.start) 1000000000, d)) ∧
    (n ≥ d.chapters.length →
      demuxer_seek_chapter c sl desc d n seek_pts = some (-1, seek_pts, d)) ∧
    (∀ ch ∈ d.chapters, ch.start < 9007199254740992 →
      double_div (uint64_to_double ch.start) 1000000000
        = round_double ((ch.start : Rat) / 1000000000)) := by
  have hlen : d.chapters.length ≠ 0 := by
    intro h; exact hne (List.length_eq_zero.mp h)
  have hpos : 0 < d.chapters.length := Nat.pos_of_ne_zero hlen
  refine ⟨?_, ?_, ?_, fun ch _ h => double_div_start ch.start h⟩
  · intro hn
    refine ⟨d.chapters[0], List.getElem?_eq_getElem hpos, ?_⟩
    have h1 : ¬ (n ≥ (d.chapters.length : Int)) := by omega
    simp [demuxer_seek_chapter, hlen, arg_int, h1, hn, List.getElem?_eq_getElem hpos]
  · intro h0 hn
    have hi : n.toNat < d.chapters.length := by omega
    refine ⟨d.chapters[n.toNat], List.getElem?_eq_getElem hi, ?_⟩
    have h1 : ¬ (n ≥ (d.chapters.length : Int)) := by omega
    have h2 : ¬ (n < 0) := by omega
    simp [demuxer_seek_chapter, hlen, arg_int, h1, h2, List.getElem?_eq_getElem hi]
  · intro hn
    simp [demuxer_seek_chapter, hlen, arg_int, hn]

theorem seek_pts_of_30 : double_div (uint64_to_double 30000000000) 1000000000 = 30 := by
  rw [double_div_start 30000000000 (by norm_num)]
  have h : ((30000000000 : Nat) : Rat) / 1000000000 = ((30 : Nat) : Rat) := by norm_num
  rw [h, round_double_natCast 30 (by norm_num)]
  norm_num

theorem seek_pts_of_0 : double_div (uint64_to_double 0) 1000000000 = 0 := by
  rw [double_div_start 0 (by norm_num)]
  have h : ((0 : Nat) : Rat) / 1000000000 = 0 := by norm_num
  rw [h, round_double_zero]

theorem seek_pts_of_tenth :
    double_div (uint64_to_double 100000000) 1000000000
      = 3602879701896397 / 36028797018963968 := by
  rw [double_div_start 100000000 (by norm_num)]
  have h : ((100000000 : Nat) : Rat) / 1000000000 = 1 / 10 := by norm_num
  rw [h, round_double_tenth]

/-- Witness of C16: on the five-chapter table `seek_chapter(-1)` gives
chapter 0 with its start time 0, `seek_chapter(3)` chapter 3 with its start
time of 30 seconds, and `seek_chapter(10)` gives -1 and keeps `seek_pts`. On the
table whose chapter 2 starts at 100000000 nanoseconds, `seek_chapter(2)` sets
`seek_pts` to the `double` nearest to a tenth, which is not a tenth. -/
theorem demuxer_seek_chapter_spec_witness :
    sample_chapter_demuxer.chapters.length = 5 ∧
    demuxer_seek_chapter sample_limits sample_stream_layer sample_control_desc
        sample_chapter_demuxer (-1) 7
      = some (0, 0, sample_chapter_demuxer) ∧
    demuxer_seek_chapter sample_limits sample_stream_layer sample_control_desc
        sample_chapter_demuxer 3 7
      = some (3, 30, sample_chapter_demuxer) ∧
    demuxer_seek_chapter sample_limits sample_stream_layer sample_control_desc
        sample_chapter_demuxer 10 7
      = some (-1, 7, sample_chapter_demuxer) ∧
    demuxer_seek_chapter sample_limits sample_stream_layer sample_control_desc
        sample_short_chapter_demuxer 2 7
      = some (2, 3602879701896397 / 36028797018963968, sample_short_chapter_demuxer) ∧
    (3602879701896397 / 36028797018963968 : Rat) ≠ 1 / 10 := by
  have hne : sample_chapter_demuxer.chapters ≠ [] := by
    intro h
    have : sample_chapter_demuxer.chapters.length = 0 := by rw [h]; rfl
    exact absurd this (by decide)
  have hne2 : sample_short_chapter_demuxer.chapters ≠ [] := by
    intro h
    have : sample_short_chapter_demuxer.chapters.length = 0 := by rw [h]; rfl
    exact absurd this (by decide)
  obtain ⟨h1, _, _, _⟩ := demuxer_seek_chapter_spec sample_limits sample_stream_layer
    sample_control_desc sample_chapter_demuxer (-1) 7 hne
  obtain ⟨_, h2, _, _⟩ := demuxer_seek_chapter_spec sample_limits sample_stream_layer
    sample_control_desc sample_chapter_demuxer 3 7 hne
  obtain ⟨_, _, h3, _⟩ := demuxer_seek_chapter_spec sample_limits sample_stream_layer
    sample_control_desc sample_chapter_demuxer 10 7 hne
  obtain ⟨_, h4, _, _⟩ := demuxer_seek_chapter_spec sample_limits sample_stream_layer
    sample_control_desc sample_short_chapter_demuxer 2 7 hne2
  obtain ⟨ch0, g0, k0⟩ := h1 (by decide)
  obtain ⟨ch3, g3, k3⟩ := h2 (by decide) (by decide)
  obtain ⟨ch2, g2, k2⟩ := h4 (by decide) (by decide)
  have e0 : ch0 = sample_chapter 0 := by
    have : sample_chapter_demuxer.chapters[0]? = some (sample_chapter 0) := rfl
    rw [g0] at this; exact Option.some.inj this
  have e3 : ch3 = sample_chapter 3 := by
    have : sample_chapter_demuxer.chapters[(3 : Int).toNat]? = some (sample_chapter 3) := rfl
    rw [g3] at this; exact Option.some.inj this
  have e2 : ch2 = { sample_chapter 2 with start := 100000000 } := by
    have : sample_short_chapter_demuxer.chapters[(2 : Int).toNat]?
        = some { sample_chapter 2 with start := 100000000 } := rfl
    rw [g2] at this; exact Option.some.inj this
  subst e0 e3 e2
  have s0 : (sample_chapter 0).start = 0 := rfl
  have s3 : (sample_chapter 3).start = 30000000000 := rfl
  rw [s0, seek_pts_of_0] at k0
  rw [s3, seek_pts_of_30] at k3
  have k2' : demuxer_seek_chapter sample_limits sample_stream_layer sample_control_desc
      sample_short_chapter_demuxer 2 7
      = some (2, double_div (uint64_to_double 100000000) 1000000000,
          sample_short_chapter_demuxer) := k2
  rw [seek_pts_of_tenth] at k2'
  exact ⟨rfl, k0, k3, h3 (by decide), k2', by norm_num⟩

theorem chapter_scan_spec (chapters : List demux_chapter) (now : Nat) :
    ∀ k : Nat, k ≤ chapters.length →
      (chapter_scan chapters now k = -1 ∧
        ∀ (j : Nat) (ch : demux_chapter), j < k → chapters[j]? = some ch → now < ch.start) ∨
      (∃ (i : Nat) (ch : demux_chapter), chapter_scan chapters now k = (i : Int) ∧ i < k ∧ chapters[i]? = some ch ∧
        ch.start ≤ now ∧
        ∀ (j : Nat) (ch' : demux_chapter), i < j → j < k → chapters[j]? = some ch' →
          now < ch'.start) := by
  intro k
  induction k with
  | zero =>
    intro _
    left
    exact ⟨rfl, fun j ch hj _ => absurd hj (Nat.not_lt_zero j)⟩
  | succ k ih =>
    intro hk
    have hk' : k < chapters.length := hk
    have hget : chapters[k]? = some chapters[k] := List.getElem?_eq_getElem hk'
    by_cases hs : chapters[k].start ≤ now
    · right
      refine ⟨k, chapters[k], ?_, Nat.lt_succ_self k, hget, hs, ?_⟩
      · simp [chapter_scan, hget, hs]
      · intro j ch' h1 h2; omega
    · have hstep : chapter_scan chapters now (k + 1) = chapter_scan chapters now k := by
        simp [chapter_scan, hget, hs]
      rcases ih (Nat.le_of_lt hk') with ⟨h1, h2⟩ | ⟨i, ch, h1, h2, h3, h4, h5⟩
      · left
        refine ⟨by rw [hstep, h1], ?_⟩
        intro j ch hj hch
        rcases Nat.lt_succ_iff_lt_or_eq.mp hj with hlt | heq
        · exact h2 j ch hlt hch
        · subst heq
          rw [hget] at hch
          cases hch
          exact Nat.lt_of_not_le hs
      · right
        refine ⟨i, ch, by rw [hstep, h1], Nat.lt_succ_of_lt h2, h3, h4, ?_⟩
        intro j ch' hij hj hch
        rcases Nat.lt_succ_iff_lt_or_eq.mp hj with hlt | heq
        · exact h5 j ch' hij hlt hch
        · subst heq
          rw [hget] at hch
          cases hch
          exact Nat.lt_of_not_le hs

theorem demuxer_get_current_chapter_eval {P : Type} (cc : c_compiler) (sl : stream_layer)
    (d : demuxer P) (time_now : Rat) (hne : d.chapters ≠ [])
    (hdef : uint64_defined (double_add (double_mul time_now 1000000000) (1 / 2))) :
    demuxer_get_current_chapter cc sl d time_now
      = (chapter_scan d.chapters
          (Int.toNat (Int.floor (double_add (double_mul time_now 1000000000) (1 / 2))))
          d.chapters.length, d) := by
  have hlen : d.chapters.length ≠ 0 := by
    intro h; exact hne (List.length_eq_zero.mp h)
  unfold demuxer_get_current_chapter
  rw [if_neg hlen]
  simp only
  rw [double_to_uint64_defined cc _ hdef]

theorem sample_chapters_ne_nil : sample_chapter_demuxer.chapters ≠ [] := by
  intro h
  have : sample_chapter_demuxer.chapters.length = 0 := by rw [h]; rfl
  exact absurd this (by decide)

theorem sample_short_chapters_ne_nil : sample_short_chapter_demuxer.chapters ≠ [] := by
  intro h
  have : sample_short_chapter_demuxer.chapters.length = 0 := by rw [h]; rfl
  exact absurd this (by decide)

theorem sample_now_25 :
    double_add (double_mul 25 1000000000) (1 / 2) = 50000000001 / 2 := by
  have h1 : double_mul 25 1000000000 = 25000000000 := by
    unfold double_mul
    have h : (25 : Rat) * 1000000000 = ((25000000000 : Nat) : Rat) := by norm_num
    rw [h, round_double_natCast 25000000000 (by norm_num)]
    norm_num
  rw [h1]
  unfold double_add
  have h : (25000000000 : Rat) + 1 / 2 = 50000000001 / 2 := by norm_num
  rw [h, round_double_25_half]

theorem sample_now_25_floor :
    Int.toNat (Int.floor (double_add (double_mul 25 1000000000) (1 / 2))) = 25000000000 := by
  rw [sample_now_25]
  have h : Int.floor ((50000000001 : Rat) / 2) = 25000000000 := by
    rw [Int.floor_eq_iff]; norm_num
  rw [h]
  rfl

theorem sample_now_small :
    double_add (double_mul (7253554917687775 / 4835703278458516698824704) 1000000000) (1 / 2)
      = 2 := by
  have h1 : double_mul (7253554917687775 / 4835703278458516698824704) 1000000000 = 3 / 2 := by
    unfold double_mul
    exact round_double_small_product
  rw [h1]
  unfold double_add
  have h : (3 : Rat) / 2 + 1 / 2 = ((2 : Nat) : Rat) := by norm_num
  rw [h, round_double_natCast 2 (by norm_num)]
  norm_num

theorem sample_now_small_floor :
    Int.toNat (Int.floor (double_add
      (double_mul (7253554917687775 / 4835703278458516698824704) 1000000000) (1 / 2))) = 2 := by
  rw [sample_now_small]
  have h : Int.floor (2 : Rat) = 2 := by
    rw [Int.floor_eq_iff]; norm_num
  rw [h]
  rfl

theorem chapter_compare_le_iff (a b : demux_chapter) :
    chapter_compare a b ≤ 0 ↔
      a.start < b.start ∨ (a.start = b.start ∧ a.original_index ≤ b.original_index) := by
  unfold chapter_compare
  split_ifs with h1 h2 h3
  · constructor
    · intro h; omega
    · rintro (h | ⟨h, _⟩) <;> omega
  · constructor
    · intro _; exact Or.inl h2
    · intro _; omega
  · constructor
    · intro h; omega
    · rintro (h | ⟨_, h⟩) <;> omega
  · constructor
    · intro _; exact Or.inr ⟨by omega, by omega⟩
    · intro _; omega

theorem chapter_compare_total (a b : demux_chapter) :
    chapter_compare a b ≤ 0 ∨ chapter_compare b a ≤ 0 := by
  rw [chapter_compare_le_iff, chapter_compare_le_iff]
  omega

theorem chapter_compare_trans (a b c : demux_chapter) (h1 : chapter_compare a b ≤ 0)
    (h2 : chapter_compare b c ≤ 0) : chapter_compare a c ≤ 0 := by
  rw [chapter_compare_le_iff] at h1 h2 ⊢
  omega

theorem qsort_chapters_sorted (l : List demux_chapter) :
    (qsort chapter_compare l).Pairwise (fun a b => chapter_compare a b ≤ 0) := by
  haveI : IsTotal demux_chapter (fun a b => chapter_compare a b ≤ 0) :=
    ⟨chapter_compare_total⟩
  haveI : IsTrans demux_chapter (fun a b => chapter_compare a b ≤ 0) :=
    ⟨chapter_compare_trans⟩
  exact List.sorted_insertionSort (fun a b => chapter_compare a b ≤ 0) l

theorem qsort_chapters_perm (l : List demux_chapter) : (qsort chapter_compare l).Perm l :=
  List.perm_insertionSort (fun a b => chapter_compare a b ≤ 0) l

/-- C17: after `demuxer_sort_chapters` the chapter array is a permutation of
the array before the call, ordered by non-decreasing start time, with
chapters of equal start time in increasing `original_index`. When the
`original_index` values are distinct, as they are for chapters added with
`demuxer_add_chapter`, chapters of equal start time are in strictly
increasing `original_index`, and the result is the only permutation in the
order of `chapter_compare`, so it is what every `qsort` gives. -/
theorem demuxer_sort_chapters_spec {P : Type} (d : demuxer P) :
    (demuxer_sort_chapters d).chapters.Perm d.chapters ∧
    (demuxer_sort_chapters d).chapters.Pairwise (fun a b => a.start ≤ b.start) ∧
    (demuxer_sort_chapters d).chapters.Pairwise
      (fun a b => a.start = b.start → a.original_index ≤ b.original_index) ∧
    ((d.chapters.map (fun ch => ch.original_index)).Nodup →
      (demuxer_sort_chapters d).chapters.Pairwise
        (fun a b => a.start = b.start → a.original_index < b.original_index) ∧
      ∀ l : List demux_chapter, l.Perm d.chapters →
        l.Pairwise (fun a b => chapter_compare a b ≤ 0) →
        l = (demuxer_sort_chapters d).chapters) ∧
    (demuxer_sort_chapters d).streams = d.streams := by
  have hs := qsort_chapters_sorted d.chapters
  have hp := qsort_chapters_perm d.chapters
  refine ⟨hp, ?_, ?_, ?_, rfl⟩
  · refine List.Pairwise.imp ?_ hs
    intro a b h
    rw [chapter_compare_le_iff] at h
    omega
  · refine List.Pairwise.imp ?_ hs
    intro a b h he
    rw [chapter_compare_le_iff] at h
    omega
  · intro hnd
    have hnd' : ((qsort chapter_compare d.chapters).map (fun ch => ch.original_index)).Nodup :=
      (List.Perm.nodup_iff (List.Perm.map _ hp)).mpr hnd
    have hne : (qsort chapter_compare d.chapters).Pairwise
        (fun a b => a.original_index ≠ b.original_index) := by
      have hpw : List.Pairwise (fun x y : Int => x ≠ y)
          ((qsort chapter_compare d.chapters).map (fun ch => ch.original_index)) := hnd'
      exact List.pairwise_map.mp hpw
    refine ⟨?_, ?_⟩
    · refine List.Pairwise.imp ?_ (List.Pairwise.and hs hne)
      intro a b h he
      obtain ⟨h1, h2⟩ := h
      rw [chapter_compare_le_iff] at h1
      omega
    · intro l hl hsl
      refine List.Perm.eq_of_sorted ?_ hsl hs (hl.trans hp.symm)
      intro a b ha hb hab hba
      have ha' : a ∈ d.chapters := hl.subset ha
      have hb' : b ∈ d.chapters := hp.subset hb
      rw [chapter_compare_le_iff] at hab hba
      have hidx : a.original_index = b.original_index := by omega
      exact List.inj_on_of_nodup_map hnd ha' hb' hidx

/-- Witness of C17: chapters with the start times 5, 5, 3, 5, added in this
order, are sorted into the order 2, 0, 1, 3 of their insertion. -/
theorem demuxer_sort_chapters_spec_witness :
    sample_unsorted_demuxer.chapters.map (fun ch => ch.start) = [5, 5, 3, 5] ∧
    sample_unsorted_demuxer.chapters.map (fun ch => ch.original_index) = [0, 1, 2, 3] ∧
    (sample_unsorted_demuxer.chapters.map (fun ch => ch.original_index)).Nodup ∧
    (demuxer_sort_chapters sample_unsorted_demuxer).chapters.map
      (fun ch => ch.original_index) = [2, 0, 1, 3] ∧
    (demuxer_sort_chapters sample_unsorted_demuxer).chapters.map
      (fun ch => ch.start) = [3, 5, 5, 5] ∧
    ∀ l : List demux_chapter, l.Perm sample_unsorted_demuxer.chapters →
      l.Pairwise (fun a b => chapter_compare a b ≤ 0) →
      l = (demuxer_sort_chapters sample_unsorted_demuxer).chapters :=
  ⟨by decide, by decide, by decide, by decide, by decide,
   ((demuxer_sort_chapters_spec sample_unsorted_demuxer).2.2.2.1 (by decide)).2⟩

/-! ## Tags -/

theorem bstrcasecmp0_eq_zero (a b : String) :
    bstrcasecmp0 a b = 0 ↔ a.data.map Char.toLower = b.data.map Char.toLower := by
  unfold bstrcasecmp0
  split_ifs with h1 h2
  · simp [h1]
  · simp [h1]
  · simp [h1]

theorem bstrcasecmp0_congr (a b k : String) (h : bstrcasecmp0 a b = 0) :
    (bstrcasecmp0 a k = 0 ↔ bstrcasecmp0 b k = 0) := by
  rw [bstrcasecmp0_eq_zero] at h
  rw [bstrcasecmp0_eq_zero, bstrcasecmp0_eq_zero, h]

theorem bstrcasecmp0_ne_of_ne (a b k : String) (h : bstrcasecmp0 a b ≠ 0)
    (hk : bstrcasecmp0 b k = 0) : bstrcasecmp0 a k ≠ 0 := by
  rw [Ne, bstrcasecmp0_eq_zero] at h ⊢
  rw [bstrcasecmp0_eq_zero] at hk
  rw [← hk]
  exact h

theorem talloc_strndup_cstring (s : String) (h : is_cstring s) : talloc_strndup s = s := by
  unfold talloc_strndup
  have : s.data.takeWhile (fun ch => decide (ch ≠ Char.ofNat 0)) = s.data := by
    rw [List.takeWhile_eq_self_iff]
    intro ch hch
    simp only [ne_eq, decide_not, Bool.not_eq_true', decide_eq_false_iff_not]
    intro h0
    exact h (h0 ▸ hch)
  rw [this]

theorem mp_tags_set_loop_none (key value : String) (keys : List String) :
    ∀ values : List String, keys.length = values.length →
      (mp_tags_set_loop key value keys values = none ↔
        ∀ k ∈ keys, bstrcasecmp0 key k ≠ 0) := by
  induction keys with
  | nil => intro values _; simp [mp_tags_set_loop]
  | cons k keys ih =>
    intro values hl
    cases values with
    | nil => simp at hl
    | cons v values =>
      have hl' : keys.length = values.length := by simpa using hl
      by_cases hk : bstrcasecmp0 key k = 0
      · simp [mp_tags_set_loop, hk]
      · simp [mp_tags_set_loop, hk, ih values hl']

theorem mp_tags_set_loop_some (key value k' : String) (keys : List String) :
    ∀ values new : List String, keys.length = values.length →
      mp_tags_set_loop key value keys values = some new →
      new.length = values.length ∧
      (∃ k ∈ keys, bstrcasecmp0 key k = 0) ∧
      (bstrcasecmp0 k' key = 0 →
        mp_tags_get_loop k' keys new = some (talloc_strndup value)) ∧
      (bstrcasecmp0 k' key ≠ 0 →
        mp_tags_get_loop k' keys new = mp_tags_get_loop k' keys values) ∧
      (∀ (n : Nat) (k : String), keys[n]? = some k → bstrcasecmp0 key k ≠ 0 →
        new[n]? = values[n]?) := by
  induction keys with
  | nil => intro values new _ h; simp [mp_tags_set_loop] at h
  | cons k keys ih =>
    intro values new hl h
    cases values with
    | nil => simp at hl
    | cons v values =>
      have hl' : keys.length = values.length := by simpa using hl
      by_cases hk : bstrcasecmp0 key k = 0
      · simp only [mp_tags_set_loop, hk, if_true, Option.some.injEq] at h
        subst h
        refine ⟨by simp, ⟨k, by simp, hk⟩, ?_, ?_, ?_⟩
        · intro hk'
          have : bstrcasecmp0 k' k = 0 := (bstrcasecmp0_congr k' key k hk').mpr hk
          simp [mp_tags_get_loop, this]
        · intro hk'
          have : bstrcasecmp0 k' k ≠ 0 := bstrcasecmp0_ne_of_ne k' key k hk' hk
          simp [mp_tags_get_loop, this]
        · intro n k0 hn hne
          cases n with
          | zero =>
            simp at hn
            subst hn
            exact absurd hk hne
          | succ n => simp
      · simp only [mp_tags_set_loop, hk, if_false, Option.map_eq_some'] at h
        obtain ⟨new', h1, h2⟩ := h
        subst h2
        obtain ⟨g1, ⟨k0, g2, g2'⟩, g3, g4, g5⟩ := ih values new' hl' h1
        refine ⟨by simp [g1], ⟨k0, by simp [g2], g2'⟩, ?_, ?_, ?_⟩
        · intro hk'
          have : bstrcasecmp0 k' k ≠ 0 := by
            intro h0
            exact hk ((bstrcasecmp0_congr k' key k hk').mp h0)
          simp [mp_tags_get_loop, this, g3 hk']
        · intro hk'
          by_cases h0 : bstrcasecmp0 k' k = 0
          · simp [mp_tags_get_loop, h0]
          · simp [mp_tags_get_loop, h0, g4 hk']
        · intro n k1 hn hne
          cases n with
          | zero => simp
          | succ n =>
            simp at hn
            simpa using g5 n k1 hn hne

theorem mp_tags_get_loop_append (k' k v : String) (keys : List String) :
    ∀ values : List String, keys.length = values.length →
      mp_tags_get_loop k' (keys ++ [k]) (values ++ [v])
        = match mp_tags_get_loop k' keys values with
          | some x => some x
          | none => if bstrcasecmp0 k' k = 0 then some v else none := by
  induction keys with
  | nil =>
    intro values hl
    cases values with
    | nil => simp [mp_tags_get_loop]
    | cons v0 values => simp at hl
  | cons k0 keys ih =>
    intro values hl
    cases values with
    | nil => simp at hl
    | cons v0 values =>
      have hl' : keys.length = values.length := by simpa using hl
      by_cases h0 : bstrcasecmp0 k' k0 = 0
      · simp [mp_tags_get_loop, h0]
      · simp [mp_tags_get_loop, h0, ih values hl']

theorem mp_tags_get_loop_none (k' : String) (keys : List String) :
    ∀ values : List String, (∀ k ∈ keys, bstrcasecmp0 k' k ≠ 0) →
      mp_tags_get_loop k' keys values = none := by
  induction keys with
  | nil => intro values _; simp [mp_tags_get_loop]
  | cons k keys ih =>
    intro values h
    cases values with
    | nil => simp [mp_tags_get_loop]
    | cons v values =>
      have h0 : bstrcasecmp0 k' k ≠ 0 := h k (by simp)
      simp [mp_tags_get_loop, h0, ih values (fun k hk => h k (by simp [hk]))]

/-- C19: for a tag list (its two arrays of equal length) and a key `k` and a
value `v` without NUL character, after `mp_tags_set_bstr(tags, k, v)` the
lookup `mp_tags_get_bstr(tags, k')` returns `v` for every `k'` equal to `k`
ignoring case and returns what it returned before for every other `k'`. If a
key equal to `k` ignoring case existed, the keys (their number, order and
spelling) are unchanged and so are the values stored under the other keys;
otherwise the pair `(k, v)` is appended at the end. -/
theorem mp_tags_set_get (tags : mp_tags) (k v : String)
    (hlen : tags.keys.length = tags.values.length) (hk : is_cstring k) (hv : is_cstring v) :
    (∀ k', bstrcasecmp0 k' k = 0 →
      mp_tags_get_bstr (mp_tags_set_bstr tags k v) k' = some v) ∧
    (∀ k', bstrcasecmp0 k' k ≠ 0 →
      mp_tags_get_bstr (mp_tags_set_bstr tags k v) k' = mp_tags_get_bstr tags k') ∧
    ((∃ key ∈ tags.keys, bstrcasecmp0 k key = 0) →
      (mp_tags_set_bstr tags k v).keys = tags.keys ∧
      (mp_tags_set_bstr tags k v).values.length = tags.values.length ∧
      ∀ (n : Nat) (key : String), tags.keys[n]? = some key → bstrcasecmp0 k key ≠ 0 →
        (mp_tags_set_bstr tags k v).values[n]? = tags.values[n]?) ∧
    ((∀ key ∈ tags.keys, bstrcasecmp0 k key ≠ 0) →
      (mp_tags_set_bstr tags k v).keys = tags.keys ++ [k] ∧
      (mp_tags_set_bstr tags k v).values = tags.values ++ [v]) ∧
    (mp_tags_set_bstr tags k v).keys.length = (mp_tags_set_bstr tags k v).values.length := by
  have hv' := talloc_strndup_cstring v hv
  have hk' := talloc_strndup_cstring k hk
  cases hset : mp_tags_set_loop k v tags.keys tags.values with
  | none =>
    have hnone := (mp_tags_set_loop_none k v tags.keys tags.values hlen).mp hset
    have hval : mp_tags_set_bstr tags k v
        = { keys := tags.keys ++ [k], values := tags.values ++ [v] } := by
      simp [mp_tags_set_bstr, hset, hv', hk']
    rw [hval]
    refine ⟨?_, ?_, ?_, fun _ => ⟨rfl, rfl⟩, by simp [hlen]⟩
    · intro k0 h0
      have hno : ∀ key ∈ tags.keys, bstrcasecmp0 k0 key ≠ 0 := by
        intro key hkey hz
        exact hnone key hkey ((bstrcasecmp0_congr k0 k key h0).mp hz)
      simp [mp_tags_get_bstr, mp_tags_get_loop_append k0 k v tags.keys tags.values hlen,
        mp_tags_get_loop_none k0 tags.keys tags.values hno, h0]
    · intro k0 h0
      simp only [mp_tags_get_bstr, mp_tags_get_loop_append k0 k v tags.keys tags.values hlen,
        h0, if_false]
      cases mp_tags_get_loop k0 tags.keys tags.values <;> rfl
    · rintro ⟨key, hkey, hz⟩
      exact absurd hz (hnone key hkey)
  | some new =>
    have hval : mp_tags_set_bstr tags k v = { tags with values := new } := by
      simp [mp_tags_set_bstr, hset]
    rw [hval]
    refine ⟨?_, ?_, ?_, ?_, ?_⟩
    · intro k0 h0
      obtain ⟨_, _, g3, _, _⟩ :=
        mp_tags_set_loop_some k v k0 tags.keys tags.values new hlen hset
      simpa [mp_tags_get_bstr, hv'] using g3 h0
    · intro k0 h0
      obtain ⟨_, _, _, g4, _⟩ :=
        mp_tags_set_loop_some k v k0 tags.keys tags.values new hlen hset
      simpa [mp_tags_get_bstr] using g4 h0
    · intro _
      obtain ⟨g1, _, _, _, g5⟩ :=
        mp_tags_set_loop_some k v k tags.keys tags.values new hlen hset
      exact ⟨rfl, g1, g5⟩
    · intro hno
      obtain ⟨_, ⟨key, hkey, hz⟩, _⟩ :=
        mp_tags_set_loop_some k v k tags.keys tags.values new hlen hset
      exact absurd hz (hno key hkey)
    · obtain ⟨g1, _⟩ := mp_tags_set_loop_some k v k tags.keys tags.values new hlen hset
      simp [g1, hlen]

/-- Witness of C19: setting `TITLE` in a list that has the key `Title`
updates that entry in place, and the lookup of `title` finds the new value;
setting `Album` appends a pair. -/
theorem mp_tags_set_get_witness :
    sample_tags.keys.length = sample_tags.values.length ∧
    is_cstring "TITLE" ∧ is_cstring "Big Buck Bunny" ∧
    mp_tags_get_bstr (mp_tags_set_bstr sample_tags "TITLE" "Big Buck Bunny") "title"
      = some "Big Buck Bunny" ∧
    mp_tags_get_bstr (mp_tags_set_bstr sample_tags "TITLE" "Big Buck Bunny") "artist"
      = mp_tags_get_bstr sample_tags "artist" ∧
    (mp_tags_set_bstr sample_tags "TITLE" "Big Buck Bunny").keys = ["Title", "Artist"] ∧
    (mp_tags_set_bstr sample_tags "Album" "Open Movies").keys
      = ["Title", "Artist"] ++ ["Album"] ∧
    (mp_tags_set_bstr sample_tags "Album" "Open Movies").values
      = ["Sintel", "Blender"] ++ ["Open Movies"] :=
  have h := mp_tags_set_get sample_tags "TITLE" "Big Buck Bunny" rfl (by decide) (by decide)
  have g := mp_tags_set_get sample_tags "Album" "Open Movies" rfl (by decide) (by decide)
  ⟨rfl, by decide, by decide, h.1 "title" (by decide), h.2.1 "artist" (by decide),
   (h.2.2.1 ⟨"Title", by decide, by decide⟩).1,
   (g.2.2.2.1 (by decide)).1, (g.2.2.2.1 (by decide)).2⟩

/-! ## Opening a demuxer -/

theorem open_calls_append (a b : List ext_call) :
    open_calls (a ++ b) = open_calls a ++ open_calls b := by
  induction a with
  | nil => rfl
  | cons x a ih => cases x <;> simp [open_calls, ih]

theorem calls_quiet_refl (l : List ext_call) : calls_quiet l l :=
  ⟨[], by simp, rfl⟩

theorem calls_quiet_trans {a b c : List ext_call} (h1 : calls_quiet a b)
    (h2 : calls_quiet b c) : calls_quiet a c := by
  obtain ⟨e1, rfl, g1⟩ := h1
  obtain ⟨e2, rfl, g2⟩ := h2
  exact ⟨e1 ++ e2, by simp, by rw [open_calls_append, g1, g2]; rfl⟩

theorem stream_control_quiet {P : Type} (sl : stream_layer) (d : demuxer P)
    (cmd : stream_ctrl) (arg : ctrl_arg) :
    calls_quiet d.calls (stream_control sl d cmd arg).2.2.calls :=
  ⟨[ext_call.stream_control cmd], rfl, rfl⟩

theorem demux_control_quiet {P : Type} (c : demux_h) (desc : demuxer_desc P) (d : demuxer P)
    (cmd : demuxer_ctrl) (arg : ctrl_arg) :
    calls_quiet d.calls (demux_control c desc d cmd arg).2.2.calls := by
  unfold demux_control
  cases desc.control with
  | none => exact calls_quiet_refl _
  | some f => exact ⟨[ext_call.desc_control cmd], rfl, rfl⟩

theorem free_demuxer_quiet {P : Type} (desc : demuxer_desc P) (d : demuxer P) :
    calls_quiet d.calls (free_demuxer desc d).calls := by
  unfold free_demuxer
  cases desc.close with
  | none => exact calls_quiet_refl _
  | some f => exact ⟨[ext_call.desc_close desc.name], rfl, rfl⟩

theorem demuxer_chapter_count_quiet {P : Type} (sl : stream_layer) (d : demuxer P) :
    calls_quiet d.calls (demuxer_chapter_count sl d).2.calls := by
  unfold demuxer_chapter_count
  split
  · simp only
    split
    · exact stream_control_quiet sl d _ _
    · exact stream_control_quiet sl d _ _
  · exact calls_quiet_refl _

theorem add_stream_chapters_loop_quiet {P : Type} (cc : c_compiler) (sl : stream_layer) (k : Nat) :
    ∀ (n : Nat) (d : demuxer P),
      calls_quiet d.calls (add_stream_chapters_loop cc sl k n d).calls := by
  induction k with
  | zero => intro n d; exact calls_quiet_refl _
  | succ k ih =>
    intro n d
    simp only [add_stream_chapters_loop]
    split
    · exact stream_control_quiet sl d _ _
    · exact calls_quiet_trans
        (stream_control_quiet sl d stream_ctrl.STREAM_CTRL_GET_CHAPTER_TIME (ctrl_arg.double n))
        (ih _ _)

theorem add_stream_chapters_quiet {P : Type} (cc : c_compiler) (sl : stream_layer) (d : demuxer P) :
    calls_quiet d.calls (add_stream_chapters cc sl d).calls := by
  unfold add_stream_chapters
  split
  · exact calls_quiet_refl _
  · exact calls_quiet_trans (demuxer_chapter_count_quiet sl d)
      (add_stream_chapters_loop_quiet cc sl _ _ _)

theorem demux_info_add_bstr_calls {P : Type} (d : demuxer P) (k v : String) :
    (demux_info_add_bstr d k v).2.calls = d.calls := by
  unfold demux_info_add_bstr
  cases mp_tags_get_bstr d.metadata k with
  | none => rfl
  | some old =>
    simp only
    split <;> rfl

theorem demux_info_add_pairs_calls {P : Type} :
    ∀ (n : Nat) (meta : List String) (d : demuxer P), meta.length ≤ n →
      (demux_info_add_pairs d meta).calls = d.calls := by
  intro n
  induction n with
  | zero =>
    intro meta d h
    have : meta = [] := List.length_eq_zero.mp (Nat.le_zero.mp h)
    subst this
    rfl
  | succ n ih =>
    intro meta d h
    match meta with
    | [] => rfl
    | [_] => rfl
    | k :: v :: rest =>
      simp only [demux_info_add_pairs]
      rw [ih rest _ (by simp at h; omega), demux_info_add_bstr_calls]

theorem demux_info_update_quiet {P : Type} (c : demux_h) (sl : stream_layer)
    (desc : demuxer_desc P) (d : demuxer P) :
    calls_quiet d.calls (demux_info_update c sl desc d).calls := by
  have h1 := demux_control_quiet c desc d demuxer_ctrl.DEMUXER_CTRL_UPDATE_INFO ctrl_arg.null
  have h2 := stream_control_quiet sl
    (demux_control c desc d demuxer_ctrl.DEMUXER_CTRL_UPDATE_INFO ctrl_arg.null).2.2
    stream_ctrl.STREAM_CTRL_GET_METADATA ctrl_arg.null
  have h12 := calls_quiet_trans h1 h2
  unfold demux_info_update
  simp only
  split
  · split
    · rw [demux_info_add_pairs_calls _ _ _ (Nat.le_refl _)]
      exact h12
    · exact h12
  · exact h12

theorem ite_calls {P : Type} (b : Bool) (x y : demuxer P) (h : x.calls = y.calls) :
    (if b then x else y).calls = y.calls := by
  cases b <;> simp [h]

theorem open_given_type_opened_quiet {P : Type} (c : demux_h) (cc : c_compiler)
    (sl : stream_layer)
    (desc : demuxer_desc P) (d : demuxer P) :
    calls_quiet d.calls (open_given_type_opened c cc sl desc d).calls := by
  have h6 := add_stream_chapters_quiet cc sl
    (if sl.stream_manages_timeline d.stream then
      { d with
        params := none
        msgs := d.msgs ++ [msg_line.detected_file_format d.filetype desc.desc]
        ts_resets_possible := false
        accurate_seek := false }
     else
      { d with
        params := none
        msgs := d.msgs ++ [msg_line.detected_file_format d.filetype desc.desc] })
  have h5 : (if sl.stream_manages_timeline d.stream then
      ({ d with
        params := none
        msgs := d.msgs ++ [msg_line.detected_file_format d.filetype desc.desc]
        ts_resets_possible := false
        accurate_seek := false } : demuxer P)
     else
      { d with
        params := none
        msgs := d.msgs ++ [msg_line.detected_file_format d.filetype desc.desc] }).calls
      = d.calls := by
    split <;> rfl
  rw [h5] at h6
  have h8 := demux_info_update_quiet c sl desc (demuxer_sort_chapters (add_stream_chapters cc sl
    (if sl.stream_manages_timeline d.stream then
      { d with
        params := none
        msgs := d.msgs ++ [msg_line.detected_file_format d.filetype desc.desc]
        ts_resets_possible := false
        accurate_seek := false }
     else
      { d with
        params := none
        msgs := d.msgs ++ [msg_line.detected_file_format d.filetype desc.desc] })))
  have h68 := calls_quiet_trans h6 h8
  have h9 : (open_given_type_opened c cc sl desc d).calls = (demux_info_update c sl desc
      (demuxer_sort_chapters (add_stream_chapters cc sl
        (if sl.stream_manages_timeline d.stream then
          { d with
            params := none
            msgs := d.msgs ++ [msg_line.detected_file_format d.filetype desc.desc]
            ts_resets_possible := false
            accurate_seek := false }
         else
          { d with
            params := none
            msgs := d.msgs ++ [msg_line.detected_file_format d.filetype desc.desc] })))).calls := by
    unfold open_given_type_opened
    exact ite_calls _ _ _ rfl
  rw [h9]
  exact h68

theorem open_given_type_calls {P : Type} (c : demux_h) (cc : c_compiler)
    (sl : stream_layer) (null_priv : P)
    (opts : Nat) (desc : demuxer_desc P) (w : outside) (params : Option Nat)
    (check : demux_check) :
    ∃ ext ret,
      (open_given_type c cc sl null_priv opts desc w params check).2.calls = w.calls ++ ext ∧
      open_calls ext = [(desc.name, check, ret)] ∧
      ((open_given_type c cc sl null_priv opts desc w params check).1.isSome = true ↔ 0 ≤ ret) ∧
      (∀ d, (open_given_type c cc sl null_priv opts desc w params check).1 = some d →
        d.calls = (open_given_type c cc sl null_priv opts desc w params check).2.calls) := by
  have hnew : (open_given_type_new sl null_priv opts desc w params check).calls
      = w.calls ++ [ext_call.stream_seek w.stream.start_pos] := rfl
  by_cases hret : (desc.open_ (open_given_type_new sl null_priv opts desc w params check)
      check).1 ≥ 0
  · obtain ⟨e, he, hq⟩ := open_given_type_opened_quiet c cc sl desc
      { (desc.open_ (open_given_type_new sl null_priv opts desc w params check) check).2 with
        calls := (open_given_type_new sl null_priv opts desc w params check).calls ++
          [ext_call.desc_open desc.name check
            (desc.open_ (open_given_type_new sl null_priv opts desc w params check) check).1] }
    refine ⟨[ext_call.stream_seek w.stream.start_pos,
        ext_call.desc_open desc.name check
          (desc.open_ (open_given_type_new sl null_priv opts desc w params check) check).1]
        ++ e,
      (desc.open_ (open_given_type_new sl null_priv opts desc w params check) check).1,
      ?_, ?_, ?_, ?_⟩
    · simp only [open_given_type, hret, if_true, outside_of]
      rw [he, hnew]
      simp
    · rw [open_calls_append, hq]
      rfl
    · simp [open_given_type, hret]
    · intro d hd
      simp only [open_given_type, hret, if_true, Option.some.injEq] at hd
      subst hd
      simp [open_given_type, hret, outside_of]
  · obtain ⟨e, he, hq⟩ := free_demuxer_quiet desc
      { (desc.open_ (open_given_type_new sl null_priv opts desc w params check) check).2 with
        calls := (open_given_type_new sl null_priv opts desc w params check).calls ++
          [ext_call.desc_open desc.name check
            (desc.open_ (open_given_type_new sl null_priv opts desc w params check) check).1] }
    refine ⟨[ext_call.stream_seek w.stream.start_pos,
        ext_call.desc_open desc.name check
          (desc.open_ (open_given_type_new sl null_priv opts desc w params check) check).1]
        ++ e,
      (desc.open_ (open_given_type_new sl null_priv opts desc w params check) check).1,
      ?_, ?_, ?_, ?_⟩
    · simp only [open_given_type, hret, if_false, outside_of]
      rw [he, hnew]
      simp
    · rw [open_calls_append, hq]
      rfl
    · simp [open_given_type, hret]
    · intro d hd
      simp [open_given_type, hret] at hd


theorem first_success_nil : first_success [] [] false := by
  refine ⟨⟨[], rfl, fun _ => rfl⟩, ?_, ?_, ?_⟩
  · intro t ht; simp at ht
  · intro h; cases h
  · intro _ t ht; simp at ht

theorem first_success_single (name : String) (level : demux_check) (ret : Int) :
    first_success [(name, level)] [(name, level, ret)] (decide (0 ≤ ret)) := by
  refine ⟨⟨[], rfl, fun _ => rfl⟩, ?_, ?_, ?_⟩
  · intro t ht; simp at ht
  · intro h
    exact ⟨_, rfl, by simpa using h⟩
  · intro h t ht
    simp only [List.mem_singleton] at ht
    subst ht
    simpa using h

theorem first_success_append (c1 c2 : List (String × demux_check))
    (t1 t2 : List (String × demux_check × Int)) (s : Bool)
    (h1 : first_success c1 t1 false) (h2 : first_success c2 t2 s) :
    first_success (c1 ++ c2) (t1 ++ t2) s := by
  obtain ⟨⟨l1, hc1, hl1⟩, _, _, ha1⟩ := h1
  obtain ⟨⟨l2, hc2, hl2⟩, hd2, hs2, ha2⟩ := h2
  have hl := hl1 rfl
  subst hl
  have ha := ha1 rfl
  refine ⟨⟨l2, by simp [hc1, hc2], hl2⟩, ?_, ?_, ?_⟩
  · intro t ht
    cases t2 with
    | nil =>
      rw [List.append_nil] at ht
      exact ha t (List.mem_of_mem_dropLast ht)
    | cons b l =>
      rw [List.dropLast_append_cons] at ht
      rcases List.mem_append.mp ht with h | h
      · exact ha t h
      · exact hd2 t h
  · intro hs
    obtain ⟨t, ht, hr⟩ := hs2 hs
    exact ⟨t, by simp [List.getLast?_append, ht], hr⟩
  · intro hs t ht
    rcases List.mem_append.mp ht with h | h
    · exact ha t h
    · exact ha2 hs t h

theorem first_success_extend (c1 c2 : List (String × demux_check))
    (t1 : List (String × demux_check × Int)) (h1 : first_success c1 t1 true) :
    first_success (c1 ++ c2) t1 true := by
  obtain ⟨⟨l1, hc1, _⟩, hd1, hs1, _⟩ := h1
  refine ⟨⟨l1 ++ c2, by simp [hc1], ?_⟩, hd1, hs1, ?_⟩
  · intro h; cases h
  · intro h; cases h

theorem first_success_empty (tried : List (String × demux_check × Int)) (s : Bool)
    (h : first_success [] tried s) : tried = [] ∧ s = false := by
  obtain ⟨⟨l, hc, _⟩, _, hs, _⟩ := h
  have ht : tried = [] := by
    cases tried with
    | nil => rfl
    | cons a l => simp at hc
  subst ht
  refine ⟨rfl, ?_⟩
  cases s with
  | false => rfl
  | true =>
    obtain ⟨t, ht, _⟩ := hs rfl
    simp at ht


theorem level_candidates_nil {P : Type} (check_desc : Option Nat) (level : demux_check)
    (n : Nat) : level_candidates check_desc level n ([] : List (demuxer_desc P)) = [] := rfl

theorem level_candidates_cons_pos {P : Type} (check_desc : Option Nat) (level : demux_check)
    (n : Nat) (desc : demuxer_desc P) (rest : List (demuxer_desc P))
    (h : check_desc = none ∨ check_desc = some n) :
    level_candidates check_desc level n (desc :: rest)
      = [(desc.name, level)] ++ level_candidates check_desc level (n + 1) rest := by
  simp [level_candidates, List.enumFrom_cons, List.filter_cons, h]

theorem level_candidates_cons_neg {P : Type} (check_desc : Option Nat) (level : demux_check)
    (n : Nat) (desc : demuxer_desc P) (rest : List (demuxer_desc P))
    (h : ¬ (check_desc = none ∨ check_desc = some n)) :
    level_candidates check_desc level n (desc :: rest)
      = level_candidates check_desc level (n + 1) rest := by
  simp [level_candidates, List.enumFrom_cons, List.filter_cons, h]

theorem level_candidates_none {P : Type} (level : demux_check)
    (descs : List (demuxer_desc P)) :
    ∀ n, level_candidates none level n descs = descs.map (fun desc => (desc.name, level)) := by
  induction descs with
  | nil => intro n; rfl
  | cons desc rest ih =>
    intro n
    rw [level_candidates_cons_pos none level n desc rest (Or.inl rfl), ih (n + 1)]
    rfl

theorem level_candidates_past {P : Type} (level : demux_check) (k : Nat)
    (descs : List (demuxer_desc P)) :
    ∀ n, k < n → level_candidates (some k) level n descs = [] := by
  induction descs with
  | nil => intro n _; rfl
  | cons desc rest ih =>
    intro n hn
    rw [level_candidates_cons_neg (some k) level n desc rest (by simp; omega)]
    exact ih (n + 1) (by omega)

theorem level_candidates_some {P : Type} (level : demux_check) (k : Nat)
    (descs : List (demuxer_desc P)) :
    ∀ n desc, n ≤ k → descs[k - n]? = some desc →
      level_candidates (some k) level n descs = [(desc.name, level)] := by
  induction descs with
  | nil => intro n desc _ h; simp at h
  | cons x rest ih =>
    intro n desc hn h
    by_cases hk : k = n
    · subst hk
      simp only [Nat.sub_self, List.getElem?_cons_zero, Option.some.injEq] at h
      subst h
      rw [level_candidates_cons_pos (some k) level k x rest (Or.inr rfl),
        level_candidates_past level k rest (k + 1) (by omega)]
      rfl
    · have hlt : n < k := by omega
      rw [level_candidates_cons_neg (some k) level n x rest (by simp; omega)]
      apply ih (n + 1) desc (by omega)
      have : k - n = (k - (n + 1)) + 1 := by omega
      rw [this, List.getElem?_cons_succ] at h
      exact h

theorem find_desc_loop {P : Type} (name : String) (descs : List (demuxer_desc P)) :
    ∀ (m : Nat) (acc : Option Nat),
      ((List.enumFrom m descs).foldl
          (fun check_desc e => if e.2.name = name then some e.1 else check_desc) acc = none ↔
        acc = none ∧ ∀ desc ∈ descs, desc.name ≠ name) ∧
      (∀ k, (List.enumFrom m descs).foldl
          (fun check_desc e => if e.2.name = name then some e.1 else check_desc) acc = some k →
        (acc = some k ∧ ∀ desc ∈ descs, desc.name ≠ name) ∨
        (m ≤ k ∧ ∃ desc, descs[k - m]? = some desc ∧ desc.name = name)) := by
  induction descs with
  | nil => intro m acc; simp
  | cons x rest ih =>
    intro m acc
    obtain ⟨ih1, ih2⟩ := ih (m + 1) (if x.name = name then some m else acc)
    refine ⟨?_, ?_⟩
    · simp only [List.enumFrom_cons, List.foldl_cons]
      rw [ih1]
      by_cases hx : x.name = name
      · simp [hx]
      · simp [hx]
    · intro k hk
      simp only [List.enumFrom_cons, List.foldl_cons] at hk
      rcases ih2 k hk with ⟨h1, h2⟩ | ⟨h1, desc, h2, h3⟩
      · by_cases hx : x.name = name
        · simp only [hx, if_true, Option.some.injEq] at h1
          subst h1
          exact Or.inr ⟨le_refl _, x, by simp, hx⟩
        · simp only [hx, if_false] at h1
          refine Or.inl ⟨h1, ?_⟩
          intro desc hd
          rcases List.mem_cons.mp hd with h | h
          · subst h; exact hx
          · exact h2 desc h
      · refine Or.inr ⟨by omega, desc, ?_, h3⟩
        have : k - m = (k - (m + 1)) + 1 := by omega
        rw [this, List.getElem?_cons_succ]
        exact h2

theorem find_desc_none {P : Type} (demuxer_list : List (demuxer_desc P)) (name : String) :
    find_desc demuxer_list name = none ↔
      demuxer_list.any (fun desc => decide (desc.name = name)) = false := by
  unfold find_desc
  rw [(find_desc_loop name demuxer_list 0 none).1]
  simp

theorem find_desc_some {P : Type} (demuxer_list : List (demuxer_desc P)) (name : String)
    (k : Nat) (h : find_desc demuxer_list name = some k) :
    demuxer_list.any (fun desc => decide (desc.name = name)) = true ∧
    ∃ desc, demuxer_list[k]? = some desc ∧ desc.name = name := by
  have hany : demuxer_list.any (fun desc => decide (desc.name = name)) = true := by
    cases hb : demuxer_list.any (fun desc => decide (desc.name = name)) with
    | true => rfl
    | false =>
      rw [(find_desc_none demuxer_list name).mpr hb] at h
      cases h
  refine ⟨hany, ?_⟩
  unfold find_desc at h
  rcases (find_desc_loop name demuxer_list 0 none).2 k h with ⟨h1, _⟩ | ⟨_, desc, h2, h3⟩
  · cases h1
  · exact ⟨desc, by simpa using h2, h3⟩


theorem demux_open_descs_spec {P : Type} (c : demux_h) (cc : c_compiler)
    (sl : stream_layer) (null_priv : P)
    (opts : Nat) (params : Option Nat) (check_desc : Option Nat) (level : demux_check)
    (descs : List (demuxer_desc P)) :
    ∀ (n : Nat) (w : outside),
      ∃ ext,
        (demux_open_descs c cc sl null_priv opts params check_desc level n descs w).2.calls
          = w.calls ++ ext ∧
        first_success (level_candidates check_desc level n descs) (open_calls ext)
          (demux_open_descs c cc sl null_priv opts params check_desc level n descs w).1.isSome ∧
        ∀ (k : Nat) (d : demuxer P),
          (demux_open_descs c cc sl null_priv opts params check_desc level n descs w).1
            = some (k, d) →
          n ≤ k ∧ ∃ desc w0, descs[k - n]? = some desc ∧
            open_given_type c cc sl null_priv opts desc w0 params level
              = (some d,
                (demux_open_descs c cc sl null_priv opts params check_desc level n descs w).2) := by
  induction descs with
  | nil =>
    intro n w
    refine ⟨[], by simp [demux_open_descs], ?_, ?_⟩
    · simpa [demux_open_descs, level_candidates_nil, open_calls] using first_success_nil
    · intro k d h
      simp [demux_open_descs] at h
  | cons desc rest ih =>
    intro n w
    by_cases hc : check_desc = none ∨ check_desc = some n
    · obtain ⟨ext1, ret, h1, h2, h3, _⟩ :=
        open_given_type_calls c cc sl null_priv opts desc w params level
      rw [level_candidates_cons_pos check_desc level n desc rest hc]
      have hsingle := first_success_single desc.name level ret
      cases hres : open_given_type c cc sl null_priv opts desc w params level with
      | mk o w1 =>
        rw [hres] at h1 h3
        cases o with
        | some dm =>
          have hret : decide (0 ≤ ret) = true := by simpa using h3
          rw [hret] at hsingle
          have heq : demux_open_descs c cc sl null_priv opts params check_desc level n
              (desc :: rest) w = (some (n, dm), w1) := by
            simp only [demux_open_descs, hc, if_true, hres]
          rw [heq]
          refine ⟨ext1, h1, ?_, ?_⟩
          · rw [h2]
            exact first_success_extend _ _ _ hsingle
          · intro k d hk
            simp only [Option.some.injEq, Prod.mk.injEq] at hk
            obtain ⟨hk1, hk2⟩ := hk
            subst hk1
            subst hk2
            exact ⟨le_refl _, desc, w, by simp, hres⟩
        | none =>
          have hret : decide (0 ≤ ret) = false := by simpa using h3
          rw [hret] at hsingle
          have heq : demux_open_descs c cc sl null_priv opts params check_desc level n
              (desc :: rest) w
              = demux_open_descs c cc sl null_priv opts params check_desc level (n + 1) rest w1 := by
            simp only [demux_open_descs, hc, if_true, hres]
          rw [heq]
          obtain ⟨ext2, g1, g2, g3⟩ := ih (n + 1) w1
          refine ⟨ext1 ++ ext2, ?_, ?_, ?_⟩
          · rw [g1, h1, List.append_assoc]
          · rw [open_calls_append, h2]
            exact first_success_append _ _ _ _ _ hsingle g2
          · intro k d hk
            obtain ⟨q1, desc2, w0, q2, q3⟩ := g3 k d hk
            refine ⟨by omega, desc2, w0, ?_, q3⟩
            have : k - n = (k - (n + 1)) + 1 := by omega
            rw [this, List.getElem?_cons_succ]
            exact q2
    · rw [level_candidates_cons_neg check_desc level n desc rest hc]
      have heq : demux_open_descs c cc sl null_priv opts params check_desc level n
          (desc :: rest) w
          = demux_open_descs c cc sl null_priv opts params check_desc level (n + 1) rest w := by
        simp only [demux_open_descs, hc, if_false]
      rw [heq]
      obtain ⟨ext2, g1, g2, g3⟩ := ih (n + 1) w
      refine ⟨ext2, g1, g2, ?_⟩
      intro k d hk
      obtain ⟨q1, desc2, w0, q2, q3⟩ := g3 k d hk
      refine ⟨by omega, desc2, w0, ?_, q3⟩
      have : k - n = (k - (n + 1)) + 1 := by omega
      rw [this, List.getElem?_cons_succ]
      exact q2

theorem demux_open_passes_spec {P : Type} (c : demux_h) (cc : c_compiler)
    (sl : stream_layer) (null_priv : P)
    (opts : Nat) (params : Option Nat) (check_desc : Option Nat)
    (demuxer_list : List (demuxer_desc P)) (levels : List demux_check) :
    ∀ (w : outside),
      ∃ ext,
        (demux_open_passes c cc sl null_priv opts params check_desc demuxer_list levels w).2.calls
          = w.calls ++ ext ∧
        first_success (pass_candidates check_desc demuxer_list levels) (open_calls ext)
          (demux_open_passes c cc sl null_priv opts params check_desc demuxer_list
            levels w).1.isSome ∧
        ∀ (k : Nat) (d : demuxer P),
          (demux_open_passes c cc sl null_priv opts params check_desc demuxer_list levels w).1
            = some (k, d) →
          ∃ desc w0 level, level ∈ levels ∧ demuxer_list[k]? = some desc ∧
            open_given_type c cc sl null_priv opts desc w0 params level
              = (some d,
                (demux_open_passes c cc sl null_priv opts params check_desc demuxer_list
                  levels w).2) := by
  induction levels with
  | nil =>
    intro w
    refine ⟨[], by simp [demux_open_passes], ?_, ?_⟩
    · simpa [demux_open_passes, pass_candidates, open_calls] using first_success_nil
    · intro k d h
      simp [demux_open_passes] at h
  | cons level rest ih =>
    intro w
    obtain ⟨ext1, h1, h2, h3⟩ :=
      demux_open_descs_spec c cc sl null_priv opts params check_desc level demuxer_list 0 w
    cases hres : demux_open_descs c cc sl null_priv opts params check_desc level 0
        demuxer_list w with
    | mk o w1 =>
      rw [hres] at h1 h2 h3
      cases o with
      | some r =>
        have heq : demux_open_passes c cc sl null_priv opts params check_desc demuxer_list
            (level :: rest) w = (some r, w1) := by
          simp only [demux_open_passes, hres]
        rw [heq]
        refine ⟨ext1, h1, ?_, ?_⟩
        · exact first_success_extend _ _ _ h2
        · intro k d hk
          simp only [Option.some.injEq] at hk
          subst hk
          obtain ⟨_, desc, w0, q2, q3⟩ := h3 k d rfl
          exact ⟨desc, w0, level, by simp, by simpa using q2, q3⟩
      | none =>
        have heq : demux_open_passes c cc sl null_priv opts params check_desc demuxer_list
            (level :: rest) w
            = demux_open_passes c cc sl null_priv opts params check_desc demuxer_list rest w1 := by
          simp only [demux_open_passes, hres]
        rw [heq]
        obtain ⟨ext2, g1, g2, g3⟩ := ih w1
        refine ⟨ext1 ++ ext2, ?_, ?_, ?_⟩
        · rw [g1, h1, List.append_assoc]
        · rw [open_calls_append]
          exact first_success_append _ _ _ _ _ h2 g2
        · intro k d hk
          obtain ⟨desc, w0, lv, q1, q2, q3⟩ := g3 k d hk
          exact ⟨desc, w0, lv, List.mem_cons_of_mem _ q1, q2, q3⟩


theorem pass_candidates_normal {P : Type} (demuxer_list : List (demuxer_desc P)) :
    pass_candidates none demuxer_list d_normal
      = demuxer_list.map (fun desc => (desc.name, demux_check.DEMUX_CHECK_NORMAL)) ++
        demuxer_list.map (fun desc => (desc.name, demux_check.DEMUX_CHECK_UNSAFE)) := by
  simp [pass_candidates, d_normal, level_candidates_none]

theorem pass_candidates_single {P : Type} (demuxer_list : List (demuxer_desc P))
    (name : String) (k : Nat) (level : demux_check)
    (h : find_desc demuxer_list name = some k) :
    pass_candidates (some k) demuxer_list [level] = [(name, level)] := by
  obtain ⟨_, desc, h1, h2⟩ := find_desc_some demuxer_list name k h
  simp only [pass_candidates, List.append_nil]
  rw [level_candidates_some level k demuxer_list 0 desc (Nat.zero_le _) (by simpa using h1), h2]

theorem demux_open_probe {P : Type} (c : demux_h) (cc : c_compiler)
    (sl : stream_layer) (null_priv : P)
    (opts : Nat) (params : Option Nat) (check_desc : Option Nat)
    (demuxer_list : List (demuxer_desc P)) (levels : List demux_check) (w : outside) :
    ∃ ext,
      (demux_open_passes c cc sl null_priv opts params check_desc demuxer_list levels
        { w with
          stream := sl.stream_peek w.stream sl.STREAM_BUFFER_SIZE
          calls := w.calls ++ [ext_call.stream_peek sl.STREAM_BUFFER_SIZE] }).2.calls
        = w.calls ++ ext ∧
      first_success (pass_candidates check_desc demuxer_list levels) (open_calls ext)
        (demux_open_passes c cc sl null_priv opts params check_desc demuxer_list levels
          { w with
            stream := sl.stream_peek w.stream sl.STREAM_BUFFER_SIZE
            calls := w.calls ++ [ext_call.stream_peek sl.STREAM_BUFFER_SIZE] }).1.isSome ∧
      ∀ (k : Nat) (d : demuxer P),
        (demux_open_passes c cc sl null_priv opts params check_desc demuxer_list levels
          { w with
            stream := sl.stream_peek w.stream sl.STREAM_BUFFER_SIZE
            calls := w.calls ++ [ext_call.stream_peek sl.STREAM_BUFFER_SIZE] }).1
          = some (k, d) →
        ∃ desc w0 level, level ∈ levels ∧ demuxer_list[k]? = some desc ∧
          open_given_type c cc sl null_priv opts desc w0 params level
            = (some d,
              (demux_open_passes c cc sl null_priv opts params check_desc demuxer_list levels
                { w with
                  stream := sl.stream_peek w.stream sl.STREAM_BUFFER_SIZE
                  calls := w.calls ++ [ext_call.stream_peek sl.STREAM_BUFFER_SIZE] }).2) := by
  obtain ⟨ext, h1, h2, h3⟩ :=
    demux_open_passes_spec c cc sl null_priv opts params check_desc demuxer_list levels
      { w with
        stream := sl.stream_peek w.stream sl.STREAM_BUFFER_SIZE
        calls := w.calls ++ [ext_call.stream_peek sl.STREAM_BUFFER_SIZE] }
  refine ⟨[ext_call.stream_peek sl.STREAM_BUFFER_SIZE] ++ ext, ?_, ?_, h3⟩
  · rw [h1, List.append_assoc]
  · rw [open_calls_append]
    exact h2

theorem demux_open_core {P : Type} (c : demux_h) (cc : c_compiler)
    (sl : stream_layer) (null_priv : P)
    (demuxer_list : List (demuxer_desc P)) (w : outside) (force_format : Option String)
    (params : Option Nat) (opts : Nat) :
    ∃ ext,
      (demux_open c cc sl null_priv demuxer_list w force_format params opts).2.calls
        = w.calls ++ ext ∧
      first_success (probe_order demuxer_list (effective_format w.stream force_format))
        (open_calls ext)
        (demux_open c cc sl null_priv demuxer_list w force_format params opts).1.isSome ∧
      ∀ (k : Nat) (d : demuxer P),
        (demux_open c cc sl null_priv demuxer_list w force_format params opts).1 = some (k, d) →
        ∃ desc w0 level, demuxer_list[k]? = some desc ∧
          open_given_type c cc sl null_priv opts desc w0 params level
            = (some d, (demux_open c cc sl null_priv demuxer_list w force_format params opts).2) := by
  have hnormal := demux_open_probe c cc sl null_priv opts params none demuxer_list d_normal w
  rw [pass_candidates_normal] at hnormal
  cases heff : effective_format w.stream force_format with
  | none =>
    have heq : demux_open c cc sl null_priv demuxer_list w force_format params opts
        = demux_open_passes c cc sl null_priv opts params none demuxer_list d_normal
          { w with
            stream := sl.stream_peek w.stream sl.STREAM_BUFFER_SIZE
            calls := w.calls ++ [ext_call.stream_peek sl.STREAM_BUFFER_SIZE] } := by
      simp only [demux_open, heff]
    rw [heq]
    obtain ⟨ext, h1, h2, h3⟩ := hnormal
    refine ⟨ext, h1, h2, ?_⟩
    intro k d hk
    obtain ⟨desc, w0, level, _, q2, q3⟩ := h3 k d hk
    exact ⟨desc, w0, level, q2, q3⟩
  | some f =>
    by_cases hlen : f.length = 0
    · have heq : demux_open c cc sl null_priv demuxer_list w force_format params opts
          = demux_open_passes c cc sl null_priv opts params none demuxer_list d_normal
            { w with
              stream := sl.stream_peek w.stream sl.STREAM_BUFFER_SIZE
              calls := w.calls ++ [ext_call.stream_peek sl.STREAM_BUFFER_SIZE] } := by
        simp only [demux_open, heff, hlen, ne_eq, not_true_eq_false, if_false]
      rw [heq]
      obtain ⟨ext, h1, h2, h3⟩ := hnormal
      refine ⟨ext, h1, by simpa [probe_order, hlen] using h2, ?_⟩
      intro k d hk
      obtain ⟨desc, w0, level, _, q2, q3⟩ := h3 k d hk
      exact ⟨desc, w0, level, q2, q3⟩
    · by_cases hplus : f.data.head? = some '+'
      · cases hfind : find_desc demuxer_list (String.mk (f.data.drop 1)) with
        | none =>
          have heq : demux_open c cc sl null_priv demuxer_list w force_format params opts
              = (none, { w with msgs := w.msgs ++
                  [msg_line.demuxer_does_not_exist (String.mk (f.data.drop 1))] }) := by
            simp only [demux_open, heff, hlen, hplus, hfind, ne_eq, not_false_eq_true,
              if_true, decide_True]
          rw [heq]
          have hany := (find_desc_none demuxer_list _).mp hfind
          refine ⟨[], by simp, ?_, ?_⟩
          · have hp : probe_order demuxer_list (some f) = [] := by
              unfold probe_order
              simp only [hlen, hplus, hany, if_true, if_false, Bool.false_eq_true]
            rw [hp]
            exact first_success_nil
          · intro k d hk
            cases hk
        | some n =>
          have heq : demux_open c cc sl null_priv demuxer_list w force_format params opts
              = demux_open_passes c cc sl null_priv opts params (some n) demuxer_list d_force
                { w with
                  stream := sl.stream_peek w.stream sl.STREAM_BUFFER_SIZE
                  calls := w.calls ++ [ext_call.stream_peek sl.STREAM_BUFFER_SIZE] } := by
            simp only [demux_open, heff, hlen, hplus, hfind, ne_eq, not_false_eq_true,
              if_true, decide_True]
          rw [heq]
          have hany := (find_desc_some demuxer_list _ n hfind).1
          obtain ⟨ext, h1, h2, h3⟩ :=
            demux_open_probe c cc sl null_priv opts params (some n) demuxer_list d_force w
          rw [d_force, pass_candidates_single demuxer_list _ n _ hfind] at h2
          have hp : probe_order demuxer_list (some f) = [(String.mk (f.data.drop 1),
              demux_check.DEMUX_CHECK_FORCE)] := by
            unfold probe_order
            simp only [hlen, hplus, hany, if_true, if_false]
          rw [hp]
          refine ⟨ext, h1, h2, ?_⟩
          intro k d hk
          obtain ⟨desc, w0, level, _, q2, q3⟩ := h3 k d hk
          exact ⟨desc, w0, level, q2, q3⟩
      · cases hfind : find_desc demuxer_list f with
        | none =>
          have heq : demux_open c cc sl null_priv demuxer_list w force_format params opts
              = (none, { w with msgs := w.msgs ++ [msg_line.demuxer_does_not_exist f] }) := by
            simp only [demux_open, heff, hlen, hplus, hfind, ne_eq, not_false_eq_true,
              if_true, decide_False, if_false, Bool.false_eq_true]
          rw [heq]
          have hany := (find_desc_none demuxer_list _).mp hfind
          refine ⟨[], by simp, ?_, ?_⟩
          · have hp : probe_order demuxer_list (some f) = [] := by
              unfold probe_order
              simp only [hlen, hplus, hany, if_true, if_false, Bool.false_eq_true]
            rw [hp]
            exact first_success_nil
          · intro k d hk
            cases hk
        | some n =>
          have heq : demux_open c cc sl null_priv demuxer_list w force_format params opts
              = demux_open_passes c cc sl null_priv opts params (some n) demuxer_list d_request
                { w with
                  stream := sl.stream_peek w.stream sl.STREAM_BUFFER_SIZE
                  calls := w.calls ++ [ext_call.stream_peek sl.STREAM_BUFFER_SIZE] } := by
            simp only [demux_open, heff, hlen, hplus, hfind, ne_eq, not_false_eq_true,
              if_true, decide_False, if_false, Bool.false_eq_true]
          rw [heq]
          have hany := (find_desc_some demuxer_list _ n hfind).1
          obtain ⟨ext, h1, h2, h3⟩ :=
            demux_open_probe c cc sl null_priv opts params (some n) demuxer_list d_request w
          rw [d_request, pass_candidates_single demuxer_list _ n _ hfind] at h2
          have hp : probe_order demuxer_list (some f) = [(f,
              demux_check.DEMUX_CHECK_REQUEST)] := by
            unfold probe_order
            simp only [hlen, hplus, hany, if_true, if_false]
          rw [hp]
          refine ⟨ext, h1, h2, ?_⟩
          intro k d hk
          obtain ⟨desc, w0, level, _, q2, q3⟩ := h3 k d hk
          exact ⟨desc, w0, level, q2, q3⟩


theorem open_given_type_last {P : Type} (c : demux_h) (cc : c_compiler)
    (sl : stream_layer) (null_priv : P)
    (opts : Nat) (desc : demuxer_desc P) (w0 o : outside) (params : Option Nat)
    (level : demux_check) (d : demuxer P) (pre ext : List ext_call)
    (t : String × demux_check × Int)
    (hopen : open_given_type c cc sl null_priv opts desc w0 params level = (some d, o))
    (hcalls : o.calls = pre ++ ext) (hlast : (open_calls ext).getLast? = some t) :
    ∃ ret, t = (desc.name, level, ret) ∧ 0 ≤ ret ∧ d.calls = o.calls := by
  obtain ⟨ext0, ret0, h1, h2, h3, h4⟩ :=
    open_given_type_calls c cc sl null_priv opts desc w0 params level
  rw [hopen] at h1 h3 h4
  refine ⟨ret0, ?_, h3.mp rfl, h4 d rfl⟩
  have h5 : open_calls (pre ++ ext) = open_calls (w0.calls ++ ext0) := by
    rw [← hcalls, ← h1]
  rw [open_calls_append, open_calls_append, h2] at h5
  have h6 := congrArg List.getLast? h5
  simp only [List.getLast?_append, hlast, List.getLast?_singleton] at h6
  simpa [Option.or] using h6

/-- C24: `packet_queue_flush` leaves every queue empty: afterwards
`packet_queue_is_empty` is true, the packet and byte counts are zero, the EOF
flag is false and `packet_queue_get` returns `NULL` (and changes nothing).
`demux_flush` does this to the queue of every track of the demuxer, leaves
the rest of each track and the number of tracks as they were, and sets
`warned_queue_overflow` to false. -/
theorem packet_queue_flush_spec {P : Type} (pq : packet_queue) (d : demuxer P) :
    packet_queue_is_empty (packet_queue_flush pq) = true ∧
    (packet_queue_flush pq).packs = 0 ∧
    (packet_queue_flush pq).bytes = 0 ∧
    packet_queue_is_eof (packet_queue_flush pq) = false ∧
    packet_queue_get (packet_queue_flush pq) = (none, packet_queue_flush pq) ∧
    (demux_flush d).streams.length = d.streams.length ∧
    (∀ (n : Nat) (sh : sh_stream), d.streams[n]? = some sh →
      (demux_flush d).streams[n]? = some { sh with pq := packet_queue_flush sh.pq }) ∧
    (∀ sh ∈ (demux_flush d).streams,
      packet_queue_is_empty sh.pq = true ∧ sh.pq.packs = 0 ∧ sh.pq.bytes = 0 ∧
      packet_queue_is_eof sh.pq = false ∧ (packet_queue_get sh.pq).1 = none) ∧
    (demux_flush d).warned_queue_overflow = false ∧
    (demux_flush d).priv = d.priv ∧ (demux_flush d).stream_pts = d.stream_pts ∧
    (demux_flush d).filepos = d.filepos ∧ (demux_flush d).calls = d.calls := by
  refine ⟨rfl, rfl, rfl, rfl, rfl, ?_, ?_, ?_, rfl, rfl, rfl, rfl, rfl⟩
  · simp [demux_flush]
  · intro n sh h
    simp [demux_flush, h]
  · intro sh h
    simp only [demux_flush, List.mem_map] at h
    obtain ⟨sh0, _, rfl⟩ := h
    exact ⟨rfl, rfl, rfl, rfl, rfl⟩

/-- Witness of C24: the track of `sample_loaded_demuxer`, which has two
packets queued, has an empty queue after `demux_flush`. -/
theorem packet_queue_flush_spec_witness :
    (∃ sh, sample_loaded_demuxer.streams[0]? = some sh ∧ sh.pq.packs = 2) ∧
    (demux_flush sample_loaded_demuxer).streams[0]?
      = some { sample_track stream_type.STREAM_AUDIO 0 true with
               pq := packet_queue_create } :=
  ⟨⟨_, rfl, rfl⟩,
   (packet_queue_flush_spec packet_queue_create sample_loaded_demuxer).2.2.2.2.2.2.1 0
     { sample_track stream_type.STREAM_AUDIO 0 true with
       pq := packet_queue_add_all packet_queue_create (sample_packets 2) } rfl⟩


/-! ## Queue bookkeeping -/

theorem pq_counted_create : pq_counted packet_queue_create := by
  refine ⟨rfl, rfl, rfl⟩

theorem pq_counted_add (pq : packet_queue) (dp : demux_packet) (h : pq_counted pq) :
    pq_counted (packet_queue_add pq dp) := by
  obtain ⟨h1, h2, h3⟩ := h
  have hh := packet_queue_add_head_of_linked pq dp h3
  refine ⟨?_, ?_, pq_linked_add pq dp h3⟩
  · rw [hh]
    simp [packet_queue_add, h1]
  · unfold pq_total_len
    rw [hh]
    simp only [packet_queue_add, h2, pq_total_len, List.map_append, List.sum_append,
      List.map_cons, List.map_nil, List.sum_cons, List.sum_nil, SIZE_MODULUS]
    omega

theorem pq_counted_get (pq : packet_queue) (h : pq_counted pq) :
    pq_counted (packet_queue_get pq).2 := by
  obtain ⟨h1, h2, h3⟩ := h
  unfold pq_linked at h3
  cases hh : pq.head with
  | nil =>
    have : packet_queue_get pq = (none, pq) := by simp [packet_queue_get, hh]
    rw [this]
    exact ⟨h1, h2, h3⟩
  | cons dp rest =>
    simp only [pq_total_len, hh, List.map_cons, List.sum_cons, List.length_cons] at h1 h2 h3
    refine ⟨?_, ?_, ?_⟩
    · simp only [packet_queue_get, hh]
      rw [h1]
      push_cast
      ring
    · simp only [packet_queue_get, hh, pq_total_len, h2, SIZE_MODULUS]
      omega
    · simp only [packet_queue_get, hh, pq_linked]
      cases rest with
      | nil => simp
      | cons b l =>
        simp only [List.isEmpty_cons, Bool.false_eq_true, if_false, h3]
        simp [List.getLast?_cons_cons]

theorem pq_counted_step (pq : packet_queue) (op : pq_op) (h : pq_counted pq) :
    pq_counted (pq_step pq op) := by
  cases op with
  | add dp => exact pq_counted_add pq dp h
  | get => exact pq_counted_get pq h
  | set_eof state => exact h
  | flush => exact pq_counted_create

theorem pq_counted_run (ops : List pq_op) :
    ∀ pq : packet_queue, pq_counted pq → pq_counted (pq_run pq ops) := by
  induction ops with
  | nil => intro pq h; simpa [pq_run] using h
  | cons op rest ih =>
    intro pq h
    have := ih (pq_step pq op) (pq_counted_step pq op h)
    simpa [pq_run] using this


/-- C30: in every state reached from `packet_queue_create` by calls of
`packet_queue_add`, `packet_queue_get`, `packet_queue_set_eof` and
`packet_queue_flush`, `packs` is the number of packets linked from `head`;
`bytes` is the sum of their `len` fields (as a `size_t`, so modulo `2^64`,
and the plain sum whenever that is below `2^64`); `head` is `NULL` iff `tail`
is `NULL` iff `packs` is 0; `tail` is the last packet linked from `head`;
`packet_queue_add_size` adds these two totals to its accumulators; and
`packet_queue_is_empty` is true iff `packs` is 0. -/
theorem packet_queue_bookkeeping (ops : List pq_op) :
    (pq_run packet_queue_create ops).packs
      = ((pq_run packet_queue_create ops).head.length : Int) ∧
    (pq_run packet_queue_create ops).bytes
      = pq_total_len (pq_run packet_queue_create ops) % SIZE_MODULUS ∧
    (pq_total_len (pq_run packet_queue_create ops) < SIZE_MODULUS →
      (pq_run packet_queue_create ops).bytes
        = pq_total_len (pq_run packet_queue_create ops)) ∧
    ((pq_run packet_queue_create ops).head = [] ↔
      (pq_run packet_queue_create ops).tail = none) ∧
    ((pq_run packet_queue_create ops).tail = none ↔
      (pq_run packet_queue_create ops).packs = 0) ∧
    (pq_run packet_queue_create ops).tail
      = (pq_run packet_queue_create ops).head.getLast? ∧
    (∀ (size : Nat) (count : Int),
      packet_queue_add_size (pq_run packet_queue_create ops) size count
        = ((size + pq_total_len (pq_run packet_queue_create ops)) % SIZE_MODULUS,
           count + ((pq_run packet_queue_create ops).head.length : Int))) ∧
    (packet_queue_is_empty (pq_run packet_queue_create ops) = true ↔
      (pq_run packet_queue_create ops).packs = 0) := by
  obtain ⟨h1, h2, h3⟩ := pq_counted_run ops packet_queue_create pq_counted_create
  unfold pq_linked at h3
  have hhead : (pq_run packet_queue_create ops).head = [] ↔
      (pq_run packet_queue_create ops).tail = none := by
    rw [h3]
    cases (pq_run packet_queue_create ops).head with
    | nil => simp
    | cons a l => simp [List.getLast?_eq_none_iff]
  have hpacks : (pq_run packet_queue_create ops).head = [] ↔
      (pq_run packet_queue_create ops).packs = 0 := by
    rw [h1]
    cases (pq_run packet_queue_create ops).head with
    | nil => simp
    | cons a l =>
      simp only [List.length_cons, reduceCtorEq, false_iff]
      omega
  refine ⟨h1, h2, ?_, hhead, ?_, h3, ?_, ?_⟩
  · intro hlt
    rw [h2, Nat.mod_eq_of_lt hlt]
  · rw [← hhead, hpacks]
  · intro size count
    simp only [packet_queue_add_size, h1, h2, Nat.add_mod_mod]
  · rw [← hpacks]
    simp [packet_queue_is_empty]

/-- Witness of C30: after two pushes, a pop and `set_eof(true)` one packet of
16 bytes is queued and the counters say so. -/
theorem packet_queue_bookkeeping_witness :
    pq_total_len (pq_run packet_queue_create
      [pq_op.add (sample_packet 0), pq_op.add (sample_packet 1), pq_op.get,
       pq_op.set_eof true]) < SIZE_MODULUS ∧
    (pq_run packet_queue_create
      [pq_op.add (sample_packet 0), pq_op.add (sample_packet 1), pq_op.get,
       pq_op.set_eof true]).bytes = 16 ∧
    (pq_run packet_queue_create
      [pq_op.add (sample_packet 0), pq_op.add (sample_packet 1), pq_op.get,
       pq_op.set_eof true]).packs = 1 :=
  ⟨by decide,
   (packet_queue_bookkeeping
      [pq_op.add (sample_packet 0), pq_op.add (sample_packet 1), pq_op.get,
       pq_op.set_eof true]).2.2.1 (by decide),
   (packet_queue_bookkeeping
      [pq_op.add (sample_packet 0), pq_op.add (sample_packet 1), pq_op.get,
       pq_op.set_eof true]).1⟩


/-! ## Chapter seeks past the end of the table -/

/-- C26, counterexample: on the table of five chapters `demuxer_seek_chapter(10)`
returns -1 and leaves `seek_pts` (here 7) as it was; it does not select
chapter `max(0, min(10, 5 - 1)) = 4`, whatever the value of `seek_pts` and the
state of the demuxer afterwards. -/
theorem demuxer_seek_chapter_clamp_counterexample :
    sample_chapter_demuxer.chapters.length = 5 ∧
    (max 0 (min 10 (5 - 1)) : Int) = 4 ∧
    demuxer_seek_chapter sample_limits sample_stream_layer sample_control_desc
        sample_chapter_demuxer 10 7
      = some (-1, 7, sample_chapter_demuxer) ∧
    ¬ (∃ (pts : Rat) (d : demuxer Unit),
      demuxer_seek_chapter sample_limits sample_stream_layer sample_control_desc
          sample_chapter_demuxer 10 7
        = some (max 0 (min 10 (5 - 1)), pts, d)) := by
  have h : demuxer_seek_chapter sample_limits sample_stream_layer sample_control_desc
      sample_chapter_demuxer 10 7 = some (-1, 7, sample_chapter_demuxer) := by
    have hlen : sample_chapter_demuxer.chapters.length = 5 := rfl
    simp [demuxer_seek_chapter, hlen, arg_int]
  refine ⟨rfl, by decide, h, ?_⟩
  rintro ⟨pts, d, h2⟩
  rw [h] at h2
  have h3 := congrArg (fun r => r.map (fun t => t.1)) h2
  simp at h3

/-- C26, amended: on a demuxer with a non-empty table of `count` chapters,
`demuxer_seek_chapter(n)` with `n < count` selects chapter `max(0, n)`: it
returns that index and sets `seek_pts` to that chapter's start time in
seconds; with `n >= count` it returns -1 and leaves `seek_pts` as it was. The
demuxer is unchanged in both cases. The start time in seconds is the `double`
the code computes, the quotient `start / 1e9` of `double` arithmetic; for a
start below `2^53` nanoseconds it is the `double` nearest to the exact
quotient. -/
theorem demuxer_seek_chapter_clamp {P : Type} (c : demux_h) (sl : stream_layer)
    (desc : demuxer_desc P) (d : demuxer P) (n : Int) (seek_pts : Rat)
    (hne : d.chapters ≠ []) :
    (n < d.chapters.length → ∃ ch, d.chapters[(max 0 n).toNat]? = some ch ∧
      demuxer_seek_chapter c sl desc d n seek_pts
        = some (max 0 n, double_div (uint64_to_double ch.start) 1000000000, d)) ∧
    ((d.chapters.length : Int) ≤ n →
      demuxer_seek_chapter c sl desc d n seek_pts = some (-1, seek_pts, d)) ∧
    (∀ ch ∈ d.chapters, ch.start < 9007199254740992 →
      double_div (uint64_to_double ch.start) 1000000000
        = round_double ((ch.start : Rat) / 1000000000)) := by
  have hlen : d.chapters.length ≠ 0 := by
    intro h; exact hne (List.length_eq_zero.mp h)
  refine ⟨?_, ?_, fun ch _ h => double_div_start ch.start h⟩
  · intro hn
    have hi : (max 0 n).toNat < d.chapters.length := by omega
    refine ⟨d.chapters[(max 0 n).toNat], List.getElem?_eq_getElem hi, ?_⟩
    have h1 : ¬ (n ≥ (d.chapters.length : Int)) := by omega
    by_cases h2 : n < 0
    · have hm : max 0 n = 0 := by omega
      have h0 : 0 < d.chapters.length := by omega
      simp [demuxer_seek_chapter, hlen, arg_int, h1, h2, hm, List.getElem?_eq_getElem h0]
    · have hm : max 0 n = n := by omega
      have hi' : n.toNat < d.chapters.length := by omega
      simp [demuxer_seek_chapter, hlen, arg_int, h1, h2, hm, List.getElem?_eq_getElem hi']
  · intro hn
    simp [demuxer_seek_chapter, hlen, arg_int, hn]

/-- Witness of the amended C26: on the five-chapter table `seek_chapter(-3)`
gives chapter `max(0, -3) = 0` with its start time 0, and `seek_chapter(5)`
gives -1 and keeps `seek_pts`. -/
theorem demuxer_seek_chapter_clamp_witness :
    sample_chapter_demuxer.chapters ≠ [] ∧
    (∃ ch, sample_chapter_demuxer.chapters[(max 0 (-3) : Int).toNat]? = some ch ∧
      demuxer_seek_chapter sample_limits sample_stream_layer sample_control_desc
          sample_chapter_demuxer (-3) 7
        = some (max 0 (-3), double_div (uint64_to_double ch.start) 1000000000,
            sample_chapter_demuxer)) ∧
    demuxer_seek_chapter sample_limits sample_stream_layer sample_control_desc
        sample_chapter_demuxer (-3) 7
      = some (0, 0, sample_chapter_demuxer) ∧
    demuxer_seek_chapter sample_limits sample_stream_layer sample_control_desc
        sample_chapter_demuxer 5 7
      = some (-1, 7, sample_chapter_demuxer) := by
  have h1 := (demuxer_seek_chapter_clamp sample_limits sample_stream_layer sample_control_desc
      sample_chapter_demuxer (-3) 7 sample_chapters_ne_nil).1 (by decide)
  have h2 := (demuxer_seek_chapter_clamp sample_limits sample_stream_layer sample_control_desc
      sample_chapter_demuxer 5 7 sample_chapters_ne_nil).2.1 (by decide)
  refine ⟨sample_chapters_ne_nil, h1, ?_, h2⟩
  obtain ⟨ch, g, k⟩ := h1
  have hm : (max 0 (-3) : Int) = 0 := by decide
  rw [hm] at g k
  have e0 : ch = sample_chapter 0 := by
    have : sample_chapter_demuxer.chapters[(0 : Int).toNat]? = some (sample_chapter 0) := rfl
    rw [g] at this; exact Option.some.inj this
  subst e0
  have s0 : (sample_chapter 0).start = 0 := rfl
  rw [s0, seek_pts_of_0] at k
  exact k


/-! ## Seeking in a seekable demuxer -/

theorem demux_seek_dmx_spec {P : Type} (desc : demuxer_desc P) (d : demuxer P)
    (rel_seek_secs : Rat) (flags : Nat) :
    (demux_seek_dmx desc d rel_seek_secs flags).1 = 1 ∧
    ∃ ext, (demux_seek_dmx desc d rel_seek_secs flags).2.calls = d.calls ++ ext ∧
      count_seek ext = (if desc.seek.isSome then 1 else 0) ∧ count_resync ext = 0 := by
  unfold demux_seek_dmx
  cases desc.seek with
  | none => exact ⟨rfl, [], by simp, rfl, rfl⟩
  | some f => exact ⟨rfl, [ext_call.desc_seek rel_seek_secs flags], rfl, rfl, rfl⟩

theorem demux_control_resync_spec {P : Type} (c : demux_h) (desc : demuxer_desc P)
    (d : demuxer P) :
    ∃ ext, (demux_control c desc d demuxer_ctrl.DEMUXER_CTRL_RESYNC ctrl_arg.null).2.2.calls
        = d.calls ++ ext ∧
      count_resync ext = (if desc.control.isSome then 1 else 0) ∧ count_seek ext = 0 := by
  unfold demux_control
  cases desc.control with
  | none => exact ⟨[], by simp, rfl, rfl⟩
  | some f => exact ⟨[ext_call.desc_control demuxer_ctrl.DEMUXER_CTRL_RESYNC], rfl, rfl, rfl⟩

theorem count_seek_append (a b : List ext_call) :
    count_seek (a ++ b) = count_seek a + count_seek b := by
  simp [count_seek, List.countP_append]

theorem count_resync_append (a b : List ext_call) :
    count_resync (a ++ b) = count_resync a + count_resync b := by
  simp [count_resync, List.countP_append]

theorem stream_control_keeps {P : Type} (sl : stream_layer) (d : demuxer P) (cmd : stream_ctrl)
    (arg : ctrl_arg) :
    (stream_control sl d cmd arg).2.2.streams = d.streams ∧
    (stream_control sl d cmd arg).2.2.warned_queue_overflow = d.warned_queue_overflow ∧
    (stream_control sl d cmd arg).2.2.priv = d.priv ∧
    (stream_control sl d cmd arg).2.2.calls = d.calls ++ [ext_call.stream_control cmd] ∧
    (stream_control sl d cmd arg).1 = (sl.stream_control d.stream cmd arg).1 ∧
    (stream_control sl d cmd arg).2.1 = (sl.stream_control d.stream cmd arg).2.1 ∧
    (stream_control sl d cmd arg).2.2.stream = (sl.stream_control d.stream cmd arg).2.2 :=
  ⟨rfl, rfl, rfl, rfl, rfl, rfl, rfl⟩

theorem demux_seek_shape {P : Type} (c : demux_h) (sl : stream_layer) (desc : demuxer_desc P)
    (d : demuxer P) (rel_seek_secs : Rat) (flags : Nat) (hs : d.seekable = true)
    (hn : ¬ (rel_seek_secs = MP_NOPTS_VALUE ∧ flags &&& c.SEEK_ABSOLUTE ≠ 0)) :
    ∃ D : demuxer P, D.streams = (demux_flush d).streams ∧ D.warned_queue_overflow = false ∧
      D.priv = d.priv ∧
      (∃ e0, D.calls = d.calls ++ e0 ∧ count_seek e0 = 0 ∧ count_resync e0 = 0) ∧
      demux_seek c sl desc d rel_seek_secs flags
        = if stream_takes_seek c sl d rel_seek_secs flags then
            (1, (demux_control c desc D demuxer_ctrl.DEMUXER_CTRL_RESYNC ctrl_arg.null).2.2)
          else demux_seek_dmx desc D rel_seek_secs flags := by
  have hflush : (demux_flush d).stream = d.stream := rfl
  have hpts : (demux_flush d).stream_pts = d.stream_pts := rfl
  by_cases hm : sl.stream_manages_timeline d.stream = true
  · by_cases habs : flags &&& c.SEEK_ABSOLUTE ≠ 0
    · by_cases hfac : flags &&& c.SEEK_FACTOR ≠ 0
      · by_cases h1 : (sl.stream_control d.stream stream_ctrl.STREAM_CTRL_GET_TIME_LENGTH
            (ctrl_arg.double 0)).1 = sl.STREAM_UNSUPPORTED
        · refine ⟨(stream_control sl (demux_flush d) stream_ctrl.STREAM_CTRL_GET_TIME_LENGTH
            (ctrl_arg.double 0)).2.2, rfl, rfl, rfl, ⟨_, rfl, rfl, rfl⟩, ?_⟩
          unfold demux_seek
          rw [if_neg (by simp [hs]), if_neg hn]
          simp [stream_takes_seek, hs, hn, hm, habs, hfac, h1, hflush,
            stream_control]
        · refine ⟨(stream_control sl (stream_control sl (demux_flush d)
              stream_ctrl.STREAM_CTRL_GET_TIME_LENGTH (ctrl_arg.double 0)).2.2
              stream_ctrl.STREAM_CTRL_SEEK_TO_TIME
              (ctrl_arg.double (arg_double (sl.stream_control d.stream
                stream_ctrl.STREAM_CTRL_GET_TIME_LENGTH (ctrl_arg.double 0)).2.1 0
                  * rel_seek_secs))).2.2,
            rfl, rfl, rfl, ⟨[ext_call.stream_control stream_ctrl.STREAM_CTRL_GET_TIME_LENGTH,
                ext_call.stream_control stream_ctrl.STREAM_CTRL_SEEK_TO_TIME],
              by simp [stream_control, demux_flush], rfl, rfl⟩, ?_⟩
          by_cases h2 : (sl.stream_control (sl.stream_control d.stream
              stream_ctrl.STREAM_CTRL_GET_TIME_LENGTH (ctrl_arg.double 0)).2.2
              stream_ctrl.STREAM_CTRL_SEEK_TO_TIME
              (ctrl_arg.double (arg_double (sl.stream_control d.stream
                stream_ctrl.STREAM_CTRL_GET_TIME_LENGTH (ctrl_arg.double 0)).2.1 0
                  * rel_seek_secs))).1 = sl.STREAM_UNSUPPORTED
          · unfold demux_seek
            rw [if_neg (by simp [hs]), if_neg hn]
            simp [demux_seek_to_time, stream_takes_seek, hs, hn, hm, habs, hfac,
              h1, h2, hflush, stream_control]
          · unfold demux_seek
            rw [if_neg (by simp [hs]), if_neg hn]
            simp [demux_seek_to_time, stream_takes_seek, hs, hn, hm, habs, hfac,
              h1, h2, hflush, stream_control]
      · refine ⟨(stream_control sl (demux_flush d) stream_ctrl.STREAM_CTRL_SEEK_TO_TIME
            (ctrl_arg.double rel_seek_secs)).2.2,
          rfl, rfl, rfl, ⟨_, rfl, rfl, rfl⟩, ?_⟩
        by_cases h2 : (sl.stream_control d.stream stream_ctrl.STREAM_CTRL_SEEK_TO_TIME
            (ctrl_arg.double rel_seek_secs)).1 = sl.STREAM_UNSUPPORTED
        · unfold demux_seek
          rw [if_neg (by simp [hs]), if_neg hn]
          simp [demux_seek_to_time, stream_takes_seek, hs, hn, hm, habs, hfac,
            h2, hflush, stream_control]
        · unfold demux_seek
          rw [if_neg (by simp [hs]), if_neg hn]
          simp [demux_seek_to_time, stream_takes_seek, hs, hn, hm, habs, hfac,
            h2, hflush, stream_control]
    · by_cases hp : d.stream_pts = MP_NOPTS_VALUE
      · refine ⟨demux_flush d, rfl, rfl, rfl, ⟨[], by simp [demux_flush], rfl, rfl⟩, ?_⟩
        unfold demux_seek
        rw [if_neg (by simp [hs]), if_neg hn]
        simp [stream_takes_seek, hs, hn, hm, habs, hp, hflush, hpts]
      · by_cases hfac : flags &&& c.SEEK_FACTOR ≠ 0
        · by_cases h1 : (sl.stream_control d.stream stream_ctrl.STREAM_CTRL_GET_TIME_LENGTH
              (ctrl_arg.double 0)).1 = sl.STREAM_UNSUPPORTED
          · refine ⟨(stream_control sl (demux_flush d) stream_ctrl.STREAM_CTRL_GET_TIME_LENGTH
              (ctrl_arg.double 0)).2.2, rfl, rfl, rfl, ⟨_, rfl, rfl, rfl⟩, ?_⟩
            unfold demux_seek
            rw [if_neg (by simp [hs]), if_neg hn]
            simp [stream_takes_seek, hs, hn, hm, habs, hp, hfac, h1, hflush, hpts,
              stream_control]
          · refine ⟨(stream_control sl (stream_control sl (demux_flush d)
                stream_ctrl.STREAM_CTRL_GET_TIME_LENGTH (ctrl_arg.double 0)).2.2
                stream_ctrl.STREAM_CTRL_SEEK_TO_TIME
                (ctrl_arg.double (d.stream_pts + arg_double (sl.stream_control d.stream
                  stream_ctrl.STREAM_CTRL_GET_TIME_LENGTH (ctrl_arg.double 0)).2.1 0
                    * rel_seek_secs))).2.2,
              rfl, rfl, rfl, ⟨[ext_call.stream_control stream_ctrl.STREAM_CTRL_GET_TIME_LENGTH,
                ext_call.stream_control stream_ctrl.STREAM_CTRL_SEEK_TO_TIME],
              by simp [stream_control, demux_flush], rfl, rfl⟩, ?_⟩
            by_cases h2 : (sl.stream_control (sl.stream_control d.stream
                stream_ctrl.STREAM_CTRL_GET_TIME_LENGTH (ctrl_arg.double 0)).2.2
                stream_ctrl.STREAM_CTRL_SEEK_TO_TIME
                (ctrl_arg.double (d.stream_pts + arg_double (sl.stream_control d.stream
                  stream_ctrl.STREAM_CTRL_GET_TIME_LENGTH (ctrl_arg.double 0)).2.1 0
                    * rel_seek_secs))).1 = sl.STREAM_UNSUPPORTED
            · unfold demux_seek
              rw [if_neg (by simp [hs]), if_neg hn]
              simp [demux_seek_to_time, stream_takes_seek, hs, hn, hm, habs, hp,
                hfac, h1, h2, hflush, hpts, stream_control]
            · unfold demux_seek
              rw [if_neg (by simp [hs]), if_neg hn]
              simp [demux_seek_to_time, stream_takes_seek, hs, hn, hm, habs, hp,
                hfac, h1, h2, hflush, hpts, stream_control]
        · refine ⟨(stream_control sl (demux_flush d) stream_ctrl.STREAM_CTRL_SEEK_TO_TIME
              (ctrl_arg.double (d.stream_pts + rel_seek_secs))).2.2,
            rfl, rfl, rfl, ⟨_, rfl, rfl, rfl⟩, ?_⟩
          by_cases h2 : (sl.stream_control d.stream stream_ctrl.STREAM_CTRL_SEEK_TO_TIME
              (ctrl_arg.double (d.stream_pts + rel_seek_secs))).1 = sl.STREAM_UNSUPPORTED
          · unfold demux_seek
            rw [if_neg (by simp [hs]), if_neg hn]
            simp [demux_seek_to_time, stream_takes_seek, hs, hn, hm, habs, hp,
              hfac, h2, hflush, hpts, stream_control]
          · unfold demux_seek
            rw [if_neg (by simp [hs]), if_neg hn]
            simp [demux_seek_to_time, stream_takes_seek, hs, hn, hm, habs, hp,
              hfac, h2, hflush, hpts, stream_control]
  · refine ⟨demux_flush d, rfl, rfl, rfl, ⟨[], by simp [demux_flush], rfl, rfl⟩, ?_⟩
    unfold demux_seek
    rw [if_neg (by simp [hs]), if_neg hn]
    simp [stream_takes_seek, hs, hn, hm, hflush]


theorem eof_only_if_empty_set_pq {P : Type} (d : demuxer P) (i : Nat) (pq : packet_queue)
    (h : eof_only_if_empty d) (hpq : pq.eof = true → pq.head = []) :
    eof_only_if_empty (set_pq d i pq) := by
  intro j sh hj he
  by_cases hji : j = i
  · subst hji
    cases hd : d.streams[j]? with
    | none => simp [set_pq, hd] at hj
    | some sh0 =>
      rw [set_pq_getElem?_eq d j sh0 pq hd] at hj
      simp only [Option.some.injEq] at hj
      subst hj
      exact hpq he
  · rw [set_pq_getElem?_ne d i j pq hji] at hj
    exact h j sh hj he

theorem eof_only_if_empty_msgs {P : Type} (d : demuxer P) (m : List msg_line)
    (h : eof_only_if_empty d) : eof_only_if_empty { d with msgs := m } := h

theorem ds_get_packets_eof_spec {P : Type} (d : demuxer P) (i : Nat) (sh : sh_stream)
    (hi : d.streams[i]? = some sh) (h : eof_only_if_empty d) :
    eof_only_if_empty (ds_get_packets_eof d i sh) ∧
    (ds_get_packets_eof d i sh).priv = d.priv ∧
    (ds_get_packets_eof d i sh).streams[i]?
      = some { sh with pq := packet_queue_set_eof sh.pq true } := by
  refine ⟨?_, rfl, ?_⟩
  · unfold ds_get_packets_eof
    apply eof_only_if_empty_set_pq _ _ _ (eof_only_if_empty_msgs d _ h)
    intro he
    simpa [packet_queue_set_eof] using he
  · unfold ds_get_packets_eof
    exact set_pq_getElem?_eq _ i sh _ hi

theorem demux_check_queue_full_eof {P : Type} (c : demux_h) (d : demuxer P)
    (h : eof_only_if_empty d) : eof_only_if_empty (demux_check_queue_full c d).2 := by
  intro j sh hj he
  rw [(demux_check_queue_full_streams c d).1] at hj
  exact h j sh hj he

theorem demux_fill_buffer_eof {P : Type} (desc : demuxer_desc P) (d : demuxer P)
    (hkeep : fill_buffer_keeps_eof desc) (h : eof_only_if_empty d) :
    eof_only_if_empty (demux_fill_buffer desc d).2 := by
  unfold demux_fill_buffer
  cases hf : desc.fill_buffer with
  | none => exact h
  | some f => exact hkeep f hf d h

theorem ds_get_packets_loop_eof {P : Type} (c : demux_h) (desc : demuxer_desc P) (i : Nat)
    (hkeep : fill_buffer_keeps_eof desc) :
    ∀ (fuel : Nat) (d d' : demuxer P), eof_only_if_empty d →
      ds_get_packets_loop c desc i fuel d = some d' →
      eof_only_if_empty d' ∧
      ∃ sh', d'.streams[i]? = some sh' ∧ (sh'.pq.head = [] → sh'.pq.eof = true) := by
  intro fuel
  induction fuel with
  | zero => intro d d' _ h; simp [ds_get_packets_loop] at h
  | succ fuel ih =>
    intro d d' hinv h
    unfold ds_get_packets_loop at h
    cases hi : d.streams[i]? with
    | none => simp [hi] at h
    | some sh =>
      simp only [hi] at h
      by_cases hne : packet_queue_is_empty sh.pq = true
      · simp only [hne, Bool.not_true, Bool.false_eq_true, if_false] at h
        have hfull := demux_check_queue_full_eof c d hinv
        by_cases hf : (demux_check_queue_full c d).1 = true
        · simp only [hf, if_true] at h
          cases hi1 : (demux_check_queue_full c d).2.streams[i]? with
          | none => simp [hi1] at h
          | some sh1 =>
            simp only [hi1, Option.some.injEq] at h
            subst h
            obtain ⟨g1, _, g3⟩ := ds_get_packets_eof_spec _ i sh1 hi1 hfull
            refine ⟨g1, _, g3, ?_⟩
            intro hh
            simpa [packet_queue_set_eof] using hh
        · simp only [hf, Bool.false_eq_true, if_false] at h
          have hfill := demux_fill_buffer_eof desc _ hkeep hfull
          by_cases hr : (demux_fill_buffer desc (demux_check_queue_full c d).2).1 = 0
          · simp only [hr, if_true] at h
            cases hi1 : (demux_fill_buffer desc (demux_check_queue_full c d).2).2.streams[i]? with
            | none => simp [hi1] at h
            | some sh1 =>
              simp only [hi1, Option.some.injEq] at h
              subst h
              obtain ⟨g1, _, g3⟩ := ds_get_packets_eof_spec _ i sh1 hi1 hfill
              refine ⟨g1, _, g3, ?_⟩
              intro hh
              simpa [packet_queue_set_eof] using hh
          · simp only [hr, if_false] at h
            exact ih _ d' hfill h
      · simp only [hne, Bool.not_false, if_true, Option.some.injEq] at h
        subst h
        refine ⟨hinv, sh, hi, ?_⟩
        intro hh
        simp [packet_queue_is_empty, hh] at hne


theorem demux_fill_buffer_log {P : Type} (desc : demuxer_desc P) (d : demuxer P)
    (log : P → List (List sh_stream)) (hlog : fill_buffer_logged desc log) :
    (desc.fill_buffer.isSome = true →
      log (demux_fill_buffer desc d).2.priv = log d.priv ++ [d.streams]) ∧
    (desc.fill_buffer = none → demux_fill_buffer desc d = (0, d)) := by
  unfold demux_fill_buffer
  cases hf : desc.fill_buffer with
  | none => exact ⟨fun h => (by cases h), fun _ => rfl⟩
  | some f => exact ⟨fun _ => hlog f hf d, fun h => (by cases h)⟩

theorem ds_get_packets_loop_log {P : Type} (c : demux_h) (desc : demuxer_desc P) (i : Nat)
    (log : P → List (List sh_stream)) (hlog : fill_buffer_logged desc log) :
    ∀ (fuel : Nat) (d d' : demuxer P),
      ds_get_packets_loop c desc i fuel d = some d' →
      ∃ ext, log d'.priv = log d.priv ++ ext ∧
        ∀ s ∈ ext, (∃ sh, s[i]? = some sh ∧ packet_queue_is_empty sh.pq = true) ∧
          s.any (queue_over_limit c) = false := by
  intro fuel
  induction fuel with
  | zero => intro d d' h; simp [ds_get_packets_loop] at h
  | succ fuel ih =>
    intro d d' h
    unfold ds_get_packets_loop at h
    cases hi : d.streams[i]? with
    | none => simp [hi] at h
    | some sh =>
      simp only [hi] at h
      by_cases hne : packet_queue_is_empty sh.pq = true
      · simp only [hne, Bool.not_true, Bool.false_eq_true, if_false] at h
        obtain ⟨k1, k2, _, _⟩ := demux_check_queue_full_streams c d
        by_cases hf : (demux_check_queue_full c d).1 = true
        · simp only [hf, if_true] at h
          cases hi1 : (demux_check_queue_full c d).2.streams[i]? with
          | none => simp [hi1] at h
          | some sh1 =>
            simp only [hi1, Option.some.injEq] at h
            subst h
            refine ⟨[], ?_, fun s hs => by simp at hs⟩
            simp [ds_get_packets_eof, set_pq, k2]
        · have hany : d.streams.any (queue_over_limit c) = false := by
            rw [← demux_check_queue_full_fst c d]
            simpa using hf
          simp only [hf, Bool.false_eq_true, if_false] at h
          obtain ⟨l1, l2⟩ := demux_fill_buffer_log desc (demux_check_queue_full c d).2 log hlog
          have hentry : ∀ s ∈ [d.streams],
              (∃ sh, s[i]? = some sh ∧ packet_queue_is_empty sh.pq = true) ∧
                s.any (queue_over_limit c) = false := by
            intro s hs
            simp only [List.mem_singleton] at hs
            subst hs
            exact ⟨⟨sh, hi, hne⟩, hany⟩
          cases hfb : desc.fill_buffer with
          | none =>
            rw [l2 hfb] at h
            simp only [if_true] at h
            cases hi1 : (demux_check_queue_full c d).2.streams[i]? with
            | none => simp [hi1] at h
            | some sh1 =>
              simp only [hi1, Option.some.injEq] at h
              subst h
              refine ⟨[], ?_, fun s hs => by simp at hs⟩
              simp [ds_get_packets_eof, set_pq, k2]
          | some f =>
            have l1' := l1 (by rw [hfb]; rfl)
            rw [k1, k2] at l1'
            by_cases hr : (demux_fill_buffer desc (demux_check_queue_full c d).2).1 = 0
            · simp only [hr, if_true] at h
              cases hi1 : (demux_fill_buffer desc
                  (demux_check_queue_full c d).2).2.streams[i]? with
              | none => simp [hi1] at h
              | some sh1 =>
                simp only [hi1, Option.some.injEq] at h
                subst h
                refine ⟨[d.streams], ?_, hentry⟩
                simp [ds_get_packets_eof, set_pq, l1']
            · simp only [hr, if_false] at h
              obtain ⟨ext, e1, e2⟩ := ih _ d' h
              refine ⟨[d.streams] ++ ext, ?_, ?_⟩
              · rw [e1, l1', List.append_assoc]
              · intro s hs
                rcases List.mem_append.mp hs with h1 | h1
                · exact hentry s h1
                · exact e2 s h1
      · simp only [hne, Bool.not_false, if_true, Option.some.injEq] at h
        subst h
        exact ⟨[], by simp, fun s hs => by simp at hs⟩


theorem demux_read_packet_stall {P : Type} (c : demux_h) (desc : demuxer_desc P)
    (d : demuxer P) (i : Nat) (sh : sh_stream) (hi : d.streams[i]? = some sh)
    (hempty : sh.pq.head = []) (hfull : d.streams.any (queue_over_limit c) = true)
    (fuel : Nat) :
    ∃ d', demux_read_packet c desc (fuel + 1) d (some i) = some (none, d') ∧
      demux_stream_eof d' (some i) = some true ∧ d'.priv = d.priv := by
  have hf1 : (demux_check_queue_full c
      { d with msgs := d.msgs ++ [msg_line.ds_get_packets_called sh.type] }).1 = true := by
    rw [demux_check_queue_full_fst]
    exact hfull
  obtain ⟨k1, k2, _, _⟩ := demux_check_queue_full_streams c
    { d with msgs := d.msgs ++ [msg_line.ds_get_packets_called sh.type] }
  have hi1 : (demux_check_queue_full c
      { d with msgs := d.msgs ++ [msg_line.ds_get_packets_called sh.type] }).2.streams[i]?
      = some sh := by rw [k1]; exact hi
  have hloop : ds_get_packets c desc (fuel + 1) d i
      = some (ds_get_packets_eof (demux_check_queue_full c
          { d with msgs := d.msgs ++ [msg_line.ds_get_packets_called sh.type] }).2 i sh) := by
    simp [ds_get_packets, ds_get_packets_loop, hi, packet_queue_is_empty, hempty, hf1, hi1]
  have g3 : (ds_get_packets_eof (demux_check_queue_full c
      { d with msgs := d.msgs ++ [msg_line.ds_get_packets_called sh.type] }).2 i sh).streams[i]?
      = some { sh with pq := packet_queue_set_eof sh.pq true } := by
    unfold ds_get_packets_eof
    exact set_pq_getElem?_eq _ i sh _ hi1
  have hget : packet_queue_get (packet_queue_set_eof sh.pq true)
      = (none, packet_queue_set_eof sh.pq true) := by
    simp [packet_queue_get, packet_queue_set_eof, hempty]
  refine ⟨set_pq (ds_get_packets_eof (demux_check_queue_full c
      { d with msgs := d.msgs ++ [msg_line.ds_get_packets_called sh.type] }).2 i sh) i
      (packet_queue_set_eof sh.pq true), ?_, ?_, ?_⟩
  · simp only [demux_read_packet, hloop, g3, hget]
  · simp only [demux_stream_eof]
    rw [set_pq_getElem?_eq _ i _ _ g3]
    simp [packet_queue_is_eof, packet_queue_set_eof, hempty]
  · simp [set_pq, ds_get_packets_eof, k2]


theorem demux_read_packet_eof {P : Type} (c : demux_h) (desc : demuxer_desc P)
    (d : demuxer P) (i : Nat) (hinv : eof_only_if_empty d)
    (hkeep : fill_buffer_keeps_eof desc) (fuel : Nat) (pkt : Option demux_packet)
    (d' : demuxer P) (h : demux_read_packet c desc fuel d (some i) = some (pkt, d')) :
    (pkt = none → demux_stream_eof d' (some i) = some true) ∧
    (pkt ≠ none → demux_stream_eof d' (some i) = some false) := by
  simp only [demux_read_packet] at h
  cases h1 : ds_get_packets c desc fuel d i with
  | none => simp [h1] at h
  | some d1 =>
    simp only [h1] at h
    have hloop := h1
    unfold ds_get_packets at hloop
    cases hi : d.streams[i]? with
    | none => simp [hi] at hloop
    | some sh0 =>
      simp only [hi] at hloop
      obtain ⟨g1, sh1, g2, g3⟩ := ds_get_packets_loop_eof c desc i hkeep fuel _ d1
        (eof_only_if_empty_msgs d _ hinv) hloop
      simp only [g2] at h
      cases hh : sh1.pq.head with
      | nil =>
        have hget : packet_queue_get sh1.pq = (none, sh1.pq) := by
          simp [packet_queue_get, hh]
        simp only [hget, Option.some.injEq, Prod.mk.injEq] at h
        obtain ⟨hp, hd⟩ := h
        subst hp
        subst hd
        refine ⟨fun _ => ?_, fun hne => absurd rfl hne⟩
        simp only [demux_stream_eof]
        rw [set_pq_getElem?_eq _ i _ _ g2]
        simp [packet_queue_is_eof, g3 hh]
      | cons dp rest =>
        have heof : sh1.pq.eof = false := by
          cases he : sh1.pq.eof with
          | false => rfl
          | true =>
            have := g1 i sh1 g2 he
            rw [hh] at this
            cases this
        have hget : packet_queue_get sh1.pq = (some dp,
            { sh1.pq with
              head := rest
              tail := if rest.isEmpty then none else sh1.pq.tail
              bytes := (sh1.pq.bytes + (SIZE_MODULUS - dp.len % SIZE_MODULUS)) % SIZE_MODULUS
              packs := sh1.pq.packs - 1 }) := by
          simp [packet_queue_get, hh]
        simp only [hget] at h
        have key : ∀ x : demuxer P, x.streams = (set_pq d1 i (packet_queue_get sh1.pq).2).streams →
            demux_stream_eof x (some i) = some false := by
          intro x hx
          simp only [demux_stream_eof, hx]
          rw [set_pq_getElem?_eq _ i _ _ g2]
          simp [packet_queue_is_eof, hget, heof]
        rw [hget] at key
        by_cases hs : dp.stream_pts ≠ MP_NOPTS_VALUE
        · simp only [hs, ne_eq, not_false_eq_true, if_true, Option.some.injEq,
            Prod.mk.injEq] at h
          obtain ⟨hp, hd⟩ := h
          subst hp
          subst hd
          exact ⟨fun hn => (by cases hn), fun _ => key _ rfl⟩
        · simp only [hs, if_false, Option.some.injEq, Prod.mk.injEq] at h
          obtain ⟨hp, hd⟩ := h
          subst hp
          subst hd
          exact ⟨fun hn => (by cases hn), fun _ => key _ rfl⟩


theorem sample_logging_inv : eof_only_if_empty sample_logging_demuxer := by
  intro j sh h he
  cases j with
  | zero =>
    simp only [sample_logging_demuxer, sample_demuxer, List.getElem?_cons_zero,
      Option.some.injEq] at h
    subst h
    rfl
  | succ k => simp [sample_logging_demuxer, sample_demuxer] at h

theorem sample_logging_keeps_eof : fill_buffer_keeps_eof sample_logging_desc := by
  intro f hf d h
  simp only [sample_logging_desc, Option.some.injEq] at hf
  subst hf
  exact h

/-- C27: for a track of a demuxer whose queues have the EOF flag set only
when empty, and a plugin whose `fill_buffer` keeps it so: whenever
`demux_read_packet` returns `NULL`, `demux_stream_eof` of the track is true
afterwards, and whenever it returns a packet, `demux_stream_eof` is false
afterwards. When the track's queue is empty and some queue is over a limit
(a stall), `demux_read_packet` returns `NULL` with the EOF flag set, without
any call of the plugin. And for a plugin that records its `fill_buffer`
calls, every call `ds_get_packets` made found the track's queue empty and no
queue over a limit (`demux_check_queue_full` false). -/
theorem demux_read_packet_eof_marking {P : Type} (c : demux_h) (desc : demuxer_desc P)
    (d : demuxer P) (i : Nat) (hinv : eof_only_if_empty d)
    (hkeep : fill_buffer_keeps_eof desc) :
    (∀ (fuel : Nat) (pkt : Option demux_packet) (d' : demuxer P),
      demux_read_packet c desc fuel d (some i) = some (pkt, d') →
      (pkt = none → demux_stream_eof d' (some i) = some true) ∧
      (pkt ≠ none → demux_stream_eof d' (some i) = some false)) ∧
    (∀ sh : sh_stream, d.streams[i]? = some sh → sh.pq.head = [] →
      d.streams.any (queue_over_limit c) = true →
      ∀ fuel : Nat, ∃ d', demux_read_packet c desc (fuel + 1) d (some i) = some (none, d') ∧
        demux_stream_eof d' (some i) = some true ∧ d'.priv = d.priv) ∧
    (∀ log : P → List (List sh_stream), fill_buffer_logged desc log →
      ∀ (fuel : Nat) (d' : demuxer P), ds_get_packets c desc fuel d i = some d' →
      ∃ ext, log d'.priv = log d.priv ++ ext ∧
        ∀ s ∈ ext, (∃ sh, s[i]? = some sh ∧ packet_queue_is_empty sh.pq = true) ∧
          s.any (queue_over_limit c) = false) := by
  refine ⟨?_, ?_, ?_⟩
  · intro fuel pkt d' h
    exact demux_read_packet_eof c desc d i hinv hkeep fuel pkt d' h
  · intro sh hi hempty hfull fuel
    exact demux_read_packet_stall c desc d i sh hi hempty hfull fuel
  · intro log hlog fuel d' h
    unfold ds_get_packets at h
    cases hi : d.streams[i]? with
    | none => simp [hi] at h
    | some sh =>
      simp only [hi] at h
      exact ds_get_packets_loop_log c desc i log hlog fuel
        { d with msgs := d.msgs ++ [msg_line.ds_get_packets_called sh.type] } d' h

/-- Witness of C27: a read from the empty track of the recording plugin, which
is at the end of its input: the one `fill_buffer` call found the queue empty,
`demux_read_packet` returns `NULL` and `demux_stream_eof` is true afterwards. -/
theorem demux_read_packet_eof_marking_witness :
    eof_only_if_empty sample_logging_demuxer ∧
    fill_buffer_keeps_eof sample_logging_desc ∧
    (demux_read_packet sample_limits sample_logging_desc 1 sample_logging_demuxer
        (some 0)).map (fun r => (r.1, demux_stream_eof r.2 (some 0), r.2.priv))
      = some (none, some true, [[sample_track stream_type.STREAM_AUDIO 0 true]]) ∧
    (∀ (pkt : Option demux_packet) (d' : demuxer (List (List sh_stream))),
      demux_read_packet sample_limits sample_logging_desc 1 sample_logging_demuxer (some 0)
        = some (pkt, d') →
      (pkt = none → demux_stream_eof d' (some 0) = some true) ∧
      (pkt ≠ none → demux_stream_eof d' (some 0) = some false)) :=
  ⟨sample_logging_inv, sample_logging_keeps_eof, rfl,
   (demux_read_packet_eof_marking sample_limits sample_logging_desc sample_logging_demuxer 0
      sample_logging_inv sample_logging_keeps_eof).1 1⟩


/-! ## Paths -/

theorem strrchr_from_bound (c : Char) (l : List Char) :
    ∀ (n k : Nat), strrchr_from c l n = some k → n ≤ k ∧ k < n + l.length := by
  induction l with
  | nil => intro n k h; simp [strrchr_from] at h
  | cons x rest ih =>
    intro n k h
    simp only [strrchr_from] at h
    cases hr : strrchr_from c rest (n + 1) with
    | some j =>
      simp only [hr, Option.some.injEq] at h
      subst h
      have := ih (n + 1) j hr
      simp only [List.length_cons]
      omega
    | none =>
      simp only [hr] at h
      by_cases hx : x = c
      · simp only [hx, if_true, Option.some.injEq] at h
        subst h
        simp only [List.length_cons]
        omega
      · simp [hx] at h

theorem mp_splitext_split (path : String) :
    ∃ split : Nat, split ≤ path.length ∧
      mp_splitext path
        = (String.mk (path.data.drop split),
           { start := some path, len := (0 : Int) - (split : Int) }) := by
  unfold mp_splitext
  cases h : strrchr path '.' with
  | none => exact ⟨path.length, le_refl _, rfl⟩
  | some k =>
    have := strrchr_from_bound '.' path.data 0 k h
    refine ⟨k, ?_, rfl⟩
    simp only [String.length]
    omega

/-- C22: `mp_splitext(path, &root)` returns the part of `path` from its last
`.` on (the empty string at the end of `path` when it has none), and `path`
is its first `len(path) - len(extension)` characters followed by that
string; `root.start` is `path`. But the value assigned to `root.len` is the
pointer difference `path - split`, which is minus that length: it is the
length `len(path) - len(extension)` only when that length is 0. For
`"file.mkv"` the extension is `".mkv"` and `root.len` is assigned -4 (in a
`size_t` field, `2^64 - 4`), not 4. -/
theorem mp_splitext_root_len (path : String) :
    path.data = path.data.take (path.length - (mp_splitext path).1.length)
      ++ (mp_splitext path).1.data ∧
    (mp_splitext path).2.start = some path ∧
    (mp_splitext path).2.len
      = - ((path.length : Int) - ((mp_splitext path).1.length : Int)) ∧
    ((mp_splitext path).2.len = (path.length : Int) - ((mp_splitext path).1.length : Int) ↔
      (mp_splitext path).1.length = path.length) ∧
    mp_splitext "file.mkv" = (".mkv", { start := some "file.mkv", len := -4 }) ∧
    (-4 : Int) % (SIZE_MODULUS : Int) = 18446744073709551612 := by
  obtain ⟨split, hle, heq⟩ := mp_splitext_split path
  have hlen : (mp_splitext path).1.length = path.length - split := by
    rw [heq]
    show (path.data.drop split).length = path.data.length - split
    exact List.length_drop _ _
  refine ⟨?_, ?_, ?_, ?_, ?_, ?_⟩
  · rw [hlen]
    have : path.length - (path.length - split) = split := by omega
    rw [this, heq]
    simp
  · rw [heq]
  · rw [hlen, heq]
    simp only
    omega
  · rw [hlen, heq]
    simp only
    omega
  · rfl
  · decide


theorem is_absolute_iff (np : String) :
    is_absolute np = true ↔ np.data.head? = some '/' := by
  unfold is_absolute
  cases hd : np.data with
  | nil => simp [String.length, hd]
  | cons x rest => simp [String.length, hd]

theorem ends_with_separator_iff (acc : String) :
    ends_with_separator (some acc) = true ↔ acc.data.getLast? = some '/' := by
  unfold ends_with_separator
  cases hd : acc.data with
  | nil => simp [String.length, hd]
  | cons x rest => simp [String.length, hd]

theorem mp_path_join_loop_some (null_s : Option String) (rest : List String) :
    ∀ (acc : String) (i : Nat), (∀ np ∈ rest, is_cstring np) →
      ∃ warned, mp_path_join_loop null_s (some acc) i rest
        = some (some (rest.foldl path_join_step acc), warned) := by
  induction rest with
  | nil => intro acc i _; exact ⟨[], rfl⟩
  | cons np rest ih =>
    intro acc i hc
    have hnp : talloc_strndup np = np := talloc_strndup_cstring np (hc np (by simp))
    have hrest : ∀ x ∈ rest, is_cstring x := fun x hx => hc x (List.mem_cons_of_mem _ hx)
    by_cases habs : is_absolute np = true
    · have hstep : path_join_step acc np = np := by
        simp [path_join_step, (is_absolute_iff np).mp habs]
      obtain ⟨w, hw⟩ := ih np (i + 1) hrest
      refine ⟨if i > 0 then np :: w else w, ?_⟩
      simp only [mp_path_join_loop, habs, if_true, hnp, hw, List.foldl_cons, hstep]
    · have hhead : ¬ np.data.head? = some '/' := fun h => habs ((is_absolute_iff np).mpr h)
      by_cases hend : ends_with_separator (some acc) = true
      · have hstep : path_join_step acc np = acc ++ "" ++ np := by
          simp [path_join_step, hhead, (ends_with_separator_iff acc).mp hend]
        obtain ⟨w, hw⟩ := ih (acc ++ "" ++ np) (i + 1) hrest
        refine ⟨w, ?_⟩
        simp only [mp_path_join_loop, habs, hend, talloc_asprintf_sss, hnp, hw,
          List.foldl_cons, hstep, Bool.not_true, Bool.false_eq_true, if_false]
      · have hlast : ¬ acc.data.getLast? = some '/' :=
          fun h => hend ((ends_with_separator_iff acc).mpr h)
        have hstep : path_join_step acc np = acc ++ "/" ++ np := by
          simp [path_join_step, hhead, hlast]
        obtain ⟨w, hw⟩ := ih (acc ++ "/" ++ np) (i + 1) hrest
        refine ⟨w, ?_⟩
        simp only [Bool.not_eq_true] at hend
        simp only [mp_path_join_loop, habs, hend, talloc_asprintf_sss, hnp, hw,
          List.foldl_cons, hstep, Bool.not_false, if_true, Bool.false_eq_true, if_false]


theorem mp_path_join_array_starts (null_s : Option String) (path : List String)
    (hc : ∀ np ∈ path, is_cstring np) (hs : path_join_starts path = true) :
    ∃ warned, mp_path_join_array null_s path
      = some (some (path_join_reference path), warned) := by
  match path, hc, hs with
  | [], _, _ => exact ⟨[], rfl⟩
  | [a], hc, _ =>
    refine ⟨[], ?_⟩
    simp [mp_path_join_array, path_join_reference, talloc_strndup_cstring a (hc a (by simp))]
  | a :: b :: rest, hc, hs =>
    have ha : talloc_strndup a = a := talloc_strndup_cstring a (hc a (by simp))
    have hb : talloc_strndup b = b := talloc_strndup_cstring b (hc b (by simp))
    have hrest : ∀ x ∈ b :: rest, is_cstring x := fun x hx => hc x (List.mem_cons_of_mem _ hx)
    by_cases hsp : rest = [] ∧ is_absolute b = true
    · refine ⟨[], ?_⟩
      obtain ⟨h1, h2⟩ := hsp
      subst h1
      have hstep : path_join_step a b = b := by
        simp [path_join_step, (is_absolute_iff b).mp h2]
      simp [mp_path_join_array, path_join_reference, h2, hb, hstep]
    · have habs : is_absolute a = true := by
        simp only [path_join_starts, Bool.or_eq_true, Bool.and_eq_true,
          decide_eq_true_eq] at hs
        rcases hs with h | h
        · exact h
        · exact absurd h hsp
      obtain ⟨w, hw⟩ := mp_path_join_loop_some null_s (b :: rest) a 1 hrest
      have h0 : mp_path_join_loop null_s none 0 (a :: b :: rest)
          = some (some ((b :: rest).foldl path_join_step a), w) := by
        rw [mp_path_join_loop]
        simp only [habs, if_true, ha, Nat.zero_add, hw]
        simp
      refine ⟨w, ?_⟩
      simp only [mp_path_join_array, hsp, if_false, h0, path_join_reference]


theorem mp_path_join_array_a_b (null_s : Option String) :
    mp_path_join_array null_s ["a", "b"]
      = null_s.map (fun s => (some (s ++ "/" ++ "a" ++ "/" ++ "b"), [])) := by
  have ha : is_absolute "a" = false := by decide
  have hb : is_absolute "b" = false := by decide
  have hsa : talloc_strndup "a" = "a" := by decide
  have hsb : talloc_strndup "b" = "b" := by decide
  cases null_s with
  | none =>
    simp [mp_path_join_array, mp_path_join_loop, ha, hb, talloc_asprintf_sss,
      ends_with_separator]
  | some s =>
    have hend : ends_with_separator (some (s ++ "/" ++ "a")) = false := by
      cases h : ends_with_separator (some (s ++ "/" ++ "a")) with
      | false => rfl
      | true =>
        rw [ends_with_separator_iff] at h
        have hd : (s ++ "/" ++ "a").data = (s.data ++ ['/']) ++ ['a'] := by
          simp [String.data_append]
        rw [hd, List.getLast?_append] at h
        simp at h
    simp [mp_path_join_array, mp_path_join_loop, ha, hb, hsa, hsb, talloc_asprintf_sss,
      hend, ends_with_separator]


/-- C23: joining the relative components `"a"` and `"b"` enters the loop of
`mp_path_join_cb_array` with `p == NULL` and formats that `NULL` with `%s`:
the result is what the C library prints for a null string followed by
`"/a/b"` (`"(null)/a/b"` with glibc), or the call does not return; in no
case is it the `"a/b"` of the reference fold. Where the loop is not entered
that way (`path_join_starts`: one component, an absolute first component, or
two components with an absolute second one) the result is the reference
fold, for components without a NUL character. -/
theorem mp_path_join_array_null_start (null_s : Option String) (path : List String) :
    mp_path_join_array null_s ["a", "b"]
      = null_s.map (fun s => (some (s ++ "/" ++ "a" ++ "/" ++ "b"), [])) ∧
    mp_path_join_array (some "(null)") ["a", "b"] = some (some "(null)/a/b", []) ∧
    (∀ warned, mp_path_join_array null_s ["a", "b"]
      ≠ some (some (path_join_reference ["a", "b"]), warned)) ∧
    path_join_reference ["a", "b"] = "a/b" ∧
    ((∀ np ∈ path, is_cstring np) → path_join_starts path = true →
      ∃ warned, mp_path_join_array null_s path
        = some (some (path_join_reference path), warned)) := by
  have href : path_join_reference ["a", "b"] = "a/b" := by decide
  refine ⟨mp_path_join_array_a_b null_s, ?_, ?_, href, ?_⟩
  · rw [mp_path_join_array_a_b]
    decide
  · intro warned h
    rw [mp_path_join_array_a_b, href] at h
    cases null_s with
    | none => simp at h
    | some s =>
      simp only [Option.map_some', Option.some.injEq, Prod.mk.injEq] at h
      have hl := congrArg String.length h.1
      simp only [String.length_append] at hl
      have h1 : "/".length = 1 := by decide
      have h2 : "a".length = 1 := by decide
      have h3 : "b".length = 1 := by decide
      have h4 : "a/b".length = 3 := by decide
      rw [h1, h2, h3, h4] at hl
      omega
  · intro hc hs
    exact mp_path_join_array_starts null_s path hc hs

/-- Witness of C23: the components `"/x"`, `"/y"`, `"z"` are joined to
`"/y/z"`, as the reference fold says. -/
theorem mp_path_join_array_null_start_witness :
    (∀ np ∈ ["/x", "/y", "z"], is_cstring np) ∧
    path_join_starts ["/x", "/y", "z"] = true ∧
    path_join_reference ["/x", "/y", "z"] = "/y/z" ∧
    ∃ warned, mp_path_join_array none ["/x", "/y", "z"]
      = some (some (path_join_reference ["/x", "/y", "z"]), warned) :=
  ⟨by decide, by decide, by decide,
   (mp_path_join_array_null_start none ["/x", "/y", "z"]).2.2.2.2 (by decide) (by decide)⟩


/-! ## The threaded wrapper: read-ahead -/

theorem read_ahead_enough_fold (l : List sh_stream) :
    ∀ acc : Bool,
      l.foldl
        (fun enough sh =>
          if sh.type = stream_type.STREAM_VIDEO ∨ sh.type = stream_type.STREAM_AUDIO then
            if sh.selected then
              let r := packet_queue_add_size sh.pq 0 0
              if r.2 < NUM_READAHEAD_PACKETS then false else enough
            else enough
          else enough)
        acc
      = (acc && !l.any track_wants_packets) := by
  induction l with
  | nil => intro acc; simp
  | cons sh rest ih =>
    intro acc
    rw [List.foldl_cons, ih]
    by_cases ht : sh.type = stream_type.STREAM_VIDEO ∨ sh.type = stream_type.STREAM_AUDIO
    · by_cases hs : sh.selected = true
      · by_cases hp : sh.pq.packs < NUM_READAHEAD_PACKETS
        · have hw : track_wants_packets sh = true := by
            simp only [track_wants_packets, hs, hp, decide_True, Bool.and_true,
              Bool.or_eq_true, decide_eq_true_eq]
            exact ht
          simp [ht, hs, packet_queue_add_size, hp, hw]
        · have hw : track_wants_packets sh = false := by
            simp [track_wants_packets, hp]
          simp [ht, hs, packet_queue_add_size, hp, hw]
      · have hw : track_wants_packets sh = false := by
          simp [track_wants_packets, hs]
        simp [ht, hs, hw]
    · have hw : track_wants_packets sh = false := by
        simp only [not_or] at ht
        simp [track_wants_packets, ht.1, ht.2]
      simp [ht, hw]

theorem read_ahead_enough_eq {P : Type} (d : demuxer P) :
    read_ahead_enough d = !d.streams.any track_wants_packets := by
  unfold read_ahead_enough
  rw [read_ahead_enough_fold]
  simp

theorem read_packet_idle {P : Type} (desc : demuxer_desc P) (p : priv P)
    (h : wants_read p = false) : read_packet desc p = (0, p) := by
  unfold read_packet
  by_cases hr : p.read_packets = true
  · have : p.demuxer.streams.any track_wants_packets = false := by
      simpa [wants_read, hr] using h
    simp [hr, read_ahead_enough_eq, this]
  · simp [hr]

theorem read_packet_fill {P : Type} (desc : demuxer_desc P) (p : priv P)
    (h : wants_read p = true) :
    read_packet desc p
      = ((if (demux_fill_buffer desc p.demuxer).1 > 0 then 1 else 0),
         { p with
           demuxer := (demux_fill_buffer desc p.demuxer).2
           wrapper := share_queues p.wrapper (demux_fill_buffer desc p.demuxer).2
           num_streams := (demux_fill_buffer desc p.demuxer).2.streams.length
           trace := p.trace ++
             [thread_call.mutex_unlock,
              thread_call.demux_fill_buffer (demux_fill_buffer desc p.demuxer).1,
              thread_call.mutex_lock, thread_call.cond_signal] }) := by
  simp only [wants_read, Bool.and_eq_true] at h
  unfold read_packet
  simp [h.1, read_ahead_enough_eq, h.2]


/-- C29: `read_packet` of the wrapper calls `demux_fill_buffer` on the inner
demuxer at most once, and it calls it exactly when `read_packets` is set and
some selected audio or video track has fewer than `NUM_READAHEAD_PACKETS`
(70) packets counted in its queue (`wants_read`); otherwise it returns 0 and
changes nothing, in particular when every track is a subtitle track or
unselected. When the call is made, the inner demuxer is what the call left,
`num_streams` is set to its track count, and the result is 1 if the call
returned a positive value and 0 otherwise; so `read_packet` returns 1 exactly
when the call was made and returned a positive value. -/
theorem read_packet_spec {P : Type} (desc : demuxer_desc P) (p : priv P) :
    (wants_read p = false → read_packet desc p = (0, p)) ∧
    (wants_read p = true →
      (read_packet desc p).2.demuxer = (demux_fill_buffer desc p.demuxer).2 ∧
      (read_packet desc p).2.num_streams
        = ((demux_fill_buffer desc p.demuxer).2.streams.length : Int) ∧
      (read_packet desc p).2.trace = p.trace ++
        [thread_call.mutex_unlock,
         thread_call.demux_fill_buffer (demux_fill_buffer desc p.demuxer).1,
         thread_call.mutex_lock, thread_call.cond_signal]) ∧
    (∃ ext, (read_packet desc p).2.trace = p.trace ++ ext ∧
      count_fill ext = (if wants_read p then 1 else 0)) ∧
    ((read_packet desc p).1 = 1 ↔
      wants_read p = true ∧ (demux_fill_buffer desc p.demuxer).1 > 0) ∧
    ((read_packet desc p).1 = 0 ∨ (read_packet desc p).1 = 1) ∧
    ((∀ sh ∈ p.demuxer.streams, sh.type = stream_type.STREAM_SUB ∨ sh.selected = false) →
      read_packet desc p = (0, p)) := by
  refine ⟨read_packet_idle desc p, ?_, ?_, ?_, ?_, ?_⟩
  · intro h
    rw [read_packet_fill desc p h]
    exact ⟨rfl, rfl, rfl⟩
  · cases h : wants_read p with
    | false =>
      rw [read_packet_idle desc p h]
      exact ⟨[], by simp, rfl⟩
    | true =>
      rw [read_packet_fill desc p h]
      exact ⟨_, rfl, rfl⟩
  · cases h : wants_read p with
    | false =>
      rw [read_packet_idle desc p h]
      simp
    | true =>
      rw [read_packet_fill desc p h]
      by_cases hr : (demux_fill_buffer desc p.demuxer).1 > 0
      · simp [hr]
      · simp [hr]
  · cases h : wants_read p with
    | false =>
      rw [read_packet_idle desc p h]
      exact Or.inl rfl
    | true =>
      rw [read_packet_fill desc p h]
      by_cases hr : (demux_fill_buffer desc p.demuxer).1 > 0
      · right; simp [hr]
      · left; simp [hr]
  · intro hall
    apply read_packet_idle
    have : p.demuxer.streams.any track_wants_packets = false := by
      rw [List.any_eq_false]
      intro sh hsh
      rcases hall sh hsh with h | h
      · simp [track_wants_packets, h]
      · simp [track_wants_packets, h]
    simp [wants_read, this]

/-- Witness of C29: on the wrapper around the synthetic source, whose one
selected audio track has an empty queue, `read_packet` makes one
`demux_fill_buffer` call, which returns 1, and returns 1. -/
theorem read_packet_spec_witness :
    wants_read sample_priv = true ∧
    (read_packet list_desc sample_priv).1 = 1 ∧
    (read_packet list_desc sample_priv).2.num_streams = 1 ∧
    (read_packet list_desc sample_priv).2.trace
      = [thread_call.mutex_unlock, thread_call.demux_fill_buffer 1,
         thread_call.mutex_lock, thread_call.cond_signal] :=
  ⟨by decide,
   (read_packet_spec list_desc sample_priv).2.2.2.1.mpr ⟨by decide, by decide⟩,
   ((read_packet_spec list_desc sample_priv).2.1 (by decide)).2.1,
   ((read_packet_spec list_desc sample_priv).2.1 (by decide)).2.2⟩


/-! ## The threaded wrapper: track selection -/

theorem add_stream_header_spec (c : demux_h) (w : demuxer Unit) (src : sh_stream)
    (hmax : (w.streams.length : Int) ≤ c.MAX_SH_STREAMS)
    (hidx : src.index = (w.streams.length : Int)) :
    add_stream_header c w src = some { w with streams := w.streams ++ [src] } := by
  have h1 : ¬ ((w.streams.length : Int) > c.MAX_SH_STREAMS) := by omega
  unfold add_stream_header new_sh_stream
  simp only [h1, if_false]
  simp [getElem?_append_cons, hidx, packet_queue_is_empty, packet_queue_create]

theorem add_stream_headers_loop_spec (c : demux_h) (srcs : List sh_stream) :
    ∀ w : demuxer Unit,
      ((w.streams.length : Int) + (srcs.length : Int) ≤ c.MAX_SH_STREAMS + 1) →
      (∀ (j : Nat) (src : sh_stream), srcs[j]? = some src →
        src.index = ((w.streams.length + j : Nat) : Int)) →
      add_stream_headers_loop c w srcs = some { w with streams := w.streams ++ srcs } := by
  induction srcs with
  | nil => intro w _ _; simp [add_stream_headers_loop]
  | cons src rest ih =>
    intro w hmax hidx
    have h0 := hidx 0 src (by simp)
    simp only [List.length_cons] at hmax
    have hstep := add_stream_header_spec c w src (by push_cast at hmax; omega)
      (by simpa using h0)
    have hrest := ih { w with streams := w.streams ++ [src] }
      (by simp only [List.length_append, List.length_singleton]; push_cast at hmax ⊢; omega)
      (by
        intro j s hj
        have := hidx (j + 1) s (by simpa using hj)
        simp only [List.length_append, List.length_singleton]
        rw [this]
        congr 1
        omega)
    simp only [add_stream_headers_loop, hstep, hrest]
    simp


theorem d_control_select_loop_spec {P : Type} (c : demux_h) (desc : demuxer_desc P)
    (wrapper : demuxer Unit) (hctl : control_keeps_streams desc) :
    ∀ (suf pre : List sh_stream) (inner : demuxer P),
      inner.streams = pre ++ suf →
      ∃ inner', d_control_select_loop c desc wrapper suf.length pre.length inner = some inner' ∧
        inner'.streams = pre ++
          (List.enumFrom pre.length suf).map (fun e =>
            propagated_track (fun n => demuxer_stream_is_selected wrapper (some n)) e.1 e.2) ∧
        inner'.calls = inner.calls ++
          (if desc.control.isSome = true then
            List.replicate
              ((List.enumFrom pre.length suf).countP (fun e =>
                decide (e.2.selected ≠ demuxer_stream_is_selected wrapper (some e.1))))
              (ext_call.desc_control demuxer_ctrl.DEMUXER_CTRL_SWITCHED_TRACKS)
           else []) := by
  intro suf
  induction suf with
  | nil =>
    intro pre inner h
    exact ⟨inner, rfl, by simpa using h, by simp⟩
  | cons sh rest ih =>
    intro pre inner h
    obtain ⟨d1, g1, g2, g3⟩ := demuxer_select_track_at c desc inner pre rest sh
      (demuxer_stream_is_selected wrapper (some pre.length)) h hctl
    have h1 : d1.streams = (pre ++ [propagated_track
        (fun n => demuxer_stream_is_selected wrapper (some n)) pre.length sh]) ++ rest := by
      rw [g2]; simp [propagated_track]
    obtain ⟨d2, k1, k2, k3⟩ := ih (pre ++ [propagated_track
        (fun n => demuxer_stream_is_selected wrapper (some n)) pre.length sh]) d1 h1
    rw [List.length_append, List.length_singleton] at k1 k2 k3
    refine ⟨d2, ?_, ?_, ?_⟩
    · simp only [List.length_cons, d_control_select_loop, g1, k1]
    · rw [k2]; simp [List.enumFrom_cons]
    · rw [k3, g3]
      cases hc : desc.control.isSome with
      | false => simp
      | true =>
        by_cases hch : sh.selected = demuxer_stream_is_selected wrapper (some pre.length)
        · simp [List.enumFrom_cons, List.countP_cons, hch]
        · simp [List.enumFrom_cons, List.countP_cons, hch, List.replicate_succ]


theorem add_stream_headers_spec {P : Type} (c : demux_h) (p : priv P)
    (hle : p.wrapper.streams.length ≤ p.demuxer.streams.length)
    (hmax : (p.demuxer.streams.length : Int) ≤ c.MAX_SH_STREAMS + 1)
    (hidx : ∀ (n : Nat) (sh : sh_stream), p.demuxer.streams[n]? = some sh → sh.index = (n : Int)) :
    add_stream_headers c p
      = some { p with
          wrapper := { p.wrapper with
            streams := p.wrapper.streams ++
              p.demuxer.streams.drop p.wrapper.streams.length }
          num_streams := (p.demuxer.streams.length : Int) } := by
  have hloop := add_stream_headers_loop_spec c
    (p.demuxer.streams.drop p.wrapper.streams.length) p.wrapper
    (by
      simp only [List.length_drop]
      have : ((p.demuxer.streams.length - p.wrapper.streams.length : Nat) : Int)
          = (p.demuxer.streams.length : Int) - (p.wrapper.streams.length : Int) := by
        omega
      omega)
    (by
      intro j src hj
      rw [List.getElem?_drop] at hj
      exact hidx _ src hj)
  have hlt : ¬ (p.demuxer.streams.length < p.wrapper.streams.length) := by omega
  unfold add_stream_headers
  rw [if_neg hlt, hloop]
  simp only [List.length_append, List.length_drop]
  have : p.wrapper.streams.length + (p.demuxer.streams.length - p.wrapper.streams.length)
      = p.demuxer.streams.length := by omega
  rw [this]

theorem d_control_switched_eval {P : Type} (c : demux_h) (desc : demuxer_desc P) (p : priv P)
    (arg : ctrl_arg) (hpaused : p.thread_paused = true)
    (hle : p.wrapper.streams.length ≤ p.demuxer.streams.length)
    (hmax : (p.demuxer.streams.length : Int) ≤ c.MAX_SH_STREAMS + 1)
    (hidx : ∀ (n : Nat) (sh : sh_stream), p.demuxer.streams[n]? = some sh → sh.index = (n : Int))
    (hctl : control_keeps_streams desc) :
    ∃ inner' : demuxer P,
      inner'.streams = (List.enumFrom 0 p.demuxer.streams).map (fun e =>
        propagated_track (fun n => demuxer_stream_is_selected
          { p.wrapper with
            streams := p.wrapper.streams ++
              p.demuxer.streams.drop p.wrapper.streams.length } (some n)) e.1 e.2) ∧
      inner'.calls = p.demuxer.calls ++
        (if desc.control.isSome = true then
          List.replicate
            ((List.enumFrom 0 p.demuxer.streams).countP (fun e =>
              decide (e.2.selected ≠ demuxer_stream_is_selected
                { p.wrapper with
                  streams := p.wrapper.streams ++
                    p.demuxer.streams.drop p.wrapper.streams.length } (some e.1))))
            (ext_call.desc_control demuxer_ctrl.DEMUXER_CTRL_SWITCHED_TRACKS)
         else []) ∧
      d_control c desc p demuxer_ctrl.DEMUXER_CTRL_SWITCHED_TRACKS arg
        = some (c.DEMUXER_CTRL_OK, arg,
            { p with
              wrapper := share_queues
                { p.wrapper with
                  streams := p.wrapper.streams ++
                    p.demuxer.streams.drop p.wrapper.streams.length }
                { inner' with stream_autoselect := p.wrapper.stream_autoselect }
              demuxer := { inner' with stream_autoselect := p.wrapper.stream_autoselect }
              num_streams := (p.demuxer.streams.length : Int)
              thread_request_pause := false
              trace := p.trace ++
                [thread_call.mutex_lock, thread_call.cond_signal, thread_call.cond_signal,
                 thread_call.mutex_unlock] }) := by
  obtain ⟨w, inn, kill, req, paused, rp, ns, st, tl, tr⟩ := p
  simp only at hpaused hle hmax hidx
  subst hpaused
  obtain ⟨inner', l1, l2, l3⟩ := d_control_select_loop_spec c desc
    { w with streams := w.streams ++ inn.streams.drop w.streams.length }
    hctl inn.streams [] inn (by simp)
  simp only [List.length_nil, List.nil_append] at l1 l2 l3
  refine ⟨inner', l2, l3, ?_⟩
  have hadd := add_stream_headers_spec c
    { wrapper := w, demuxer := inn, thread_request_kill := kill, thread_request_pause := true,
      thread_paused := true, read_packets := rp, num_streams := ns, start_time := st,
      time_length := tl,
      trace := tr ++ [thread_call.mutex_lock, thread_call.cond_signal] } hle hmax hidx
  have hlen : (w.streams ++ inn.streams.drop w.streams.length).length
      = inn.streams.length := by
    simp only [List.length_append, List.length_drop]
    omega
  simp only [d_control, pause_thread, if_true, Option.bind_eq_bind, Option.some_bind,
    List.append_assoc, List.cons_append, List.nil_append, hadd, hlen, l1, resume_thread,
    Bool.and_self]


theorem mirrored_getElem? (w inn : List sh_stream) (n : Nat) :
    (w ++ inn.drop w.length)[n]? = if n < w.length then w[n]? else inn[n]? := by
  by_cases h : n < w.length
  · simp [h, List.getElem?_append_left h]
  · have hge : w.length ≤ n := by omega
    rw [if_neg h, List.getElem?_append_right hge, List.getElem?_drop]
    congr 1
    omega

theorem propagate_differs (wrapper : demuxer Unit) (inn : List sh_stream) (n : Nat)
    (sh : sh_stream) (hn : inn[n]? = some sh) :
    decide (sh.selected ≠ demuxer_stream_is_selected
      { wrapper with streams := wrapper.streams ++ inn.drop wrapper.streams.length } (some n))
      = track_selection_differs wrapper n sh := by
  simp only [demuxer_stream_is_selected, track_selection_differs,
    mirrored_getElem? wrapper.streams inn n]
  by_cases h : n < wrapper.streams.length
  · simp only [h, if_true]
    cases hw : wrapper.streams[n]? with
    | none =>
      have := List.getElem?_eq_none_iff.mp hw
      omega
    | some wsh => rfl
  · have hw : wrapper.streams[n]? = none := List.getElem?_eq_none_iff.mpr (by omega)
    simp [h, hn, hw]

theorem propagated_track_selected (selected : Nat → Bool) (n : Nat) (sh : sh_stream) :
    (propagated_track selected n sh).selected = selected n := by
  unfold propagated_track
  by_cases h : sh.selected = selected n
  · simp [h]
  · simp [h]


/-- C28: `d_control` of the wrapper with `DEMUXER_CTRL_SWITCHED_TRACKS`, on a
state with the demuxer thread paused, the facade mirroring a prefix of at
most `MAX_SH_STREAMS + 1` inner tracks whose `index` is their position, and
an inner plugin whose `control` leaves the tracks alone, returns
`DEMUXER_CTRL_OK` and leaves `arg` alone. Afterwards the facade and the inner
demuxer have the same number of tracks; at every position the inner track
and the facade track have the same `selected` flag and the same queue; the
flags of the tracks the facade had are the ones it had; the inner
`stream_autoselect` is the facade's; `thread_request_pause` is false again;
an inner track whose flag did not differ from the facade's is as before; and
the inner plugin's `control` got one `DEMUXER_CTRL_SWITCHED_TRACKS` call for
each track whose flag differed, and none for the others. -/
theorem d_control_switched_tracks {P : Type} (c : demux_h) (desc : demuxer_desc P)
    (p : priv P) (arg : ctrl_arg) (hpaused : p.thread_paused = true)
    (hle : p.wrapper.streams.length ≤ p.demuxer.streams.length)
    (hmax : (p.demuxer.streams.length : Int) ≤ c.MAX_SH_STREAMS + 1)
    (hidx : ∀ (n : Nat) (sh : sh_stream), p.demuxer.streams[n]? = some sh → sh.index = (n : Int))
    (hctl : control_keeps_streams desc) :
    ∃ p' : priv P,
      d_control c desc p demuxer_ctrl.DEMUXER_CTRL_SWITCHED_TRACKS arg
        = some (c.DEMUXER_CTRL_OK, arg, p') ∧
      p'.wrapper.streams.length = p'.demuxer.streams.length ∧
      p'.demuxer.streams.length = p.demuxer.streams.length ∧
      (∀ (n : Nat) (sh : sh_stream), p'.demuxer.streams[n]? = some sh →
        ∃ wsh, p'.wrapper.streams[n]? = some wsh ∧ sh.selected = wsh.selected ∧
          sh.pq = wsh.pq) ∧
      (∀ (n : Nat) (wsh : sh_stream), p.wrapper.streams[n]? = some wsh →
        ∃ wsh', p'.wrapper.streams[n]? = some wsh' ∧ wsh'.selected = wsh.selected) ∧
      p'.demuxer.stream_autoselect = p'.wrapper.stream_autoselect ∧
      p'.wrapper.stream_autoselect = p.wrapper.stream_autoselect ∧
      p'.thread_request_pause = false ∧
      (∀ (n : Nat) (sh : sh_stream), p.demuxer.streams[n]? = some sh →
        track_selection_differs p.wrapper n sh = false →
        p'.demuxer.streams[n]? = some sh) ∧
      p'.demuxer.calls = p.demuxer.calls ++
        (if desc.control.isSome = true then
          List.replicate
            ((List.enumFrom 0 p.demuxer.streams).countP (fun e =>
              track_selection_differs p.wrapper e.1 e.2))
            (ext_call.desc_control demuxer_ctrl.DEMUXER_CTRL_SWITCHED_TRACKS)
         else []) := by
  obtain ⟨inner', l2, l3, heval⟩ :=
    d_control_switched_eval c desc p arg hpaused hle hmax hidx hctl
  have hlen : (p.wrapper.streams ++ p.demuxer.streams.drop p.wrapper.streams.length).length
      = p.demuxer.streams.length := by
    simp only [List.length_append, List.length_drop]
    omega
  have hget : ∀ n : Nat, inner'.streams[n]? = (p.demuxer.streams[n]?).map (fun sh =>
      propagated_track (fun n => demuxer_stream_is_selected
        { p.wrapper with
          streams := p.wrapper.streams ++
            p.demuxer.streams.drop p.wrapper.streams.length } (some n)) n sh) := by
    intro n
    rw [l2, List.getElem?_map, List.getElem?_enumFrom]
    cases p.demuxer.streams[n]? with
    | none => rfl
    | some sh => simp
  refine ⟨_, heval, ?_, ?_, ?_, ?_, rfl, rfl, rfl, ?_, ?_⟩
  · simp [share_queues, hlen, l2]
  · simp [l2]
  · intro n sh hn
    simp only [hget n] at hn
    cases hin : p.demuxer.streams[n]? with
    | none => simp [hin] at hn
    | some src =>
      simp only [hin, Option.map_some', Option.some.injEq] at hn
      have hlt : n < p.demuxer.streams.length := by
        by_contra hc
        have := List.getElem?_eq_none_iff.mpr (Nat.le_of_not_lt hc)
        rw [this] at hin
        cases hin
      cases hw : (p.wrapper.streams ++ p.demuxer.streams.drop p.wrapper.streams.length)[n]? with
      | none =>
        have := List.getElem?_eq_none_iff.mp hw
        omega
      | some wsh =>
        refine ⟨{ wsh with pq := sh.pq }, ?_, ?_, rfl⟩
        · simp [share_queues, List.getElem?_mapIdx, hw, hget n, hin, hn]
        · rw [← hn, propagated_track_selected]
          simp [demuxer_stream_is_selected, hw]
  · intro n wsh hw
    have hlt : n < p.wrapper.streams.length := by
      by_contra hc
      have := List.getElem?_eq_none_iff.mpr (Nat.le_of_not_lt hc)
      rw [this] at hw
      cases hw
    have hw2 : (p.wrapper.streams ++ p.demuxer.streams.drop p.wrapper.streams.length)[n]?
        = some wsh := by
      rw [List.getElem?_append_left hlt, hw]
    cases hin : inner'.streams[n]? with
    | none => exact ⟨wsh, by simp [share_queues, List.getElem?_mapIdx, hw2, hin], rfl⟩
    | some src =>
      exact ⟨{ wsh with pq := src.pq },
        by simp [share_queues, List.getElem?_mapIdx, hw2, hin], rfl⟩
  · intro n sh hn hdiff
    rw [← propagate_differs p.wrapper p.demuxer.streams n sh hn] at hdiff
    show inner'.streams[n]? = some sh
    rw [hget n, hn]
    simp only [Option.map_some', Option.some.injEq, propagated_track]
    simp only [decide_eq_false_iff_not] at hdiff
    rw [if_neg hdiff]
  · show inner'.calls = _
    rw [l3]
    congr 2
    congr 1
    apply List.countP_congr
    intro e he
    have hmem : p.demuxer.streams[e.1]? = some e.2 := by
      have := (List.mk_mem_enumFrom_iff_le_and_getElem?_sub
        (n := 0) (i := e.1) (x := e.2) (l := p.demuxer.streams)).mp he
      simpa using this.2
    rw [propagate_differs p.wrapper p.demuxer.streams e.1 e.2 hmem]


/-- Witness of C28: on `sample_switch_priv` the call mirrors the third inner
track, makes the inner flags of tracks 0 and 1 those of the facade (false and
true), and the inner plugin's `control` is called twice. -/
theorem d_control_switched_tracks_witness :
    sample_switch_priv.thread_paused = true ∧
    control_keeps_streams sample_control_desc ∧
    (d_control sample_limits sample_control_desc sample_switch_priv
        demuxer_ctrl.DEMUXER_CTRL_SWITCHED_TRACKS ctrl_arg.null).map
      (fun r => (r.1, r.2.2.demuxer.streams.map (fun sh => sh.selected),
        r.2.2.wrapper.streams.map (fun sh => sh.selected), r.2.2.demuxer.calls,
        r.2.2.thread_request_pause))
      = some (1, [false, true, true], [false, true, true],
          [ext_call.desc_control demuxer_ctrl.DEMUXER_CTRL_SWITCHED_TRACKS,
           ext_call.desc_control demuxer_ctrl.DEMUXER_CTRL_SWITCHED_TRACKS], false) ∧
    ∃ p' : priv Unit,
      d_control sample_limits sample_control_desc sample_switch_priv
          demuxer_ctrl.DEMUXER_CTRL_SWITCHED_TRACKS ctrl_arg.null
        = some (sample_limits.DEMUXER_CTRL_OK, ctrl_arg.null, p') ∧
      p'.wrapper.streams.length = p'.demuxer.streams.length := by
  have hidx : ∀ (n : Nat) (sh : sh_stream),
      sample_switch_priv.demuxer.streams[n]? = some sh → sh.index = (n : Int) := by
    intro n sh h
    match n, h with
    | 0, h => cases h; rfl
    | 1, h => cases h; rfl
    | 2, h => cases h; rfl
    | k + 3, h => simp [sample_switch_priv, sample_demuxer] at h
  obtain ⟨p', h1, h2, _⟩ := d_control_switched_tracks sample_limits sample_control_desc
    sample_switch_priv ctrl_arg.null rfl (by decide) (by decide) hidx
    sample_control_keeps_streams
  exact ⟨rfl, sample_control_keeps_streams, rfl, p', h1, h2⟩


/-! ## The pause rendezvous -/

theorem rendezvous_inv_init : rendezvous_inv {} := by
  refine ⟨?_, ?_, ?_, ?_, ?_, ?_⟩ <;> simp [demux_holds, main_holds, main_requesting,
    in_pause_window]

theorem in_pause_window_holds (pc : main_pc) (h : main_holds pc = false) :
    in_pause_window pc = false := by
  cases pc <;> simp_all [main_holds, in_pause_window]

theorem in_pause_window_requesting (pc : main_pc) (h : in_pause_window pc = true) :
    main_requesting pc = true := by
  cases pc <;> simp_all [main_requesting, in_pause_window]

theorem demux_parked_iff (pc : demux_pc) :
    demux_parked pc = true ↔ demux_pausing pc = true ∧ demux_holds pc = false := by
  cases pc <;> simp [demux_parked, demux_pausing, demux_holds]

theorem rendezvous_inv_demux_step (s : rendezvous) (choice : Bool) (h : rendezvous_inv s) :
    rendezvous_inv (demux_step s choice) := by
  obtain ⟨dpc, mpc, mutex, kill, req, paused, rp, rr, dc, mc⟩ := s
  obtain ⟨h1, h2, h3, h4, h5, h6⟩ := h
  simp only at h1 h2 h3 h4 h5 h6
  have hw := in_pause_window_holds mpc
  cases dpc <;> simp only [demux_step] <;> (try split) <;> (try split) <;>
    simp_all [rendezvous_inv, demux_holds, demux_pausing]

theorem rendezvous_inv_main_step (s : rendezvous) (choice : Nat) (h : rendezvous_inv s) :
    rendezvous_inv (main_step s choice) := by
  obtain ⟨dpc, mpc, mutex, kill, req, paused, rp, rr, dc, mc⟩ := s
  obtain ⟨h1, h2, h3, h4, h5, h6⟩ := h
  simp only at h1 h2 h3 h4 h5 h6
  cases mpc <;> simp only [main_step] <;> (try split) <;> (try split) <;>
    simp_all [rendezvous_inv, main_holds, main_requesting, in_pause_window]


theorem rendezvous_inv_step (s : rendezvous) (a : sched_step) (h : rendezvous_inv s) :
    rendezvous_inv (thread_step s a) := by
  cases a with
  | demux choice => exact rendezvous_inv_demux_step s choice h
  | main choice => exact rendezvous_inv_main_step s choice h

theorem rendezvous_inv_foldl (sched : List sched_step) :
    ∀ s : rendezvous, rendezvous_inv s → rendezvous_inv (sched.foldl thread_step s) := by
  induction sched with
  | nil => intro s h; exact h
  | cons a rest ih =>
    intro s h
    exact ih (thread_step s a) (rendezvous_inv_step s a h)

theorem thread_run_inv (sched : List sched_step) : rendezvous_inv (thread_run sched) :=
  rendezvous_inv_foldl sched {} rendezvous_inv_init

theorem main_step_frame (s : rendezvous) (choice : Nat) :
    (main_step s choice).demux_calls = s.demux_calls ∧ (main_step s choice).demux = s.demux := by
  obtain ⟨dpc, mpc, mutex, kill, req, paused, rp, rr, dc, mc⟩ := s
  cases mpc <;> simp only [main_step] <;> (try split) <;> (try split) <;> simp

theorem demux_step_frame (s : rendezvous) (choice : Bool) :
    (demux_step s choice).main_calls = s.main_calls ∧ (demux_step s choice).main = s.main := by
  obtain ⟨dpc, mpc, mutex, kill, req, paused, rp, rr, dc, mc⟩ := s
  cases dpc <;> simp only [demux_step] <;> (try split) <;> (try split) <;> simp

theorem demux_step_parked (s : rendezvous) (choice : Bool)
    (hp : demux_parked s.demux = true) (hm : s.mutex = some thread_id.main) :
    demux_parked (demux_step s choice).demux = true ∧
    (demux_step s choice).demux_calls = s.demux_calls ∧
    (demux_step s choice).mutex = s.mutex := by
  obtain ⟨dpc, mpc, mutex, kill, req, paused, rp, rr, dc, mc⟩ := s
  simp only at hp hm
  subst hm
  cases dpc <;> simp_all [demux_step, demux_parked]

theorem demux_step_calls (s : rendezvous) (choice : Bool)
    (h : (demux_step s choice).demux_calls ≠ s.demux_calls) :
    demux_pausing s.demux = false ∧ demux_holds s.demux = false := by
  obtain ⟨dpc, mpc, mutex, kill, req, paused, rp, rr, dc, mc⟩ := s
  cases dpc <;> simp only [demux_step] at h <;> (try split at h) <;> (try split at h) <;>
    simp_all [demux_pausing, demux_holds]

theorem main_step_calls (s : rendezvous) (choice : Nat)
    (h : (main_step s choice).main_calls ≠ s.main_calls) : s.main = main_pc.work := by
  obtain ⟨dpc, mpc, mutex, kill, req, paused, rp, rr, dc, mc⟩ := s
  cases mpc <;> simp only [main_step] at h <;> (try split at h) <;> (try split at h) <;>
    simp_all


theorem pause_window_state (s : rendezvous) (h : rendezvous_inv s)
    (hw : in_pause_window s.main = true) :
    demux_parked s.demux = true ∧ s.mutex = some thread_id.main ∧
    s.thread_paused = true ∧ s.thread_request_pause = true := by
  obtain ⟨h1, h2, h3, h4, h5, _⟩ := h
  have hholds : main_holds s.main = true := by
    cases hm : main_holds s.main with
    | true => rfl
    | false =>
      rw [in_pause_window_holds s.main hm] at hw
      cases hw
  have hmutex := h2.mpr hholds
  have hpaused := h5 hw
  have hnot : demux_holds s.demux = false := by
    cases hd : demux_holds s.demux with
    | false => rfl
    | true =>
      have := h1.mpr hd
      rw [hmutex] at this
      cases this
  exact ⟨(demux_parked_iff s.demux).mpr ⟨h3 hpaused, hnot⟩, hmutex, hpaused,
    h4.mpr (in_pause_window_requesting s.main hw)⟩

theorem pause_window_calls (more : List sched_step) :
    ∀ s : rendezvous, rendezvous_inv s →
      (∀ k : Nat, k ≤ more.length →
        in_pause_window ((more.take k).foldl thread_step s).main = true) →
      (more.foldl thread_step s).demux_calls = s.demux_calls := by
  induction more with
  | nil => intro s _ _; rfl
  | cons a rest ih =>
    intro s h hw
    have h0 : in_pause_window s.main = true := hw 0 (Nat.zero_le _)
    obtain ⟨g1, g2, _, _⟩ := pause_window_state s h h0
    have hstep : (thread_step s a).demux_calls = s.demux_calls := by
      cases a with
      | demux choice => exact (demux_step_parked s choice g1 g2).2.1
      | main choice => exact (main_step_frame s choice).1
    have hrest := ih (thread_step s a) (rendezvous_inv_step s a h) (by
      intro k hk
      have := hw (k + 1) (by simp only [List.length_cons]; omega)
      simpa using this)
    simp only [List.foldl_cons]
    rw [hrest, hstep]

/-- C21: in every state the two threads of the wrapper reach, under every
schedule: while the main thread is between the return of `pause_thread` and
the call of `resume_thread`, the demuxer thread is parked in the
`pthread_cond_wait` of its pause loop, the main thread holds the mutex,
`thread_paused` and `thread_request_pause` are set, and no step of the
demuxer thread leaves that wait or calls into the inner demuxer, so over any
run of steps that stays in this window the number of calls the demuxer thread
has made into the inner demuxer does not change. A step of the demuxer
thread that calls into the inner demuxer is taken only with `thread_paused`
false and the main thread outside the window; a step of the main thread that
calls into it is taken only with the demuxer thread parked and both flags
set. The `assert` of `resume_thread` never fails. -/
theorem pause_rendezvous (sched : List sched_step) :
    (in_pause_window (thread_run sched).main = true →
      demux_parked (thread_run sched).demux = true ∧
      (thread_run sched).mutex = some thread_id.main ∧
      (thread_run sched).thread_paused = true ∧
      (thread_run sched).thread_request_pause = true ∧
      (∀ choice : Bool,
        demux_parked (demux_step (thread_run sched) choice).demux = true ∧
        (demux_step (thread_run sched) choice).demux_calls = (thread_run sched).demux_calls) ∧
      (∀ more : List sched_step,
        (∀ k : Nat, k ≤ more.length →
          in_pause_window (thread_run (sched ++ more.take k)).main = true) →
        (thread_run (sched ++ more)).demux_calls = (thread_run sched).demux_calls)) ∧
    (∀ a : sched_step,
      (thread_step (thread_run sched) a).demux_calls ≠ (thread_run sched).demux_calls →
      (thread_run sched).thread_paused = false ∧
      in_pause_window (thread_run sched).main = false) ∧
    (∀ a : sched_step,
      (thread_step (thread_run sched) a).main_calls ≠ (thread_run sched).main_calls →
      demux_parked (thread_run sched).demux = true ∧
      (thread_run sched).mutex = some thread_id.main ∧
      (thread_run sched).thread_paused = true ∧
      (thread_run sched).thread_request_pause = true) ∧
    (thread_run sched).main ≠ main_pc.aborted := by
  have hinv := thread_run_inv sched
  refine ⟨?_, ?_, ?_, hinv.2.2.2.2.2⟩
  · intro hw
    obtain ⟨g1, g2, g3, g4⟩ := pause_window_state _ hinv hw
    refine ⟨g1, g2, g3, g4, ?_, ?_⟩
    · intro choice
      have := demux_step_parked _ choice g1 g2
      exact ⟨this.1, this.2.1⟩
    · intro more hmore
      have := pause_window_calls more (thread_run sched) hinv (by
        intro k hk
        have := hmore k hk
        simpa [thread_run, List.foldl_append] using this)
      simpa [thread_run, List.foldl_append] using this
  · intro a ha
    cases a with
    | main choice => exact absurd (main_step_frame _ choice).1 ha
    | demux choice =>
      obtain ⟨k1, _⟩ := demux_step_calls _ choice ha
      have hp : (thread_run sched).thread_paused = false := by
        cases hpz : (thread_run sched).thread_paused with
        | false => rfl
        | true =>
          have := hinv.2.2.1 hpz
          rw [k1] at this
          cases this
      refine ⟨hp, ?_⟩
      cases hwz : in_pause_window (thread_run sched).main with
      | false => rfl
      | true =>
        have := hinv.2.2.2.2.1 hwz
        rw [hp] at this
        cases this
  · intro a ha
    cases a with
    | demux choice => exact absurd (demux_step_frame _ choice).1 ha
    | main choice =>
      have hwork := main_step_calls _ choice ha
      exact pause_window_state _ hinv (by rw [hwork]; rfl)

/-- Witness of C21: after `sample_schedule` the main thread is in the pause
window and the demuxer thread, which has made two calls into the inner
demuxer, is asleep in its pause loop; two more steps of the demuxer thread
and a call of the main thread into the inner demuxer leave that count at
two. -/
theorem pause_rendezvous_witness :
    in_pause_window (thread_run sample_schedule).main = true ∧
    (thread_run sample_schedule).demux = demux_pc.pause_asleep ∧
    (thread_run sample_schedule).demux_calls = 2 ∧
    (thread_run (sample_schedule ++
      [sched_step.demux true, sched_step.demux true, sched_step.main 4])).demux_calls = 2 ∧
    (thread_run (sample_schedule ++
      [sched_step.demux true, sched_step.demux true, sched_step.main 4])).main_calls = 1 ∧
    demux_parked (thread_run sample_schedule).demux = true ∧
    (thread_run sample_schedule).mutex = some thread_id.main :=
  ⟨by decide, by decide, by decide, by decide, by decide,
   ((pause_rendezvous sample_schedule).1 (by decide)).1,
   ((pause_rendezvous sample_schedule).1 (by decide)).2.1⟩

end Demux
